import Mathlib

/-!
# ROI Align kernels (`src/operator_cxx/roi_align.cc`)

A shallow embedding of the two CPU kernels `mshadow::ROIAlignForward` and
`mshadow::ROIAlignBackwardAcc`.  Tensors are flat buffers (`dptr_`) with their
shape; pointers are integer offsets into a buffer; every load and store is
bounds-checked against the buffer it goes to, and an access outside of it is
reported as a fault.  The kernels are embedded three times:

* `ROIAlignForward`, `ROIAlignBackwardAcc`: in exact arithmetic, where every
  `float`/`Dtype` value is a rational number and every `int` a mathematical
  integer, with the `assert`s in force (a failed `assert` is a fault);
* `ROIAlignForwardRelease`, `ROIAlignBackwardAccRelease`: as the file compiles,
  which it does only with `NDEBUG` defined, so that the `assert`s expand to
  nothing, and with the 32-bit wrap-around of `data_size` and of
  `data_size * roi_batch_ind`; on a valid input whose feature map has fewer than
  `2^31` elements they are the kernels of the first embedding
  (`forward_release_eq`, `backward_release_eq`);
* `ROIAlignForwardFP`, `ROIAlignBackwardAccFP`: as the file compiles, with
  `Dtype = float` and IEEE 754 arithmetic (rounding, infinities, NaNs).
-/

namespace mshadow

/-! ## Data model -/

/-- A `Tensor<cpu, 4, Dtype>`: the flat memory behind `dptr_` and `size(0..3)`. -/
structure Tensor4 where
  dptr : List ℚ
  size0 : Nat
  size1 : Nat
  size2 : Nat
  size3 : Nat

/-- A `Tensor<cpu, 2, Dtype>`: the flat memory behind `dptr_` and `size(0..1)`. -/
structure Tensor2 where
  dptr : List ℚ
  size0 : Nat
  size1 : Nat

/-- The ways a kernel stops early.  Each one carries the content of the buffer the
kernel writes (`out`, respectively `in_grad`) at the moment it stops. -/
inductive Fault where
  | assertion (mem : List ℚ)
  | access (mem : List ℚ)
  deriving DecidableEq

/-- Read `p[0]` for a pointer at offset `p` of the buffer `mem`. -/
def load (mem : List ℚ) (p : Int) : Option ℚ :=
  if 0 ≤ p then mem[p.toNat]? else none

/-- Write `p[0] = v` for a pointer at offset `p` of the buffer `mem`. -/
def store (mem : List ℚ) (p : Int) (v : ℚ) : Option (List ℚ) :=
  if 0 ≤ p ∧ p.toNat < mem.length then some (mem.set p.toNat v) else none

/-- The conversion `int i = x` of C++: truncation toward zero. -/
def castInt (q : ℚ) : Int :=
  if 0 ≤ q then ⌊q⌋ else ⌈q⌉

/-- The loop `for (int i = 0; i < n; ++i) body(i)`, threading the state `s` and
stopping at the first fault. -/
def forLoop {σ : Type} (n : Nat) (body : Nat → σ → Except Fault σ) (s : σ) :
    Except Fault σ :=
  match n with
  | 0 => .ok s
  | k + 1 =>
    match forLoop k body s with
    | .ok s' => body k s'
    | .error e => .error e

/-! ## Geometry shared by the two kernels (lines 73-76 and 156-159) -/

/-- The sample coordinate `float(p) * bin_size + roi_start`. -/
def sampleCoord (p : Nat) (bin_size roi_start : ℚ) : ℚ :=
  (p : ℚ) * bin_size + roi_start

/-- The anchor `fminf(floor(x_), size - 2)` converted to `int`. -/
def anchor (x_ : ℚ) (size : Nat) : Int :=
  min ⌊x_⌋ ((size : Int) - 2)

/-- The test `h_ >= 0 && h_ < height_ && w_ >= 0 && w_ < width_`. -/
def inBounds (h_ w_ : ℚ) (height_ width_ : Nat) : Prop :=
  h_ ≥ 0 ∧ h_ < height_ ∧ w_ ≥ 0 ∧ w_ < width_

instance (h_ w_ : ℚ) (height_ width_ : Nat) : Decidable (inBounds h_ w_ height_ width_) := by
  unfold inBounds; infer_instance

/-! ## ROIAlignForward (lines 23-107) -/

/-- The body of the innermost loop of `ROIAlignForward` (lines 73-94), for the
output cell `(ph, pw)`, in exact arithmetic; `batch_data` and `top_data` are the
current pointers into `data` and `out`.  `fwdCellFP` is the body in
floating-point arithmetic. -/
def fwdCell (data : List ℚ) (height_ width_ pooled_width_ : Nat)
    (roi_start_h roi_start_w bin_size_h bin_size_w : ℚ) (batch_data top_data : Int)
    (ph pw : Nat) (out : List ℚ) : Except Fault (List ℚ) :=
  let h_ : ℚ := sampleCoord ph bin_size_h roi_start_h
  let w_ : ℚ := sampleCoord pw bin_size_w roi_start_w
  let hstart : Int := anchor h_ height_
  let wstart : Int := anchor w_ width_
  let pool_index : Int := (ph : Int) * (pooled_width_ : Int) + (pw : Int)
  if h_ < 0 ∨ h_ ≥ height_ ∨ w_ < 0 ∨ w_ ≥ width_ then
    match store out (top_data + pool_index) 0 with
    | some out' => .ok out'
    | none => .error (.access out)
  else
    let h_ratio : ℚ := h_ - (hstart : ℚ)
    let w_ratio : ℚ := w_ - (wstart : ℚ)
    let upleft : Int := hstart * (width_ : Int) + wstart
    let upright : Int := upleft + 1
    let downleft : Int := upleft + (width_ : Int)
    let downright : Int := downleft + 1
    match load data (batch_data + upleft), load data (batch_data + upright),
        load data (batch_data + downleft), load data (batch_data + downright) with
    | some ul, some ur, some dl, some dr =>
      match store out (top_data + pool_index)
          (ul * (1 - h_ratio) * (1 - w_ratio) + ur * (1 - h_ratio) * w_ratio
            + dl * h_ratio * (1 - w_ratio) + dr * h_ratio * w_ratio) with
      | some out' => .ok out'
      | none => .error (.access out)
    | _, _, _, _ => .error (.access out)

/-- The state of the channel loop of `ROIAlignForward`: the memory of `out` and the
two pointers the loop advances (`argmax_data` is advanced too, but never
dereferenced, and is left out). -/
structure FwdChan where
  out : List ℚ
  batch_data : Int
  top_data : Int

/-- One iteration of the channel loop of `ROIAlignForward` (lines 66-101). -/
def fwdChannel (data out : Tensor4)
    (roi_start_h roi_start_w bin_size_h bin_size_w : ℚ) (_c : Nat) (s : FwdChan) :
    Except Fault FwdChan :=
  match forLoop out.size2 (fun ph => forLoop out.size3 (fun pw =>
      fwdCell data.dptr data.size2 data.size3 out.size3
        roi_start_h roi_start_w bin_size_h bin_size_w s.batch_data s.top_data ph pw)) s.out with
  | .ok out' =>
    .ok ⟨out', s.batch_data + ((data.size2 * data.size3 : Nat) : Int),
      s.top_data + ((out.size2 * out.size3 : Nat) : Int)⟩
  | .error e => .error e

/-- The state of the region loop of `ROIAlignForward`: the memory of `out` and the
pointers `top_data` and `bottom_rois`. -/
structure FwdState where
  out : List ℚ
  top_data : Int
  bottom_rois : Int

/-- One iteration of the region loop of `ROIAlignForward` (lines 45-104), with the
`assert`s of lines 52-53 in force and `int` as the mathematical integers.
`fwdRoiRelease` is the iteration as the file compiles it. -/
def fwdRoi (data out : Tensor4) (bbox : Tensor2) (spatial_scale_ : ℚ) (_n : Nat)
    (s : FwdState) : Except Fault FwdState :=
  let batch_size : Int := data.size0
  let data_size : Int := ((data.size1 * data.size2 * data.size3 : Nat) : Int)
  match load bbox.dptr s.bottom_rois, load bbox.dptr (s.bottom_rois + 1),
      load bbox.dptr (s.bottom_rois + 2), load bbox.dptr (s.bottom_rois + 3),
      load bbox.dptr (s.bottom_rois + 4) with
  | some r0, some r1, some r2, some r3, some r4 =>
    let roi_batch_ind : Int := castInt r0
    let roi_start_w : ℚ := r1 * spatial_scale_
    let roi_start_h : ℚ := r2 * spatial_scale_
    let roi_end_w : ℚ := r3 * spatial_scale_
    let roi_end_h : ℚ := r4 * spatial_scale_
    if ¬ (roi_batch_ind ≥ 0) then .error (.assertion s.out)
    else if ¬ (roi_batch_ind < batch_size) then .error (.assertion s.out)
    else
      let roi_height : ℚ := max (roi_end_h - roi_start_h) 0
      let roi_width : ℚ := max (roi_end_w - roi_start_w) 0
      let bin_size_h : ℚ := roi_height / (((out.size2 : Int) - 1 : Int) : ℚ)
      let bin_size_w : ℚ := roi_width / (((out.size3 : Int) - 1 : Int) : ℚ)
      let batch_data : Int := data_size * roi_batch_ind
      match forLoop data.size1
          (fwdChannel data out roi_start_h roi_start_w bin_size_h bin_size_w)
          ⟨s.out, batch_data, s.top_data⟩ with
      | .ok s' => .ok ⟨s'.out, s'.top_data, s.bottom_rois + (bbox.size1 : Int)⟩
      | .error e => .error e
  | _, _, _, _, _ => .error (.access s.out)

/-- The kernel `ROIAlignForward(out, data, bbox, max_idx, spatial_scale_)`; the result
is the memory of `out` after the call.  `max_idx` is never read or written. -/
def ROIAlignForward (out data : Tensor4) (bbox : Tensor2) (spatial_scale_ : ℚ) :
    Except Fault (List ℚ) :=
  match forLoop bbox.size0 (fwdRoi data out bbox spatial_scale_) ⟨out.dptr, 0, 0⟩ with
  | .ok s => .ok s.out
  | .error e => .error e

/-! ## ROIAlignBackwardAcc (lines 109-187) -/

/-- The statement `p[0] += v` for a pointer at offset `p` of the buffer `mem`, in exact
arithmetic.  `addAtDouble` and `addAtFloat` are the statement with its rounding. -/
def addAt (mem : List ℚ) (p : Int) (v : ℚ) : Option (List ℚ) :=
  match load mem p with
  | some old => store mem p (old + v)
  | none => none

/-- The body of the innermost loop of `ROIAlignBackwardAcc` (lines 156-174), for
the output cell `(ph, pw)`, in exact arithmetic; `batch_data` and `top_diff` are
the current pointers into `in_grad` and `out_grad`.  `bwdCellFP` is the body in
floating-point arithmetic. -/
def bwdCell (out_grad : List ℚ) (height_ width_ pooled_width_ : Nat)
    (roi_start_h roi_start_w bin_size_h bin_size_w : ℚ) (batch_data top_diff : Int)
    (ph pw : Nat) (grad : List ℚ) : Except Fault (List ℚ) :=
  let h_ : ℚ := sampleCoord ph bin_size_h roi_start_h
  let w_ : ℚ := sampleCoord pw bin_size_w roi_start_w
  let hstart : Int := anchor h_ height_
  let wstart : Int := anchor w_ width_
  let pool_index : Int := (ph : Int) * (pooled_width_ : Int) + (pw : Int)
  if h_ ≥ 0 ∧ h_ < height_ ∧ w_ ≥ 0 ∧ w_ < width_ then
    let h_ratio : ℚ := h_ - (hstart : ℚ)
    let w_ratio : ℚ := w_ - (wstart : ℚ)
    let upleft : Int := hstart * (width_ : Int) + wstart
    let upright : Int := upleft + 1
    let downleft : Int := upleft + (width_ : Int)
    let downright : Int := downleft + 1
    match load out_grad (top_diff + pool_index) with
    | none => .error (.access grad)
    | some t =>
      match addAt grad (batch_data + upleft) (t * (1 - h_ratio) * (1 - w_ratio)) with
      | none => .error (.access grad)
      | some g1 =>
        match addAt g1 (batch_data + upright) (t * (1 - h_ratio) * w_ratio) with
        | none => .error (.access g1)
        | some g2 =>
          match addAt g2 (batch_data + downleft) (t * h_ratio * (1 - w_ratio)) with
          | none => .error (.access g2)
          | some g3 =>
            match addAt g3 (batch_data + downright) (t * h_ratio * w_ratio) with
            | none => .error (.access g3)
            | some g4 => .ok g4
  else .ok grad

/-- The state of the channel loop of `ROIAlignBackwardAcc`: the memory of `in_grad`
and the two pointers the loop advances. -/
structure BwdChan where
  grad : List ℚ
  batch_data : Int
  top_diff : Int

/-- One iteration of the channel loop of `ROIAlignBackwardAcc` (lines 150-181). -/
def bwdChannel (in_grad out_grad : Tensor4)
    (roi_start_h roi_start_w bin_size_h bin_size_w : ℚ) (_c : Nat) (s : BwdChan) :
    Except Fault BwdChan :=
  match forLoop out_grad.size2 (fun ph => forLoop out_grad.size3 (fun pw =>
      bwdCell out_grad.dptr in_grad.size2 in_grad.size3 out_grad.size3
        roi_start_h roi_start_w bin_size_h bin_size_w s.batch_data s.top_diff ph pw)) s.grad with
  | .ok grad' =>
    .ok ⟨grad', s.batch_data + ((in_grad.size2 * in_grad.size3 : Nat) : Int),
      s.top_diff + ((out_grad.size2 * out_grad.size3 : Nat) : Int)⟩
  | .error e => .error e

/-- The state of the region loop of `ROIAlignBackwardAcc`: the memory of `in_grad`
and the pointers `top_diff` and `bottom_rois`. -/
structure BwdState where
  grad : List ℚ
  top_diff : Int
  bottom_rois : Int

/-- One iteration of the region loop of `ROIAlignBackwardAcc` (lines 131-184), with the
`assert`s of lines 137-138 in force and `int` as the mathematical integers.  The
second assertion compares with the name `batch_size`, which this function does
not declare (its local is `batch_size_`); the name is a parameter here.
`bwdRoiRelease` is the iteration as the file compiles it. -/
def bwdRoi (batch_size : Int) (in_grad out_grad : Tensor4) (bbox : Tensor2)
    (spatial_scale_ : ℚ) (_n : Nat) (s : BwdState) : Except Fault BwdState :=
  let data_size : Int := ((in_grad.size1 * in_grad.size2 * in_grad.size3 : Nat) : Int)
  match load bbox.dptr s.bottom_rois, load bbox.dptr (s.bottom_rois + 1),
      load bbox.dptr (s.bottom_rois + 2), load bbox.dptr (s.bottom_rois + 3),
      load bbox.dptr (s.bottom_rois + 4) with
  | some r0, some r1, some r2, some r3, some r4 =>
    let roi_batch_ind : Int := castInt r0
    let roi_start_w : ℚ := r1 * spatial_scale_
    let roi_start_h : ℚ := r2 * spatial_scale_
    let roi_end_w : ℚ := r3 * spatial_scale_
    let roi_end_h : ℚ := r4 * spatial_scale_
    if ¬ (roi_batch_ind ≥ 0) then .error (.assertion s.grad)
    else if ¬ (roi_batch_ind < batch_size) then .error (.assertion s.grad)
    else
      let roi_height : ℚ := max (roi_end_h - roi_start_h) 0
      let roi_width : ℚ := max (roi_end_w - roi_start_w) 0
      let bin_size_h : ℚ := roi_height / (((out_grad.size2 : Int) - 1 : Int) : ℚ)
      let bin_size_w : ℚ := roi_width / (((out_grad.size3 : Int) - 1 : Int) : ℚ)
      let batch_data : Int := data_size * roi_batch_ind
      match forLoop in_grad.size1
          (bwdChannel in_grad out_grad roi_start_h roi_start_w bin_size_h bin_size_w)
          ⟨s.grad, batch_data, s.top_diff⟩ with
      | .ok s' => .ok ⟨s'.grad, s'.top_diff, s.bottom_rois + (bbox.size1 : Int)⟩
      | .error e => .error e
  | _, _, _, _, _ => .error (.access s.grad)

/-- The kernel `ROIAlignBackwardAcc(in_grad, out_grad, bbox, max_idx, spatial_scale_)`;
the result is the memory of `in_grad` after the call. -/
def ROIAlignBackwardAcc (batch_size : Int) (in_grad out_grad : Tensor4) (bbox : Tensor2)
    (spatial_scale_ : ℚ) : Except Fault (List ℚ) :=
  match forLoop bbox.size0 (bwdRoi batch_size in_grad out_grad bbox spatial_scale_)
      ⟨in_grad.dptr, 0, 0⟩ with
  | .ok s => .ok s.grad
  | .error e => .error e

/-! ## Closed forms of one cell -/

/-- The value `ROIAlignForward` stores for the cell `(ph, pw)` when the channel plane
it reads starts at offset `base` of `data`. -/
def cellValue (data : List ℚ) (height_ width_ : Nat)
    (roi_start_h roi_start_w bin_size_h bin_size_w : ℚ) (base ph pw : Nat) : ℚ :=
  let h_ : ℚ := sampleCoord ph bin_size_h roi_start_h
  let w_ : ℚ := sampleCoord pw bin_size_w roi_start_w
  if inBounds h_ w_ height_ width_ then
    let h_ratio : ℚ := h_ - ((anchor h_ height_ : Int) : ℚ)
    let w_ratio : ℚ := w_ - ((anchor w_ width_ : Int) : ℚ)
    let upleft : Nat := base + (anchor h_ height_).toNat * width_ + (anchor w_ width_).toNat
    data.getD upleft 0 * (1 - h_ratio) * (1 - w_ratio)
      + data.getD (upleft + 1) 0 * (1 - h_ratio) * w_ratio
      + data.getD (upleft + width_) 0 * h_ratio * (1 - w_ratio)
      + data.getD (upleft + width_ + 1) 0 * h_ratio * w_ratio
  else 0

/-- The amount `ROIAlignBackwardAcc` adds to the cell at offset `j` of `in_grad` for
the output cell `(ph, pw)` with incoming gradient `t`, when the channel plane
it writes starts at offset `base`. -/
def cellGrad (t : ℚ) (height_ width_ : Nat)
    (roi_start_h roi_start_w bin_size_h bin_size_w : ℚ) (base ph pw j : Nat) : ℚ :=
  let h_ : ℚ := sampleCoord ph bin_size_h roi_start_h
  let w_ : ℚ := sampleCoord pw bin_size_w roi_start_w
  if inBounds h_ w_ height_ width_ then
    let h_ratio : ℚ := h_ - ((anchor h_ height_ : Int) : ℚ)
    let w_ratio : ℚ := w_ - ((anchor w_ width_ : Int) : ℚ)
    let upleft : Nat := base + (anchor h_ height_).toNat * width_ + (anchor w_ width_).toNat
    (if j = upleft then t * (1 - h_ratio) * (1 - w_ratio) else 0)
      + (if j = upleft + 1 then t * (1 - h_ratio) * w_ratio else 0)
      + (if j = upleft + width_ then t * h_ratio * (1 - w_ratio) else 0)
      + (if j = upleft + width_ + 1 then t * h_ratio * w_ratio else 0)
  else 0

/-! ## Regions and valid inputs -/

/-- The batch index `int roi_batch_ind = bottom_rois[0]` of region `n`. -/
def roiBatchInd (bbox : Tensor2) (n : Nat) : Int :=
  castInt (bbox.dptr.getD (n * 5) 0)

/-- The value `roi_start_w = bottom_rois[1] * spatial_scale_` of region `n`. -/
def roiStartW (bbox : Tensor2) (spatial_scale_ : ℚ) (n : Nat) : ℚ :=
  bbox.dptr.getD (n * 5 + 1) 0 * spatial_scale_

/-- The value `roi_start_h = bottom_rois[2] * spatial_scale_` of region `n`. -/
def roiStartH (bbox : Tensor2) (spatial_scale_ : ℚ) (n : Nat) : ℚ :=
  bbox.dptr.getD (n * 5 + 2) 0 * spatial_scale_

/-- The value `roi_end_w = bottom_rois[3] * spatial_scale_` of region `n`. -/
def roiEndW (bbox : Tensor2) (spatial_scale_ : ℚ) (n : Nat) : ℚ :=
  bbox.dptr.getD (n * 5 + 3) 0 * spatial_scale_

/-- The value `roi_end_h = bottom_rois[4] * spatial_scale_` of region `n`. -/
def roiEndH (bbox : Tensor2) (spatial_scale_ : ℚ) (n : Nat) : ℚ :=
  bbox.dptr.getD (n * 5 + 4) 0 * spatial_scale_

/-- The value `bin_size_h = fmaxf(roi_end_h - roi_start_h, 0) / (pooled_height_ - 1)`. -/
def binSizeH (bbox : Tensor2) (spatial_scale_ : ℚ) (pooled_height_ n : Nat) : ℚ :=
  max (roiEndH bbox spatial_scale_ n - roiStartH bbox spatial_scale_ n) 0
    / (((pooled_height_ : Int) - 1 : Int) : ℚ)

/-- The value `bin_size_w = fmaxf(roi_end_w - roi_start_w, 0) / (pooled_width_ - 1)`. -/
def binSizeW (bbox : Tensor2) (spatial_scale_ : ℚ) (pooled_width_ n : Nat) : ℚ :=
  max (roiEndW bbox spatial_scale_ n - roiStartW bbox spatial_scale_ n) 0
    / (((pooled_width_ : Int) - 1 : Int) : ℚ)

/-- The sample row `h_` of the output row `ph` of region `n`. -/
def sampleH (bbox : Tensor2) (spatial_scale_ : ℚ) (pooled_height_ n ph : Nat) : ℚ :=
  sampleCoord ph (binSizeH bbox spatial_scale_ pooled_height_ n) (roiStartH bbox spatial_scale_ n)

/-- The sample column `w_` of the output column `pw` of region `n`. -/
def sampleW (bbox : Tensor2) (spatial_scale_ : ℚ) (pooled_width_ n pw : Nat) : ℚ :=
  sampleCoord pw (binSizeW bbox spatial_scale_ pooled_width_ n) (roiStartW bbox spatial_scale_ n)

/-- A valid input of `ROIAlignForward`: the buffers have the sizes their shapes say,
`out` is `(num_rois, channels, PH, PW)`, `bbox` is `(num_rois, 5)`, the feature
map and the pooled output are at least 2 x 2, and every region names a batch
index inside `[0, batch_size)`. -/
structure ValidForward (out data : Tensor4) (bbox : Tensor2) : Prop where
  data_len : data.dptr.length = data.size0 * (data.size1 * (data.size2 * data.size3))
  out_len : out.dptr.length = bbox.size0 * (data.size1 * (out.size2 * out.size3))
  out_size0 : out.size0 = bbox.size0
  out_size1 : out.size1 = data.size1
  bbox_len : bbox.dptr.length = bbox.size0 * 5
  bbox_size1 : bbox.size1 = 5
  height : 2 ≤ data.size2
  width : 2 ≤ data.size3
  pooled_height : 2 ≤ out.size2
  pooled_width : 2 ≤ out.size3
  batch_ind : ∀ n, n < bbox.size0 → 0 ≤ roiBatchInd bbox n ∧ roiBatchInd bbox n < data.size0

/-- A valid input of `ROIAlignBackwardAcc`: as for the forward kernel, with `in_grad`
in the place of `data` and `out_grad` in the place of `out`; the batch indices
are also below the bound `batch_size` of the second assertion. -/
structure ValidBackward (batch_size : Int) (in_grad out_grad : Tensor4) (bbox : Tensor2) :
    Prop where
  shapes : ValidForward out_grad in_grad bbox
  batch_size : ∀ n, n < bbox.size0 → roiBatchInd bbox n < batch_size

/-! ## Closed forms of the two kernels -/

/-- The offset of the output element `(n, c, ph, pw)` of a row-major buffer of shape
`(_, C, PH, PW)`. -/
def flat4 (C PH PW n c ph pw : Nat) : Nat :=
  ((n * C + c) * PH + ph) * PW + pw

/-- The value `ROIAlignForward` stores for the cell `(ph, pw)` of channel `c` of
region `n`, read off the flat buffer of `data`. -/
def forwardValue (data : Tensor4) (bbox : Tensor2) (spatial_scale_ : ℚ)
    (pooled_height_ pooled_width_ n c ph pw : Nat) : ℚ :=
  cellValue data.dptr data.size2 data.size3
    (roiStartH bbox spatial_scale_ n) (roiStartW bbox spatial_scale_ n)
    (binSizeH bbox spatial_scale_ pooled_height_ n) (binSizeW bbox spatial_scale_ pooled_width_ n)
    (data.size1 * data.size2 * data.size3 * (roiBatchInd bbox n).toNat
      + c * (data.size2 * data.size3)) ph pw

/-- The amount `ROIAlignBackwardAcc` adds to the cell at offset `j` of `in_grad` for
the cell `(ph, pw)` of channel `c` of region `n`. -/
def backwardTerm (in_grad out_grad : Tensor4) (bbox : Tensor2) (spatial_scale_ : ℚ)
    (n c ph pw j : Nat) : ℚ :=
  cellGrad (out_grad.dptr.getD (flat4 in_grad.size1 out_grad.size2 out_grad.size3 n c ph pw) 0)
    in_grad.size2 in_grad.size3
    (roiStartH bbox spatial_scale_ n) (roiStartW bbox spatial_scale_ n)
    (binSizeH bbox spatial_scale_ out_grad.size2 n) (binSizeW bbox spatial_scale_ out_grad.size3 n)
    (in_grad.size1 * in_grad.size2 * in_grad.size3 * (roiBatchInd bbox n).toNat
      + c * (in_grad.size2 * in_grad.size3)) ph pw j

/-- The amount region `n` adds to the cell at offset `j` of `in_grad`. -/
def regionSum (in_grad out_grad : Tensor4) (bbox : Tensor2) (spatial_scale_ : ℚ)
    (n j : Nat) : ℚ :=
  ∑ c in Finset.range in_grad.size1, ∑ ph in Finset.range out_grad.size2,
    ∑ pw in Finset.range out_grad.size3,
      backwardTerm in_grad out_grad bbox spatial_scale_ n c ph pw j

/-- The amount a whole call of `ROIAlignBackwardAcc` adds to the cell at offset `j`. -/
def backwardSum (in_grad out_grad : Tensor4) (bbox : Tensor2) (spatial_scale_ : ℚ)
    (j : Nat) : ℚ :=
  ∑ n in Finset.range bbox.size0, regionSum in_grad out_grad bbox spatial_scale_ n j

/-- The four coefficients of lines 90-93 (and 170-173) at the sample point `(h_, w_)`:
those of `upleft`, `upright`, `downleft` and `downright`, in this order. -/
def bilinearWeights (h_ w_ : ℚ) (height_ width_ : Nat) : ℚ × ℚ × ℚ × ℚ :=
  let h_ratio : ℚ := h_ - ((anchor h_ height_ : Int) : ℚ)
  let w_ratio : ℚ := w_ - ((anchor w_ width_ : Int) : ℚ)
  ((1 - h_ratio) * (1 - w_ratio), (1 - h_ratio) * w_ratio,
    h_ratio * (1 - w_ratio), h_ratio * w_ratio)

/-! ## The forward value in the words of the specification -/

/-- The element `t[b, c, y, x]` of a tensor stored row-major. -/
def Tensor4.get (t : Tensor4) (b c y x : Nat) : ℚ :=
  t.dptr.getD (((b * t.size1 + c) * t.size2 + y) * t.size3 + x) 0

/-- The forward value of the output cell `(n, c, ph, pw)` in the words of the
specification: region corners times the scale, bin sizes `max(.,0)/(P-1)`,
sample point `(y_, x_)`, zero outside `[0,H) x [0,W)`, and the bilinear
combination of `X[b,c,ay,ax]`, `X[b,c,ay,ax+1]`, `X[b,c,ay+1,ax]`,
`X[b,c,ay+1,ax+1]` otherwise. -/
def specForward (X : Tensor4) (bbox : Tensor2) (scale : ℚ) (PH PW n c ph pw : Nat) : ℚ :=
  let x1 : ℚ := bbox.dptr.getD (n * 5 + 1) 0 * scale
  let y1 : ℚ := bbox.dptr.getD (n * 5 + 2) 0 * scale
  let x2 : ℚ := bbox.dptr.getD (n * 5 + 3) 0 * scale
  let y2 : ℚ := bbox.dptr.getD (n * 5 + 4) 0 * scale
  let bin_h : ℚ := max (y2 - y1) 0 / ((PH : ℚ) - 1)
  let bin_w : ℚ := max (x2 - x1) 0 / ((PW : ℚ) - 1)
  let y_ : ℚ := (ph : ℚ) * bin_h + y1
  let x_ : ℚ := (pw : ℚ) * bin_w + x1
  if y_ < 0 ∨ (X.size2 : ℚ) ≤ y_ ∨ x_ < 0 ∨ (X.size3 : ℚ) ≤ x_ then 0
  else
    let b : Nat := (castInt (bbox.dptr.getD (n * 5) 0)).toNat
    let ay : Nat := (min ⌊y_⌋ ((X.size2 : Int) - 2)).toNat
    let ax : Nat := (min ⌊x_⌋ ((X.size3 : Int) - 2)).toNat
    let dy : ℚ := y_ - (ay : ℚ)
    let dx : ℚ := x_ - (ax : ℚ)
    (1 - dy) * (1 - dx) * X.get b c ay ax + (1 - dy) * dx * X.get b c ay (ax + 1)
      + dy * (1 - dx) * X.get b c (ay + 1) ax + dy * dx * X.get b c (ay + 1) (ax + 1)

/-! ## Derived inputs -/

/-- A tensor of the shape of `t` over the memory `d`. -/
def withData (t : Tensor4) (d : List ℚ) : Tensor4 :=
  { t with dptr := d }

/-- A gradient buffer of the shape of `X`, filled with zeros. -/
def zeroGrad (X : Tensor4) : Tensor4 :=
  withData X (List.replicate X.dptr.length 0)

/-- The region list in which the entry `x2` of region `n` is replaced by its `x1`. -/
def collapseW (bbox : Tensor2) (n : Nat) : Tensor2 :=
  { bbox with dptr := bbox.dptr.set (n * 5 + 3) (bbox.dptr.getD (n * 5 + 1) 0) }

/-- The region list in which the entry `y2` of region `n` is replaced by its `y1`. -/
def collapseH (bbox : Tensor2) (n : Nat) : Tensor2 :=
  { bbox with dptr := bbox.dptr.set (n * 5 + 4) (bbox.dptr.getD (n * 5 + 2) 0) }

/-- The region list that holds region `n` of `bbox` alone. -/
def regionRois (bbox : Tensor2) (n : Nat) : Tensor2 :=
  ⟨(bbox.dptr.drop (n * 5)).take 5, 1, 5⟩

/-- The slice of the output gradient `G` that belongs to region `n`. -/
def regionGrad (G : Tensor4) (n : Nat) : Tensor4 :=
  ⟨(G.dptr.drop (n * (G.size1 * (G.size2 * G.size3)))).take (G.size1 * (G.size2 * G.size3)),
    1, G.size1, G.size2, G.size3⟩

/-- The list a kernel returns, and the empty list when it stops early. -/
def resultOf (r : Except Fault (List ℚ)) : List ℚ :=
  match r with
  | .ok l => l
  | .error _ => []

/-! ## The example of the operator description (lines 235-255) and other inputs -/

/-- The feature map `x` of the example: shape `1 x 1 x 8 x 6`, values `0..47`. -/
def exampleData : Tensor4 :=
  ⟨List.map (fun i : Nat => (i : ℚ)) (List.range 48), 1, 1, 8, 6⟩

/-- The region list `y = [[0,0,0,4,4]]` of the example. -/
def exampleRois : Tensor2 :=
  ⟨[0, 0, 0, 4, 4], 1, 5⟩

/-- An output buffer for the pooled size `(2,2)` of the example. -/
def exampleOut : Tensor4 :=
  ⟨[0, 0, 0, 0], 1, 1, 2, 2⟩

/-- A region that ends in the last row band of the example map: `[0, 0, 0, 0, 7.5]`. -/
def lastBandRois : Tensor2 :=
  ⟨[0, 0, 0, 0, 15 / 2], 1, 5⟩

/-- A region of zero width and non-zero height: `[0, 0, 0, 0, 4]`. -/
def zeroWidthRois : Tensor2 :=
  ⟨[0, 0, 0, 0, 4], 1, 5⟩

/-- A region of zero width and zero height: `[0, 2, 3, 2, 3]`. -/
def pointRois : Tensor2 :=
  ⟨[0, 2, 3, 2, 3], 1, 5⟩

/-- A malformed region, with `x2 < x1`: `[0, 3, 1, 1, 4]`. -/
def malformedRois : Tensor2 :=
  ⟨[0, 3, 1, 1, 4], 1, 5⟩

/-- Two overlapping regions of the example map that name the same batch index. -/
def twoRois : Tensor2 :=
  ⟨[0, 0, 0, 4, 4, 0, 1, 1, 3, 5], 2, 5⟩

/-- An output gradient for two regions, one channel and pooled size `(2,2)`. -/
def twoGrad : Tensor4 :=
  ⟨[1, 2, 3, 4, 5, 6, 7, 8], 2, 1, 2, 2⟩

/-! ## Neighbour offsets -/

/-- The four offsets `upleft`, `upright`, `downleft`, `downright` of lines 84-87 (and
165-168) within a channel plane, for the sample point `(h_, w_)`. -/
def neighbours (h_ w_ : ℚ) (height_ width_ : Nat) : Int × Int × Int × Int :=
  let hstart : Int := anchor h_ height_
  let wstart : Int := anchor w_ width_
  let upleft : Int := hstart * (width_ : Int) + wstart
  let upright : Int := upleft + 1
  let downleft : Int := upleft + (width_ : Int)
  let downright : Int := downleft + 1
  (upleft, upright, downleft, downright)

/-- A feature map of one row: shape `1 x 1 x 1 x 2`. -/
def oneRowData : Tensor4 :=
  ⟨[5, 6], 1, 1, 1, 2⟩

/-- The region `[0, 0, 0, 0, 0]`. -/
def originRois : Tensor2 :=
  ⟨[0, 0, 0, 0, 0], 1, 5⟩

/-- The entry at the offset `i` of a region list after its coordinates are multiplied
by `s`: the batch indices, at the offsets `5n`, are left as they are. -/
def scaleEntry (bbox : Tensor2) (s : ℚ) (i : Nat) : ℚ :=
  if i % 5 = 0 then bbox.dptr.getD i 0 else bbox.dptr.getD i 0 * s

/-- The region list in which every `x1`, `y1`, `x2`, `y2` is replaced by its product
with `s` and every batch index is left unscaled. -/
def scaleRois (bbox : Tensor2) (s : ℚ) : Tensor2 :=
  { bbox with dptr := List.map (scaleEntry bbox s) (List.range bbox.dptr.length) }

/-- The shape conditions of a valid input of `ROIAlignForward`: everything `ValidForward`
asks for except the range of the batch indices. -/
structure WellShaped (out data : Tensor4) (bbox : Tensor2) : Prop where
  data_len : data.dptr.length = data.size0 * (data.size1 * (data.size2 * data.size3))
  out_len : out.dptr.length = bbox.size0 * (data.size1 * (out.size2 * out.size3))
  out_size0 : out.size0 = bbox.size0
  out_size1 : out.size1 = data.size1
  bbox_len : bbox.dptr.length = bbox.size0 * 5
  bbox_size1 : bbox.size1 = 5
  height : 2 ≤ data.size2
  width : 2 ≤ data.size3
  pooled_height : 2 ≤ out.size2
  pooled_width : 2 ≤ out.size3

/-- The two assertions of lines 52-53 for region `n`: its batch index lies in
`[0, batch_size)`. -/
def batchIndOk (data : Tensor4) (bbox : Tensor2) (n : Nat) : Prop :=
  roiBatchInd bbox n ≥ 0 ∧ roiBatchInd bbox n < (data.size0 : Int)

/-- Two regions of the example map, the second with the batch index `1`, which the
map of batch size `1` does not have. -/
def badSecondRois : Tensor2 :=
  ⟨[0, 0, 0, 4, 4, 1, 0, 0, 4, 4], 2, 5⟩

/-- An output buffer for two regions, one channel and pooled size `(2,2)`, filled
with `7`. -/
def sevensOut : Tensor4 :=
  ⟨[7, 7, 7, 7, 7, 7, 7, 7], 2, 1, 2, 2⟩

/-! ## ROIAlignForward with a log of its stores -/

/-- The body of the innermost loop of `ROIAlignForward` with a ghost log: the one store
of the cell, line 80 or line 90, goes to `top_data[pool_index]`, and its offset
is appended to the log. -/
def fwdCellLog (data : List ℚ) (height_ width_ pooled_width_ : Nat)
    (roi_start_h roi_start_w bin_size_h bin_size_w : ℚ) (batch_data top_data : Int)
    (ph pw : Nat) (s : List ℚ × List Int) : Except Fault (List ℚ × List Int) :=
  match fwdCell data height_ width_ pooled_width_ roi_start_h roi_start_w bin_size_h bin_size_w
      batch_data top_data ph pw s.1 with
  | .ok out' => .ok (out', s.2 ++ [top_data + ((ph : Int) * (pooled_width_ : Int) + (pw : Int))])
  | .error e => .error e

/-- One iteration of the channel loop of `ROIAlignForward`, with the log. -/
def fwdChannelLog (data out : Tensor4)
    (roi_start_h roi_start_w bin_size_h bin_size_w : ℚ) (_c : Nat) (s : FwdChan × List Int) :
    Except Fault (FwdChan × List Int) :=
  match forLoop out.size2 (fun ph => forLoop out.size3 (fun pw =>
      fwdCellLog data.dptr data.size2 data.size3 out.size3
        roi_start_h roi_start_w bin_size_h bin_size_w s.1.batch_data s.1.top_data ph pw))
      (s.1.out, s.2) with
  | .ok r =>
    .ok (⟨r.1, s.1.batch_data + ((data.size2 * data.size3 : Nat) : Int),
      s.1.top_data + ((out.size2 * out.size3 : Nat) : Int)⟩, r.2)
  | .error e => .error e

/-- One iteration of the region loop of `ROIAlignForward`, with the log. -/
def fwdRoiLog (data out : Tensor4) (bbox : Tensor2) (spatial_scale_ : ℚ) (_n : Nat)
    (s : FwdState × List Int) : Except Fault (FwdState × List Int) :=
  let batch_size : Int := data.size0
  let data_size : Int := ((data.size1 * data.size2 * data.size3 : Nat) : Int)
  match load bbox.dptr s.1.bottom_rois, load bbox.dptr (s.1.bottom_rois + 1),
      load bbox.dptr (s.1.bottom_rois + 2), load bbox.dptr (s.1.bottom_rois + 3),
      load bbox.dptr (s.1.bottom_rois + 4) with
  | some r0, some r1, some r2, some r3, some r4 =>
    let roi_batch_ind : Int := castInt r0
    let roi_start_w : ℚ := r1 * spatial_scale_
    let roi_start_h : ℚ := r2 * spatial_scale_
    let roi_end_w : ℚ := r3 * spatial_scale_
    let roi_end_h : ℚ := r4 * spatial_scale_
    if ¬ (roi_batch_ind ≥ 0) then .error (.assertion s.1.out)
    else if ¬ (roi_batch_ind < batch_size) then .error (.assertion s.1.out)
    else
      let roi_height : ℚ := max (roi_end_h - roi_start_h) 0
      let roi_width : ℚ := max (roi_end_w - roi_start_w) 0
      let bin_size_h : ℚ := roi_height / (((out.size2 : Int) - 1 : Int) : ℚ)
      let bin_size_w : ℚ := roi_width / (((out.size3 : Int) - 1 : Int) : ℚ)
      let batch_data : Int := data_size * roi_batch_ind
      match forLoop data.size1
          (fwdChannelLog data out roi_start_h roi_start_w bin_size_h bin_size_w)
          (⟨s.1.out, batch_data, s.1.top_data⟩, s.2) with
      | .ok s' => .ok (⟨s'.1.out, s'.1.top_data, s.1.bottom_rois + (bbox.size1 : Int)⟩, s'.2)
      | .error e => .error e
  | _, _, _, _, _ => .error (.access s.1.out)

/-- The kernel `ROIAlignForward` with the log of the offsets of `out` it stores to, in
the order of the stores. -/
def ROIAlignForwardLog (out data : Tensor4) (bbox : Tensor2) (spatial_scale_ : ℚ) :
    Except Fault (List ℚ × List Int) :=
  match forLoop bbox.size0 (fwdRoiLog data out bbox spatial_scale_)
      (⟨out.dptr, 0, 0⟩, []) with
  | .ok s => .ok (s.1.out, s.2)
  | .error e => .error e

/-- The offsets `a, a+1, ..., a+n-1`. -/
def offsets (a n : Nat) : List Int :=
  List.map (fun i : Nat => ((a + i : Nat) : Int)) (List.range n)

/-! ## The kernels as the file compiles them -/

/-- The value a 32-bit `int` holds after a computation whose mathematical result is
`z`: two's complement wrap-around into `[-2^31, 2^31)`. -/
def wrapInt32 (z : Int) : Int :=
  (z + 2147483648) % 4294967296 - 2147483648

/-- One iteration of the region loop of `ROIAlignForward` (lines 45-104) as the file
compiles it.  The file compiles only with `NDEBUG` defined, because the assertion
of line 138 names `batch_size`, which `ROIAlignBackwardAcc` does not declare (its
local is `batch_size_`, line 120); with `NDEBUG` the `assert`s of lines 52-53 expand
to nothing, so the batch index is not tested.  `data_size` (line 43) and the
product `data_size * roi_batch_ind` (line 64) are 32-bit `int`s and wrap around.
The channel loop is `fwdChannel`, as in `fwdRoi`. -/
def fwdRoiRelease (data out : Tensor4) (bbox : Tensor2) (spatial_scale_ : ℚ) (_n : Nat)
    (s : FwdState) : Except Fault FwdState :=
  let data_size : Int := wrapInt32 ((data.size1 * data.size2 * data.size3 : Nat) : Int)
  match load bbox.dptr s.bottom_rois, load bbox.dptr (s.bottom_rois + 1),
      load bbox.dptr (s.bottom_rois + 2), load bbox.dptr (s.bottom_rois + 3),
      load bbox.dptr (s.bottom_rois + 4) with
  | some r0, some r1, some r2, some r3, some r4 =>
    let roi_batch_ind : Int := castInt r0
    let roi_start_w : ℚ := r1 * spatial_scale_
    let roi_start_h : ℚ := r2 * spatial_scale_
    let roi_end_w : ℚ := r3 * spatial_scale_
    let roi_end_h : ℚ := r4 * spatial_scale_
    let roi_height : ℚ := max (roi_end_h - roi_start_h) 0
    let roi_width : ℚ := max (roi_end_w - roi_start_w) 0
    let bin_size_h : ℚ := roi_height / (((out.size2 : Int) - 1 : Int) : ℚ)
    let bin_size_w : ℚ := roi_width / (((out.size3 : Int) - 1 : Int) : ℚ)
    let batch_data : Int := wrapInt32 (data_size * roi_batch_ind)
    match forLoop data.size1
        (fwdChannel data out roi_start_h roi_start_w bin_size_h bin_size_w)
        ⟨s.out, batch_data, s.top_data⟩ with
    | .ok s' => .ok ⟨s'.out, s'.top_data, s.bottom_rois + (bbox.size1 : Int)⟩
    | .error e => .error e
  | _, _, _, _, _ => .error (.access s.out)

/-- The kernel `ROIAlignForward` as the file compiles it (`NDEBUG`, 32-bit `int`); the
result is the memory of `out` after the call. -/
def ROIAlignForwardRelease (out data : Tensor4) (bbox : Tensor2) (spatial_scale_ : ℚ) :
    Except Fault (List ℚ) :=
  match forLoop bbox.size0 (fwdRoiRelease data out bbox spatial_scale_) ⟨out.dptr, 0, 0⟩ with
  | .ok s => .ok s.out
  | .error e => .error e

/-- One iteration of the region loop of `ROIAlignBackwardAcc` (lines 131-184) as the
file compiles it: the `assert`s of lines 137-138 expand to nothing, `data_size`
(line 129) and `data_size * roi_batch_ind` (line 148) are 32-bit `int`s.  The
channel loop is `bwdChannel`, as in `bwdRoi`. -/
def bwdRoiRelease (in_grad out_grad : Tensor4) (bbox : Tensor2)
    (spatial_scale_ : ℚ) (_n : Nat) (s : BwdState) : Except Fault BwdState :=
  let data_size : Int :=
    wrapInt32 ((in_grad.size1 * in_grad.size2 * in_grad.size3 : Nat) : Int)
  match load bbox.dptr s.bottom_rois, load bbox.dptr (s.bottom_rois + 1),
      load bbox.dptr (s.bottom_rois + 2), load bbox.dptr (s.bottom_rois + 3),
      load bbox.dptr (s.bottom_rois + 4) with
  | some r0, some r1, some r2, some r3, some r4 =>
    let roi_batch_ind : Int := castInt r0
    let roi_start_w : ℚ := r1 * spatial_scale_
    let roi_start_h : ℚ := r2 * spatial_scale_
    let roi_end_w : ℚ := r3 * spatial_scale_
    let roi_end_h : ℚ := r4 * spatial_scale_
    let roi_height : ℚ := max (roi_end_h - roi_start_h) 0
    let roi_width : ℚ := max (roi_end_w - roi_start_w) 0
    let bin_size_h : ℚ := roi_height / (((out_grad.size2 : Int) - 1 : Int) : ℚ)
    let bin_size_w : ℚ := roi_width / (((out_grad.size3 : Int) - 1 : Int) : ℚ)
    let batch_data : Int := wrapInt32 (data_size * roi_batch_ind)
    match forLoop in_grad.size1
        (bwdChannel in_grad out_grad roi_start_h roi_start_w bin_size_h bin_size_w)
        ⟨s.grad, batch_data, s.top_diff⟩ with
    | .ok s' => .ok ⟨s'.grad, s'.top_diff, s.bottom_rois + (bbox.size1 : Int)⟩
    | .error e => .error e
  | _, _, _, _, _ => .error (.access s.grad)

/-- The kernel `ROIAlignBackwardAcc` as the file compiles it (`NDEBUG`, 32-bit `int`);
the result is the memory of `in_grad` after the call. -/
def ROIAlignBackwardAccRelease (in_grad out_grad : Tensor4) (bbox : Tensor2)
    (spatial_scale_ : ℚ) : Except Fault (List ℚ) :=
  match forLoop bbox.size0 (bwdRoiRelease in_grad out_grad bbox spatial_scale_)
      ⟨in_grad.dptr, 0, 0⟩ with
  | .ok s => .ok s.grad
  | .error e => .error e

/-- A feature map of shape `2 x 1 x 65536 x 32768`, all zero: a channel plane has
`2^31` elements. -/
def hugeData : Tensor4 :=
  ⟨List.replicate 4294967296 0, 2, 1, 65536, 32768⟩

/-- One region in the second batch slice, with the corners `(0,0)` and `(1,1)`. -/
def hugeRois : Tensor2 :=
  ⟨[1, 0, 0, 1, 1], 1, 5⟩

/-- A region with the batch index `5` that lies wholly outside an `8 x 6` map. -/
def farRois : Tensor2 :=
  ⟨[5, 100, 100, 200, 200], 1, 5⟩

/-- The region of the operator description with the batch index `1`. -/
def secondSliceRois : Tensor2 :=
  ⟨[1, 0, 0, 4, 4], 1, 5⟩

/-- An output buffer for one region, one channel and pooled size `(2,2)`, filled
with `7`. -/
def sevenOut : Tensor4 :=
  ⟨[7, 7, 7, 7], 1, 1, 2, 2⟩

/-! ## Floating-point values -/

/-- A value of an IEEE 754 binary format: a finite number, an infinity (`neg` tells the
sign) or a NaN.  The two zeros are not told apart. -/
inductive FP where
  | fin (q : ℚ)
  | inf (neg : Bool)
  | nan
  deriving DecidableEq

/-- A binary format: the number of significand bits and the largest exponent. -/
structure Fmt where
  prec : Nat
  emax : Int

/-- The format of `float`. -/
def binary32 : Fmt := ⟨24, 127⟩

/-- The format of `double`. -/
def binary64 : Fmt := ⟨53, 1023⟩

/-- The integer nearest to `q`, the even one of the two when `q` lies halfway. -/
def roundEven (q : ℚ) : Int :=
  if q - ⌊q⌋ < 1 / 2 then ⌊q⌋
  else if q - ⌊q⌋ > 1 / 2 then ⌊q⌋ + 1
  else if ⌊q⌋ % 2 = 0 then ⌊q⌋ else ⌊q⌋ + 1

/-- Rounding of the real number `q` to the format, to nearest, ties to even: the
exponent `e` has `2^e <= |q| < 2^(e+1)` and is not below the least exponent
`1 - emax` (subnormal numbers), the spacing of the format there is
`2^(e - prec + 1)`, and a result of magnitude `2^(emax+1)` or more overflows to
an infinity. -/
def Fmt.round (f : Fmt) (q : ℚ) : FP :=
  if q = 0 then .fin 0
  else
    let e : Int := max (Int.log 2 |q|) (1 - f.emax)
    let quantum : ℚ := (2 : ℚ) ^ (e - (f.prec : Int) + 1)
    let r : ℚ := (roundEven (q / quantum) : ℚ) * quantum
    if |r| ≥ (2 : ℚ) ^ (f.emax + 1) then .inf (decide (q < 0)) else .fin r

/-- The negation `-a`. -/
def FP.neg : FP → FP
  | .fin a => .fin (-a)
  | .inf s => .inf (!s)
  | .nan => .nan

/-- The sum `a + b` computed in the format `f`; `inf - inf` is a NaN. -/
def FP.add (f : Fmt) : FP → FP → FP
  | .fin a, .fin b => f.round (a + b)
  | .fin _, .inf s => .inf s
  | .inf s, .fin _ => .inf s
  | .inf s, .inf t => if s = t then .inf s else .nan
  | _, _ => .nan

/-- The difference `a - b` computed in the format `f`. -/
def FP.sub (f : Fmt) (a b : FP) : FP :=
  FP.add f a (FP.neg b)

/-- The product `a * b` computed in the format `f`; `0 * inf` is a NaN. -/
def FP.mul (f : Fmt) : FP → FP → FP
  | .fin a, .fin b => f.round (a * b)
  | .fin a, .inf s => if a = 0 then .nan else .inf (xor s (decide (a < 0)))
  | .inf s, .fin b => if b = 0 then .nan else .inf (xor s (decide (b < 0)))
  | .inf s, .inf t => .inf (xor s t)
  | _, _ => .nan

/-- The quotient `a / b` computed in the format `f`; `0 / 0` and `inf / inf` are NaNs,
and the zero divisor counts as positive. -/
def FP.div (f : Fmt) : FP → FP → FP
  | .fin a, .fin b =>
    if b = 0 then (if a = 0 then .nan else .inf (decide (a < 0))) else f.round (a / b)
  | .fin _, .inf _ => .fin 0
  | .inf s, .fin b => .inf (xor s (decide (b < 0)))
  | _, _ => .nan

/-- The comparison `a < b`, false when an operand is a NaN. -/
def FP.lt : FP → FP → Bool
  | .fin a, .fin b => decide (a < b)
  | .fin _, .inf s => !s
  | .inf s, .fin _ => s
  | .inf s, .inf t => s && !t
  | _, _ => false

/-- The comparison `a >= b`, false when an operand is a NaN. -/
def FP.ge : FP → FP → Bool
  | .fin a, .fin b => decide (a ≥ b)
  | .fin _, .inf s => s
  | .inf s, .fin _ => !s
  | .inf s, .inf t => !s || t
  | _, _ => false

/-- The function `floor`. -/
def FP.floor : FP → FP
  | .fin a => .fin (⌊a⌋ : Int)
  | x => x

/-- The function `fminf`: the other operand when one is a NaN. -/
def FP.fmin : FP → FP → FP
  | .nan, b => b
  | a, .nan => a
  | a, b => if FP.lt a b then a else b

/-- The function `fmaxf`: the other operand when one is a NaN. -/
def FP.fmax : FP → FP → FP
  | .nan, b => b
  | a, .nan => a
  | a, b => if FP.lt a b then b else a

/-- The conversion to `int`, which truncates; it is undefined (`none`) for a NaN, an
infinity and a value outside the range of `int`. -/
def FP.toInt : FP → Option Int
  | .fin a =>
    if -2147483648 ≤ castInt a ∧ castInt a < 2147483648 then some (castInt a) else none
  | _ => none

/-- The conversion of a value to the format `f`. -/
def FP.cvt (f : Fmt) : FP → FP
  | .fin a => f.round a
  | x => x

/-! ## The kernels in floating-point arithmetic

The two kernels with `Dtype = float` as the file compiles them (`NDEBUG`, 32-bit `int`):
a `float` operation rounds to `binary32`, and an operation with a `double` operand, such
as the literal `1.`, is carried out in `binary64`.  A call returns `none` when it
reads or writes outside a buffer or converts to `int` a value that has no `int`. -/

/-- A tensor `Tensor<cpu, 4, float>`, as `Tensor4` with `float` elements. -/
structure Tensor4FP where
  dptr : List FP
  size0 : Nat
  size1 : Nat
  size2 : Nat
  size3 : Nat

/-- A tensor `Tensor<cpu, 2, float>`. -/
structure Tensor2FP where
  dptr : List FP
  size0 : Nat
  size1 : Nat

/-- The read `p[0]` for a pointer at offset `p` of the buffer `mem`. -/
def loadFP (mem : List FP) (p : Int) : Option FP :=
  if 0 ≤ p then mem[p.toNat]? else none

/-- The write `p[0] = v` for a pointer at offset `p` of the buffer `mem`. -/
def storeFP (mem : List FP) (p : Int) (v : FP) : Option (List FP) :=
  if 0 ≤ p ∧ p.toNat < mem.length then some (mem.set p.toNat v) else none

/-- The loop `for (int i = 0; i < n; ++i) body(i)`, as `forLoop`. -/
def forLoopFP {σ : Type} (n : Nat) (body : Nat → σ → Option σ) (s : σ) : Option σ :=
  match n with
  | 0 => some s
  | k + 1 =>
    match forLoopFP k body s with
    | some s' => body k s'
    | none => none

/-- The statement `p[0] += v` for a `double` `v`: the sum is a `double` sum, converted
to `float` by the assignment. -/
def addAtDouble (mem : List FP) (p : Int) (v : FP) : Option (List FP) :=
  match loadFP mem p with
  | some old => storeFP mem p (FP.cvt binary32 (FP.add binary64 old v))
  | none => none

/-- The statement `p[0] += v` for a `float` `v`. -/
def addAtFloat (mem : List FP) (p : Int) (v : FP) : Option (List FP) :=
  match loadFP mem p with
  | some old => storeFP mem p (FP.add binary32 old v)
  | none => none

/-- The body of the innermost loop of `ROIAlignBackwardAcc` (lines 156-174) in
floating-point arithmetic.  The increments of lines 170-172 are `double`s, the
increment of line 173 is a `float`. -/
def bwdCellFP (out_grad : List FP) (height_ width_ pooled_width_ : Nat)
    (roi_start_h roi_start_w bin_size_h bin_size_w : FP) (batch_data top_diff : Int)
    (ph pw : Nat) (grad : List FP) : Option (List FP) :=
  let h_ : FP := FP.add binary32 (FP.mul binary32 (binary32.round ph) bin_size_h) roi_start_h
  let w_ : FP := FP.add binary32 (FP.mul binary32 (binary32.round pw) bin_size_w) roi_start_w
  let pool_index : Int := (ph : Int) * (pooled_width_ : Int) + (pw : Int)
  if FP.ge h_ (.fin 0) && FP.lt h_ (binary32.round height_)
      && FP.ge w_ (.fin 0) && FP.lt w_ (binary32.round width_) then
    match FP.toInt (FP.fmin (FP.floor h_) (binary32.round (((height_ : Int) - 2 : Int) : ℚ))),
        FP.toInt (FP.fmin (FP.floor w_) (binary32.round (((width_ : Int) - 2 : Int) : ℚ))) with
    | some hstart, some wstart =>
      let h_ratio : FP := FP.sub binary32 h_ (binary32.round (hstart : ℚ))
      let w_ratio : FP := FP.sub binary32 w_ (binary32.round (wstart : ℚ))
      let upleft : Int := hstart * (width_ : Int) + wstart
      let upright : Int := upleft + 1
      let downleft : Int := upleft + (width_ : Int)
      let downright : Int := downleft + 1
      let one_h : FP := FP.sub binary64 (.fin 1) h_ratio
      let one_w : FP := FP.sub binary64 (.fin 1) w_ratio
      match loadFP out_grad (top_diff + pool_index) with
      | none => none
      | some t =>
        match addAtDouble grad (batch_data + upleft)
            (FP.mul binary64 (FP.mul binary64 t one_h) one_w) with
        | none => none
        | some g1 =>
          match addAtDouble g1 (batch_data + upright)
              (FP.mul binary64 (FP.mul binary64 t one_h) w_ratio) with
          | none => none
          | some g2 =>
            match addAtDouble g2 (batch_data + downleft)
                (FP.mul binary64 (FP.mul binary32 t h_ratio) one_w) with
            | none => none
            | some g3 =>
              addAtFloat g3 (batch_data + downright)
                (FP.mul binary32 (FP.mul binary32 t h_ratio) w_ratio)
    | _, _ => none
  else some grad

/-- The state of the channel loop of `ROIAlignBackwardAcc`, as `BwdChan`. -/
structure BwdChanFP where
  grad : List FP
  batch_data : Int
  top_diff : Int

/-- One iteration of the channel loop of `ROIAlignBackwardAcc` (lines 150-181). -/
def bwdChannelFP (in_grad out_grad : Tensor4FP)
    (roi_start_h roi_start_w bin_size_h bin_size_w : FP) (_c : Nat) (s : BwdChanFP) :
    Option BwdChanFP :=
  match forLoopFP out_grad.size2 (fun ph => forLoopFP out_grad.size3 (fun pw =>
      bwdCellFP out_grad.dptr in_grad.size2 in_grad.size3 out_grad.size3
        roi_start_h roi_start_w bin_size_h bin_size_w s.batch_data s.top_diff ph pw)) s.grad with
  | some grad' =>
    some ⟨grad', s.batch_data + ((in_grad.size2 * in_grad.size3 : Nat) : Int),
      s.top_diff + ((out_grad.size2 * out_grad.size3 : Nat) : Int)⟩
  | none => none

/-- The state of the region loop of `ROIAlignBackwardAcc`, as `BwdState`. -/
structure BwdStateFP where
  grad : List FP
  top_diff : Int
  bottom_rois : Int

/-- One iteration of the region loop of `ROIAlignBackwardAcc` (lines 131-184) in
floating-point arithmetic; the `assert`s of lines 137-138 expand to nothing, as in
`bwdRoiRelease`. -/
def bwdRoiFP (in_grad out_grad : Tensor4FP) (bbox : Tensor2FP)
    (spatial_scale_ : FP) (_n : Nat) (s : BwdStateFP) : Option BwdStateFP :=
  let data_size : Int :=
    wrapInt32 ((in_grad.size1 * in_grad.size2 * in_grad.size3 : Nat) : Int)
  match loadFP bbox.dptr s.bottom_rois, loadFP bbox.dptr (s.bottom_rois + 1),
      loadFP bbox.dptr (s.bottom_rois + 2), loadFP bbox.dptr (s.bottom_rois + 3),
      loadFP bbox.dptr (s.bottom_rois + 4) with
  | some r0, some r1, some r2, some r3, some r4 =>
    match FP.toInt r0 with
    | some roi_batch_ind =>
      let roi_start_w : FP := FP.mul binary32 r1 spatial_scale_
      let roi_start_h : FP := FP.mul binary32 r2 spatial_scale_
      let roi_end_w : FP := FP.mul binary32 r3 spatial_scale_
      let roi_end_h : FP := FP.mul binary32 r4 spatial_scale_
      let roi_height : FP := FP.fmax (FP.sub binary32 roi_end_h roi_start_h) (.fin 0)
      let roi_width : FP := FP.fmax (FP.sub binary32 roi_end_w roi_start_w) (.fin 0)
      let bin_size_h : FP :=
        FP.div binary32 roi_height (binary32.round (((out_grad.size2 : Int) - 1 : Int) : ℚ))
      let bin_size_w : FP :=
        FP.div binary32 roi_width (binary32.round (((out_grad.size3 : Int) - 1 : Int) : ℚ))
      let batch_data : Int := wrapInt32 (data_size * roi_batch_ind)
      match forLoopFP in_grad.size1
          (bwdChannelFP in_grad out_grad roi_start_h roi_start_w bin_size_h bin_size_w)
          ⟨s.grad, batch_data, s.top_diff⟩ with
      | some s' => some ⟨s'.grad, s'.top_diff, s.bottom_rois + (bbox.size1 : Int)⟩
      | none => none
    | none => none
  | _, _, _, _, _ => none

/-- The kernel `ROIAlignBackwardAcc` in floating-point arithmetic; the result is the
memory of `in_grad` after the call. -/
def ROIAlignBackwardAccFP (in_grad out_grad : Tensor4FP) (bbox : Tensor2FP)
    (spatial_scale_ : FP) : Option (List FP) :=
  match forLoopFP bbox.size0 (bwdRoiFP in_grad out_grad bbox spatial_scale_)
      ⟨in_grad.dptr, 0, 0⟩ with
  | some s => some s.grad
  | none => none

/-! ## Inputs of the floating-point kernels -/

/-- The region `[0,0,0,0,0]`. -/
def originRoisFP : Tensor2FP :=
  ⟨[.fin 0, .fin 0, .fin 0, .fin 0, .fin 0], 1, 5⟩

/-- The region `[0,0,0,0,0]` twice. -/
def twoOriginRoisFP : Tensor2FP :=
  ⟨[.fin 0, .fin 0, .fin 0, .fin 0, .fin 0, .fin 0, .fin 0, .fin 0, .fin 0, .fin 0], 2, 5⟩

/-- A zeroed `1 x 1 x 2 x 2` buffer. -/
def zeroGradFP : Tensor4FP :=
  ⟨[.fin 0, .fin 0, .fin 0, .fin 0], 1, 1, 2, 2⟩

/-- A `1 x 1 x 2 x 2` gradient buffer that holds `2^24` at `(0,0)`. -/
def bigGradFP : Tensor4FP :=
  ⟨[.fin 16777216, .fin 0, .fin 0, .fin 0], 1, 1, 2, 2⟩

/-- Output gradients `1` for one region, one channel and pooled size `(2,2)`. -/
def onesOutGradFP : Tensor4FP :=
  ⟨[.fin 1, .fin 1, .fin 1, .fin 1], 1, 1, 2, 2⟩

/-- Output gradients for one region: `2^24` at the cell `(0,0)`. -/
def bigOnlyOutGradFP : Tensor4FP :=
  ⟨[.fin 16777216, .fin 0, .fin 0, .fin 0], 1, 1, 2, 2⟩

/-- Output gradients for two regions: `2^24, 0, 0, 0` for the first and `1, 1, 1, 1` for
the second. -/
def bigFirstOutGradFP : Tensor4FP :=
  ⟨[.fin 16777216, .fin 0, .fin 0, .fin 0, .fin 1, .fin 1, .fin 1, .fin 1], 2, 1, 2, 2⟩

/-! ## Memory lemmas -/

theorem load_natCast (mem : List ℚ) (i : Nat) : load mem (i : Int) = mem[i]? := by
  simp [load]

theorem load_of_lt (mem : List ℚ) (i : Nat) (h : i < mem.length) :
    load mem (i : Int) = some (mem.getD i 0) := by
  rw [load_natCast, List.getD_eq_getElem?_getD, List.getElem?_eq_getElem h]
  rfl

theorem store_of_lt (mem : List ℚ) (i : Nat) (h : i < mem.length) (v : ℚ) :
    store mem (i : Int) v = some (mem.set i v) := by
  simp [store, h]

theorem addAt_of_lt (mem : List ℚ) (i : Nat) (h : i < mem.length) (v : ℚ) :
    addAt mem (i : Int) v = some (mem.set i (mem.getD i 0 + v)) := by
  rw [addAt, load_of_lt mem i h]
  exact store_of_lt mem i h _

theorem getD_set (mem : List ℚ) (i j : Nat) (h : i < mem.length) (v : ℚ) :
    (mem.set i v).getD j 0 = if j = i then v else mem.getD j 0 := by
  rw [List.getD_eq_getElem?_getD, List.getD_eq_getElem?_getD, List.getElem?_set]
  by_cases hij : i = j
  · subst hij
    simp [h]
  · have hji : ¬ j = i := fun e => hij e.symm
    simp [hij, hji]

theorem getD_of_getElem? (mem : List ℚ) (i : Nat) (v : ℚ) (h : mem[i]? = some v) :
    mem.getD i 0 = v := by
  rw [List.getD_eq_getElem?_getD, h]
  rfl

/-! ## Loop lemmas -/

/-- A loop whose iteration `k` fills the block `[start + k*blk, start + (k+1)*blk)` of the
memory and leaves the rest alone fills `[start, start + n*blk)`. -/
theorem forLoop_blocks {σ : Type} (mem : σ → List ℚ) (J : Nat → σ → Prop)
    (body : Nat → σ → Except Fault σ) (n blk start : Nat) (f : Nat → Nat → ℚ) (s0 : σ)
    (hJ0 : J 0 s0)
    (hstep : ∀ k, k < n → ∀ s, J k s → (mem s).length = (mem s0).length →
      ∃ s', body k s = .ok s' ∧ J (k + 1) s' ∧ (mem s').length = (mem s).length ∧
        (∀ r, r < blk → (mem s')[start + k * blk + r]? = some (f k r)) ∧
        (∀ i, (i < start + k * blk ∨ start + (k + 1) * blk ≤ i) →
          (mem s')[i]? = (mem s)[i]?)) :
    ∃ s', forLoop n body s0 = .ok s' ∧ J n s' ∧ (mem s').length = (mem s0).length ∧
      (∀ r, r < n * blk → (mem s')[start + r]? = some (f (r / blk) (r % blk))) ∧
      (∀ i, (i < start ∨ start + n * blk ≤ i) → (mem s')[i]? = (mem s0)[i]?) := by
  induction n with
  | zero =>
    exact ⟨s0, rfl, hJ0, rfl, fun r hr => by simp at hr, fun i _ => rfl⟩
  | succ k ih =>
    obtain ⟨s1, h1, hJ1, hl1, hw1, hf1⟩ :=
      ih (fun k' hk' s hJ hl => hstep k' (Nat.lt_succ_of_lt hk') s hJ hl)
    obtain ⟨s2, h2, hJ2, hl2, hw2, hf2⟩ := hstep k (Nat.lt_succ_self k) s1 hJ1 hl1
    refine ⟨s2, ?_, hJ2, hl2.trans hl1, ?_, ?_⟩
    · simp only [forLoop, h1]
      exact h2
    · intro r hr
      by_cases hlt : r < k * blk
      · rw [hf2 (start + r) (Or.inl (by omega))]
        exact hw1 r hlt
      · have hsm : (k + 1) * blk = k * blk + blk := Nat.succ_mul k blk
        have hr' : r - k * blk < blk := by omega
        have hpos : 0 < blk := by omega
        have hre : r = (r - k * blk) + k * blk := by omega
        have hdiv : r / blk = k := by
          rw [hre, Nat.add_mul_div_right _ _ hpos, Nat.div_eq_of_lt hr']
          simp
        have hmod : r % blk = r - k * blk := by
          rw [hre, Nat.add_mul_mod_self_right, Nat.mod_eq_of_lt hr']
          omega
        rw [hdiv, hmod]
        have := hw2 (r - k * blk) hr'
        have he : start + k * blk + (r - k * blk) = start + r := by omega
        rw [he] at this
        exact this
    · intro i hi
      have hsm : (k + 1) * blk = k * blk + blk := Nat.succ_mul k blk
      rw [hf2 i (by omega)]
      exact hf1 i (by omega)

/-- A loop whose iteration `k` adds `a k j` to every cell `j` of the memory adds the
sum of the `a k j` over its iterations. -/
theorem forLoop_accum {σ : Type} (mem : σ → List ℚ) (J : Nat → σ → Prop)
    (body : Nat → σ → Except Fault σ) (n : Nat) (a : Nat → Nat → ℚ) (s0 : σ)
    (hJ0 : J 0 s0)
    (hstep : ∀ k, k < n → ∀ s, J k s → (mem s).length = (mem s0).length →
      ∃ s', body k s = .ok s' ∧ J (k + 1) s' ∧ (mem s').length = (mem s).length ∧
        (∀ j, (mem s').getD j 0 = (mem s).getD j 0 + a k j)) :
    ∃ s', forLoop n body s0 = .ok s' ∧ J n s' ∧ (mem s').length = (mem s0).length ∧
      (∀ j, (mem s').getD j 0 = (mem s0).getD j 0 + ∑ k in Finset.range n, a k j) := by
  induction n with
  | zero =>
    exact ⟨s0, rfl, hJ0, rfl, fun j => by simp⟩
  | succ k ih =>
    obtain ⟨s1, h1, hJ1, hl1, ha1⟩ :=
      ih (fun k' hk' s hJ hl => hstep k' (Nat.lt_succ_of_lt hk') s hJ hl)
    obtain ⟨s2, h2, hJ2, hl2, ha2⟩ := hstep k (Nat.lt_succ_self k) s1 hJ1 hl1
    refine ⟨s2, ?_, hJ2, hl2.trans hl1, ?_⟩
    · simp only [forLoop, h1]
      exact h2
    · intro j
      rw [ha2 j, ha1 j, Finset.sum_range_succ]
      ring

/-! ## One cell -/

theorem anchor_bounds (x_ : ℚ) (size : Nat) (h0 : 0 ≤ x_) (hs : 2 ≤ size) :
    ((anchor x_ size).toNat : Int) = anchor x_ size ∧ (anchor x_ size).toNat + 2 ≤ size := by
  have hf : 0 ≤ ⌊x_⌋ := Int.floor_nonneg.mpr h0
  unfold anchor
  omega

theorem plane_room (base H W ay ax : Nat) (hay : ay + 2 ≤ H) (hax : ax + 2 ≤ W) :
    base + ay * W + ax + W + 1 < base + H * W := by
  have h1 : (ay + 2) * W ≤ H * W := Nat.mul_le_mul_right W hay
  rw [Nat.add_mul] at h1
  omega

theorem fwdCell_ok (data : List ℚ) (H W PW : Nat) (y1 x1 bh bw : ℚ) (base top ph pw : Nat)
    (out : List ℚ) (hH : 2 ≤ H) (hW : 2 ≤ W) (hbase : base + H * W ≤ data.length)
    (htop : top + ph * PW + pw < out.length) :
    fwdCell data H W PW y1 x1 bh bw (base : Int) (top : Int) ph pw out
      = .ok (out.set (top + ph * PW + pw) (cellValue data H W y1 x1 bh bw base ph pw)) := by
  have hp : (top : Int) + ((ph : Int) * (PW : Int) + (pw : Int))
      = ((top + ph * PW + pw : Nat) : Int) := by
    push_cast; ring
  unfold fwdCell cellValue
  simp only [hp, store_of_lt out _ htop]
  by_cases hb : inBounds (sampleCoord ph bh y1) (sampleCoord pw bw x1) H W
  · have hb' := hb
    obtain ⟨h1, h2, h3, h4⟩ := hb'
    have hn : ¬ (sampleCoord ph bh y1 < 0 ∨ sampleCoord ph bh y1 ≥ H
        ∨ sampleCoord pw bw x1 < 0 ∨ sampleCoord pw bw x1 ≥ W) := by
      simp only [not_or, not_lt, ge_iff_le, not_le]
      exact ⟨h1, h2, h3, h4⟩
    rw [if_neg hn, if_pos hb]
    obtain ⟨hay, hay2⟩ := anchor_bounds _ H h1 hH
    obtain ⟨hax, hax2⟩ := anchor_bounds _ W h3 hW
    have hroom := plane_room base H W _ _ hay2 hax2
    have e1 : (base : Int) + (anchor (sampleCoord ph bh y1) H * (W : Int)
        + anchor (sampleCoord pw bw x1) W)
        = ((base + (anchor (sampleCoord ph bh y1) H).toNat * W
            + (anchor (sampleCoord pw bw x1) W).toNat : Nat) : Int) := by
      push_cast; rw [hay, hax]; ring
    have e2 : (base : Int) + (anchor (sampleCoord ph bh y1) H * (W : Int)
        + anchor (sampleCoord pw bw x1) W + 1)
        = ((base + (anchor (sampleCoord ph bh y1) H).toNat * W
            + (anchor (sampleCoord pw bw x1) W).toNat + 1 : Nat) : Int) := by
      push_cast; rw [hay, hax]; ring
    have e3 : (base : Int) + (anchor (sampleCoord ph bh y1) H * (W : Int)
        + anchor (sampleCoord pw bw x1) W + (W : Int))
        = ((base + (anchor (sampleCoord ph bh y1) H).toNat * W
            + (anchor (sampleCoord pw bw x1) W).toNat + W : Nat) : Int) := by
      push_cast; rw [hay, hax]; ring
    have e4 : (base : Int) + (anchor (sampleCoord ph bh y1) H * (W : Int)
        + anchor (sampleCoord pw bw x1) W + (W : Int) + 1)
        = ((base + (anchor (sampleCoord ph bh y1) H).toNat * W
            + (anchor (sampleCoord pw bw x1) W).toNat + W + 1 : Nat) : Int) := by
      push_cast; rw [hay, hax]; ring
    simp only [e1, e2, e3, e4]
    rw [load_of_lt data _ (by omega), load_of_lt data _ (by omega),
      load_of_lt data _ (by omega), load_of_lt data _ (by omega)]
  · have hn : (sampleCoord ph bh y1 < 0 ∨ sampleCoord ph bh y1 ≥ H
        ∨ sampleCoord pw bw x1 < 0 ∨ sampleCoord pw bw x1 ≥ W) := by
      by_contra hc
      simp only [not_or, not_lt, ge_iff_le, not_le] at hc
      exact hb hc
    rw [if_pos hn, if_neg hb]

theorem addAt_spec (mem : List ℚ) (i : Nat) (h : i < mem.length) (v : ℚ) :
    ∃ m', addAt mem (i : Int) v = some m' ∧ m'.length = mem.length ∧
      ∀ j, m'.getD j 0 = mem.getD j 0 + (if j = i then v else 0) := by
  refine ⟨_, addAt_of_lt mem i h v, List.length_set _ _ _, fun j => ?_⟩
  rw [getD_set mem i j h]
  by_cases hj : j = i
  · simp [hj]
  · simp [hj]

theorem bwdCell_ok (G : List ℚ) (H W PW : Nat) (y1 x1 bh bw : ℚ) (base top ph pw : Nat)
    (grad : List ℚ) (hH : 2 ≤ H) (hW : 2 ≤ W) (hbase : base + H * W ≤ grad.length)
    (htop : top + ph * PW + pw < G.length) :
    ∃ g', bwdCell G H W PW y1 x1 bh bw (base : Int) (top : Int) ph pw grad = .ok g' ∧
      g'.length = grad.length ∧
      ∀ j, g'.getD j 0 = grad.getD j 0
        + cellGrad (G.getD (top + ph * PW + pw) 0) H W y1 x1 bh bw base ph pw j := by
  have hp : (top : Int) + ((ph : Int) * (PW : Int) + (pw : Int))
      = ((top + ph * PW + pw : Nat) : Int) := by
    push_cast; ring
  unfold bwdCell cellGrad
  simp only [hp, load_of_lt G _ htop]
  by_cases hb : inBounds (sampleCoord ph bh y1) (sampleCoord pw bw x1) H W
  · have hb' := hb
    obtain ⟨h1, h2, h3, h4⟩ := hb'
    rw [if_pos (show sampleCoord ph bh y1 ≥ 0 ∧ sampleCoord ph bh y1 < H
        ∧ sampleCoord pw bw x1 ≥ 0 ∧ sampleCoord pw bw x1 < W from hb)]
    simp only [if_pos hb]
    obtain ⟨hay, hay2⟩ := anchor_bounds _ H h1 hH
    obtain ⟨hax, hax2⟩ := anchor_bounds _ W h3 hW
    have hroom := plane_room base H W _ _ hay2 hax2
    have e1 : (base : Int) + (anchor (sampleCoord ph bh y1) H * (W : Int)
        + anchor (sampleCoord pw bw x1) W)
        = ((base + (anchor (sampleCoord ph bh y1) H).toNat * W
            + (anchor (sampleCoord pw bw x1) W).toNat : Nat) : Int) := by
      push_cast; rw [hay, hax]; ring
    have e2 : (base : Int) + (anchor (sampleCoord ph bh y1) H * (W : Int)
        + anchor (sampleCoord pw bw x1) W + 1)
        = ((base + (anchor (sampleCoord ph bh y1) H).toNat * W
            + (anchor (sampleCoord pw bw x1) W).toNat + 1 : Nat) : Int) := by
      push_cast; rw [hay, hax]; ring
    have e3 : (base : Int) + (anchor (sampleCoord ph bh y1) H * (W : Int)
        + anchor (sampleCoord pw bw x1) W + (W : Int))
        = ((base + (anchor (sampleCoord ph bh y1) H).toNat * W
            + (anchor (sampleCoord pw bw x1) W).toNat + W : Nat) : Int) := by
      push_cast; rw [hay, hax]; ring
    have e4 : (base : Int) + (anchor (sampleCoord ph bh y1) H * (W : Int)
        + anchor (sampleCoord pw bw x1) W + (W : Int) + 1)
        = ((base + (anchor (sampleCoord ph bh y1) H).toNat * W
            + (anchor (sampleCoord pw bw x1) W).toNat + W + 1 : Nat) : Int) := by
      push_cast; rw [hay, hax]; ring
    simp only [e1, e2, e3, e4]
    obtain ⟨g1, hg1, hl1, hv1⟩ := addAt_spec grad _ (by omega : base
      + (anchor (sampleCoord ph bh y1) H).toNat * W
      + (anchor (sampleCoord pw bw x1) W).toNat < grad.length)
      (G.getD (top + ph * PW + pw) 0
        * (1 - (sampleCoord ph bh y1 - ((anchor (sampleCoord ph bh y1) H : Int) : ℚ)))
        * (1 - (sampleCoord pw bw x1 - ((anchor (sampleCoord pw bw x1) W : Int) : ℚ))))
    obtain ⟨g2, hg2, hl2, hv2⟩ := addAt_spec g1 _ (by omega : base
      + (anchor (sampleCoord ph bh y1) H).toNat * W
      + (anchor (sampleCoord pw bw x1) W).toNat + 1 < g1.length)
      (G.getD (top + ph * PW + pw) 0
        * (1 - (sampleCoord ph bh y1 - ((anchor (sampleCoord ph bh y1) H : Int) : ℚ)))
        * (sampleCoord pw bw x1 - ((anchor (sampleCoord pw bw x1) W : Int) : ℚ)))
    obtain ⟨g3, hg3, hl3, hv3⟩ := addAt_spec g2 _ (by omega : base
      + (anchor (sampleCoord ph bh y1) H).toNat * W
      + (anchor (sampleCoord pw bw x1) W).toNat + W < g2.length)
      (G.getD (top + ph * PW + pw) 0
        * (sampleCoord ph bh y1 - ((anchor (sampleCoord ph bh y1) H : Int) : ℚ))
        * (1 - (sampleCoord pw bw x1 - ((anchor (sampleCoord pw bw x1) W : Int) : ℚ))))
    obtain ⟨g4, hg4, hl4, hv4⟩ := addAt_spec g3 _ (by omega : base
      + (anchor (sampleCoord ph bh y1) H).toNat * W
      + (anchor (sampleCoord pw bw x1) W).toNat + W + 1 < g3.length)
      (G.getD (top + ph * PW + pw) 0
        * (sampleCoord ph bh y1 - ((anchor (sampleCoord ph bh y1) H : Int) : ℚ))
        * (sampleCoord pw bw x1 - ((anchor (sampleCoord pw bw x1) W : Int) : ℚ)))
    refine ⟨g4, ?_, by omega, fun j => ?_⟩
    · simp only [hg1, hg2, hg3, hg4]
    · rw [hv4 j, hv3 j, hv2 j, hv1 j]
      ring
  · rw [if_neg (show ¬ (sampleCoord ph bh y1 ≥ 0 ∧ sampleCoord ph bh y1 < H
        ∧ sampleCoord pw bw x1 ≥ 0 ∧ sampleCoord pw bw x1 < W) from hb)]
    simp only [if_neg hb]
    exact ⟨grad, rfl, rfl, fun j => by simp⟩

/-! ## The loops of ROIAlignForward -/

theorem succ_mul_le (k n b : Nat) (h : k < n) : k * b + b ≤ n * b := by
  have h1 : (k + 1) * b ≤ n * b := Nat.mul_le_mul_right b h
  rw [Nat.succ_mul] at h1
  exact h1

theorem fwd_row (data : List ℚ) (H W PW : Nat) (y1 x1 bh bw : ℚ) (base top ph : Nat)
    (out0 : List ℚ) (hH : 2 ≤ H) (hW : 2 ≤ W) (hbase : base + H * W ≤ data.length)
    (htop : top + ph * PW + PW ≤ out0.length) :
    ∃ out', forLoop PW (fun pw => fwdCell data H W PW y1 x1 bh bw base top ph pw) out0
        = .ok out' ∧ out'.length = out0.length ∧
      (∀ r, r < PW →
        out'[top + ph * PW + r]? = some (cellValue data H W y1 x1 bh bw base ph r)) ∧
      (∀ i, (i < top + ph * PW ∨ top + ph * PW + PW ≤ i) → out'[i]? = out0[i]?) := by
  have key := forLoop_blocks (fun s : List ℚ => s) (fun _ _ => True)
    (fun pw => fwdCell data H W PW y1 x1 bh bw base top ph pw) PW 1 (top + ph * PW)
    (fun k _ => cellValue data H W y1 x1 bh bw base ph k) out0 trivial
    (by
      intro k hk s _ hl
      have hlt : top + ph * PW + k < s.length := by
        have : s.length = out0.length := hl
        omega
      refine ⟨_, fwdCell_ok data H W PW y1 x1 bh bw base top ph k s hH hW hbase hlt,
        trivial, List.length_set _ _ _, ?_, ?_⟩
      · intro r hr
        have hr0 : r = 0 := by omega
        subst hr0
        simp only [Nat.mul_one, Nat.add_zero]
        rw [List.getElem?_set, if_pos rfl, if_pos hlt]
      · intro i hi
        show (s.set _ _)[i]? = s[i]?
        rw [List.getElem?_set, if_neg (by omega)])
  obtain ⟨out', h, -, hl, hw, hf⟩ := key
  refine ⟨out', h, hl, ?_, ?_⟩
  · intro r hr
    have := hw r (by omega)
    simpa using this
  · intro i hi
    exact hf i (by omega)

theorem fwd_plane (data : List ℚ) (H W PH PW : Nat) (y1 x1 bh bw : ℚ) (base top : Nat)
    (out0 : List ℚ) (hH : 2 ≤ H) (hW : 2 ≤ W) (hbase : base + H * W ≤ data.length)
    (htop : top + PH * PW ≤ out0.length) :
    ∃ out', forLoop PH (fun ph => forLoop PW (fun pw =>
        fwdCell data H W PW y1 x1 bh bw base top ph pw)) out0 = .ok out' ∧
      out'.length = out0.length ∧
      (∀ r, r < PH * PW →
        out'[top + r]? = some (cellValue data H W y1 x1 bh bw base (r / PW) (r % PW))) ∧
      (∀ i, (i < top ∨ top + PH * PW ≤ i) → out'[i]? = out0[i]?) := by
  have key := forLoop_blocks (fun s : List ℚ => s) (fun _ _ => True)
    (fun ph => forLoop PW (fun pw => fwdCell data H W PW y1 x1 bh bw base top ph pw))
    PH PW top (fun k r => cellValue data H W y1 x1 bh bw base k r) out0 trivial
    (by
      intro k hk s _ hl
      have hle := succ_mul_le k PH PW hk
      have hl' : s.length = out0.length := hl
      obtain ⟨out', h, hlen, hw, hf⟩ := fwd_row data H W PW y1 x1 bh bw base top k s hH hW
        hbase (by omega)
      refine ⟨out', h, trivial, hlen, hw, ?_⟩
      intro i hi
      exact hf i (by rw [Nat.succ_mul] at hi; omega))
  obtain ⟨out', h, -, hl, hw, hf⟩ := key
  exact ⟨out', h, hl, hw, hf⟩

theorem fwd_channels (data out : Tensor4) (y1 x1 bh bw : ℚ) (base0 top0 : Nat)
    (out0 : List ℚ) (hH : 2 ≤ data.size2) (hW : 2 ≤ data.size3)
    (hbase : base0 + data.size1 * (data.size2 * data.size3) ≤ data.dptr.length)
    (htop : top0 + data.size1 * (out.size2 * out.size3) ≤ out0.length) :
    ∃ s', forLoop data.size1 (fwdChannel data out y1 x1 bh bw)
        ⟨out0, (base0 : Int), (top0 : Int)⟩ = .ok s' ∧
      s'.top_data = ((top0 + data.size1 * (out.size2 * out.size3) : Nat) : Int) ∧
      s'.out.length = out0.length ∧
      (∀ r, r < data.size1 * (out.size2 * out.size3) →
        s'.out[top0 + r]? = some (cellValue data.dptr data.size2 data.size3 y1 x1 bh bw
          (base0 + r / (out.size2 * out.size3) * (data.size2 * data.size3))
          (r % (out.size2 * out.size3) / out.size3)
          (r % (out.size2 * out.size3) % out.size3))) ∧
      (∀ i, (i < top0 ∨ top0 + data.size1 * (out.size2 * out.size3) ≤ i) →
        s'.out[i]? = out0[i]?) := by
  have key := forLoop_blocks (fun s : FwdChan => s.out)
    (fun k s => s.batch_data = ((base0 + k * (data.size2 * data.size3) : Nat) : Int)
      ∧ s.top_data = ((top0 + k * (out.size2 * out.size3) : Nat) : Int))
    (fwdChannel data out y1 x1 bh bw) data.size1 (out.size2 * out.size3) top0
    (fun k r => cellValue data.dptr data.size2 data.size3 y1 x1 bh bw
      (base0 + k * (data.size2 * data.size3)) (r / out.size3) (r % out.size3))
    ⟨out0, (base0 : Int), (top0 : Int)⟩ (by simp)
    (by
      intro k hk s hJ hl
      have hle1 := succ_mul_le k data.size1 (data.size2 * data.size3) hk
      have hle2 := succ_mul_le k data.size1 (out.size2 * out.size3) hk
      have hl' : s.out.length = out0.length := hl
      obtain ⟨out', h, hlen, hw, hf⟩ := fwd_plane data.dptr data.size2 data.size3 out.size2
        out.size3 y1 x1 bh bw (base0 + k * (data.size2 * data.size3))
        (top0 + k * (out.size2 * out.size3)) s.out hH hW (by omega) (by omega)
      refine ⟨⟨out', s.batch_data + ((data.size2 * data.size3 : Nat) : Int),
        s.top_data + ((out.size2 * out.size3 : Nat) : Int)⟩, ?_, ?_, hlen, hw, ?_⟩
      · simp only [fwdChannel, hJ.1, hJ.2, h]
      · constructor
        · show s.batch_data + _ = _
          rw [hJ.1]; push_cast; ring
        · show s.top_data + _ = _
          rw [hJ.2]; push_cast; ring
      · intro i hi
        exact hf i (by rw [Nat.succ_mul] at hi; omega))
  obtain ⟨s', h, hJ, hl, hw, hf⟩ := key
  exact ⟨s', h, hJ.2, hl, hw, hf⟩

theorem fwd_rois (out data : Tensor4) (bbox : Tensor2) (scale : ℚ)
    (hv : ValidForward out data bbox) :
    ∃ s', forLoop bbox.size0 (fwdRoi data out bbox scale) ⟨out.dptr, 0, 0⟩ = .ok s' ∧
      s'.out.length = out.dptr.length ∧
      (∀ r, r < bbox.size0 * (data.size1 * (out.size2 * out.size3)) →
        s'.out[r]? = some (forwardValue data bbox scale out.size2 out.size3
          (r / (data.size1 * (out.size2 * out.size3)))
          (r % (data.size1 * (out.size2 * out.size3)) / (out.size2 * out.size3))
          (r % (data.size1 * (out.size2 * out.size3)) % (out.size2 * out.size3) / out.size3)
          (r % (data.size1 * (out.size2 * out.size3)) % (out.size2 * out.size3)
            % out.size3))) := by
  have key := forLoop_blocks (fun s : FwdState => s.out)
    (fun k s => s.top_data = ((k * (data.size1 * (out.size2 * out.size3)) : Nat) : Int)
      ∧ s.bottom_rois = ((k * 5 : Nat) : Int))
    (fwdRoi data out bbox scale) bbox.size0 (data.size1 * (out.size2 * out.size3)) 0
    (fun k r => forwardValue data bbox scale out.size2 out.size3 k
      (r / (out.size2 * out.size3)) (r % (out.size2 * out.size3) / out.size3)
      (r % (out.size2 * out.size3) % out.size3))
    ⟨out.dptr, 0, 0⟩ (by simp)
    (by
      intro k hk s hJ hl
      have hl' : s.out.length = out.dptr.length := hl
      have hbl := hv.bbox_len
      obtain ⟨hb0, hb1⟩ := hv.batch_ind k hk
      have hle1 := succ_mul_le (roiBatchInd bbox k).toNat data.size0
        (data.size1 * (data.size2 * data.size3)) (by omega)
      have hle2 := succ_mul_le k bbox.size0 (data.size1 * (out.size2 * out.size3)) hk
      have hdl := hv.data_len
      have hol := hv.out_len
      have hassoc : data.size1 * data.size2 * data.size3
          = data.size1 * (data.size2 * data.size3) := Nat.mul_assoc _ _ _
      have hcomm : data.size1 * (data.size2 * data.size3) * (roiBatchInd bbox k).toNat
          = (roiBatchInd bbox k).toNat * (data.size1 * (data.size2 * data.size3)) :=
        Nat.mul_comm _ _
      obtain ⟨s', h, htd, hlen, hw, hf⟩ := fwd_channels data out
        (roiStartH bbox scale k) (roiStartW bbox scale k)
        (binSizeH bbox scale out.size2 k) (binSizeW bbox scale out.size3 k)
        (data.size1 * data.size2 * data.size3 * (roiBatchInd bbox k).toNat)
        (k * (data.size1 * (out.size2 * out.size3))) s.out hv.height hv.width
        (by rw [hassoc]; omega) (by omega)
      have e0 : s.bottom_rois = ((k * 5 : Nat) : Int) := hJ.2
      have e1 : s.bottom_rois + 1 = ((k * 5 + 1 : Nat) : Int) := by rw [e0]; push_cast; ring
      have e2 : s.bottom_rois + 2 = ((k * 5 + 2 : Nat) : Int) := by rw [e0]; push_cast; ring
      have e3 : s.bottom_rois + 3 = ((k * 5 + 3 : Nat) : Int) := by rw [e0]; push_cast; ring
      have e4 : s.bottom_rois + 4 = ((k * 5 + 4 : Nat) : Int) := by rw [e0]; push_cast; ring
      have ebase : (((data.size1 * data.size2 * data.size3 : Nat) : Int))
          * castInt (bbox.dptr.getD (k * 5) 0)
          = ((data.size1 * data.size2 * data.size3 * (roiBatchInd bbox k).toNat : Nat) : Int) := by
        have : ((roiBatchInd bbox k).toNat : Int) = roiBatchInd bbox k :=
          Int.toNat_of_nonneg hb0
        push_cast
        rw [this]
        rfl
      have hge : castInt (bbox.dptr.getD (k * 5) 0) ≥ 0 := hb0
      have hlt : castInt (bbox.dptr.getD (k * 5) 0) < (data.size0 : Int) := hb1
      refine ⟨⟨s'.out, s'.top_data, s.bottom_rois + (bbox.size1 : Int)⟩, ?_, ?_, hlen, ?_, ?_⟩
      · unfold fwdRoi
        simp only [e1, e2, e3, e4]
        rw [e0, load_of_lt _ _ (by omega : k * 5 < bbox.dptr.length),
          load_of_lt _ _ (by omega : k * 5 + 1 < bbox.dptr.length),
          load_of_lt _ _ (by omega : k * 5 + 2 < bbox.dptr.length),
          load_of_lt _ _ (by omega : k * 5 + 3 < bbox.dptr.length),
          load_of_lt _ _ (by omega : k * 5 + 4 < bbox.dptr.length)]
        simp only [hge, hlt, not_true_eq_false, if_false, ebase, hJ.1]
        have h' := h
        simp only [roiStartH, roiStartW, binSizeH, binSizeW, roiEndH, roiEndW] at h'
        simp only [h', e0]
      · constructor
        · show s'.top_data = _
          rw [htd]; push_cast; ring
        · show s.bottom_rois + (bbox.size1 : Int) = _
          rw [e0, hv.bbox_size1]; push_cast; ring
      · intro r hr
        have := hw r hr
        simp only [Nat.zero_add]
        rw [this]
        rfl
      · intro i hi
        exact hf i (by rw [Nat.succ_mul] at hi; omega))
  obtain ⟨s', h, -, hl, hw, -⟩ := key
  refine ⟨s', h, hl, ?_⟩
  intro r hr
  have := hw r hr
  simpa using this

/-! ## Flat offsets -/

theorem block_div (q r b : Nat) (h : r < b) : (q * b + r) / b = q := by
  rw [Nat.add_comm, Nat.add_mul_div_right _ _ (by omega : 0 < b), Nat.div_eq_of_lt h]
  simp

theorem block_mod (q r b : Nat) (h : r < b) : (q * b + r) % b = r := by
  rw [Nat.add_comm, Nat.add_mul_mod_self_right, Nat.mod_eq_of_lt h]

theorem block_lt (q r a b : Nat) (hq : q < a) (hr : r < b) : q * b + r < a * b := by
  have := succ_mul_le q a b hq
  omega

theorem flat4_eq (C PH PW n c ph pw : Nat) :
    flat4 C PH PW n c ph pw = n * (C * (PH * PW)) + (c * (PH * PW) + (ph * PW + pw)) := by
  unfold flat4
  ring

theorem flat4_lt (N C PH PW n c ph pw : Nat) (hn : n < N) (hc : c < C) (hph : ph < PH)
    (hpw : pw < PW) : flat4 C PH PW n c ph pw < N * (C * (PH * PW)) := by
  rw [flat4_eq]
  exact block_lt _ _ _ _ hn (block_lt _ _ _ _ hc (block_lt _ _ _ _ hph hpw))

theorem flat4_decode (C PH PW n c ph pw : Nat) (hc : c < C) (hph : ph < PH) (hpw : pw < PW) :
    flat4 C PH PW n c ph pw / (C * (PH * PW)) = n ∧
    flat4 C PH PW n c ph pw % (C * (PH * PW)) / (PH * PW) = c ∧
    flat4 C PH PW n c ph pw % (C * (PH * PW)) % (PH * PW) / PW = ph ∧
    flat4 C PH PW n c ph pw % (C * (PH * PW)) % (PH * PW) % PW = pw := by
  have h1 : ph * PW + pw < PH * PW := block_lt _ _ _ _ hph hpw
  have h2 : c * (PH * PW) + (ph * PW + pw) < C * (PH * PW) := block_lt _ _ _ _ hc h1
  rw [flat4_eq, block_div _ _ _ h2, block_mod _ _ _ h2, block_div _ _ _ h1,
    block_mod _ _ _ h1, block_div _ _ _ hpw, block_mod _ _ _ hpw]
  exact ⟨rfl, rfl, rfl, rfl⟩

theorem flat4_encode (C PH PW r : Nat) :
    flat4 C PH PW (r / (C * (PH * PW))) (r % (C * (PH * PW)) / (PH * PW))
      (r % (C * (PH * PW)) % (PH * PW) / PW) (r % (C * (PH * PW)) % (PH * PW) % PW) = r := by
  rw [flat4_eq]
  have h1 := Nat.div_add_mod (r % (C * (PH * PW)) % (PH * PW)) PW
  have h2 := Nat.div_add_mod (r % (C * (PH * PW))) (PH * PW)
  have h3 := Nat.div_add_mod r (C * (PH * PW))
  rw [Nat.mul_comm] at h1 h2 h3
  omega

/-! ## The forward kernel as a whole -/

/-- On a valid input `ROIAlignForward` returns, and every element of the result is
the closed form of its cell. -/
theorem forward_flat (out data : Tensor4) (bbox : Tensor2) (scale : ℚ)
    (hv : ValidForward out data bbox) :
    ∃ out', ROIAlignForward out data bbox scale = .ok out' ∧
      out'.length = out.dptr.length ∧
      ∀ n c ph pw, n < bbox.size0 → c < data.size1 → ph < out.size2 → pw < out.size3 →
        out'[flat4 data.size1 out.size2 out.size3 n c ph pw]?
          = some (forwardValue data bbox scale out.size2 out.size3 n c ph pw) := by
  obtain ⟨s', h, hl, hw⟩ := fwd_rois out data bbox scale hv
  refine ⟨s'.out, ?_, hl, ?_⟩
  · simp only [ROIAlignForward, h]
  · intro n c ph pw hn hc hph hpw
    have := hw _ (flat4_lt _ _ _ _ n c ph pw hn hc hph hpw)
    obtain ⟨d1, d2, d3, d4⟩ := flat4_decode data.size1 out.size2 out.size3 n c ph pw hc hph hpw
    rw [d1, d2, d3, d4] at this
    exact this

/-- On a valid input the closed form read off the flat buffers is the value the
specification describes with four-dimensional indices. -/
theorem forwardValue_eq_spec (out data : Tensor4) (bbox : Tensor2) (scale : ℚ)
    (hv : ValidForward out data bbox) (n c ph pw : Nat) :
    forwardValue data bbox scale out.size2 out.size3 n c ph pw
      = specForward data bbox scale out.size2 out.size3 n c ph pw := by
  have hH := hv.height
  have hW := hv.width
  have hPH := hv.pooled_height
  have hPW := hv.pooled_width
  have cH : (((out.size2 : Int) - 1 : Int) : ℚ) = (out.size2 : ℚ) - 1 := by push_cast; ring
  have cW : (((out.size3 : Int) - 1 : Int) : ℚ) = (out.size3 : ℚ) - 1 := by push_cast; ring
  unfold forwardValue specForward cellValue
  simp only [roiStartH, roiStartW, roiEndH, roiEndW, binSizeH, binSizeW, sampleCoord, cH, cW,
    roiBatchInd, Tensor4.get]
  by_cases hb : inBounds
      ((ph : ℚ) * (max (bbox.dptr.getD (n * 5 + 4) 0 * scale
        - bbox.dptr.getD (n * 5 + 2) 0 * scale) 0 / ((out.size2 : ℚ) - 1))
        + bbox.dptr.getD (n * 5 + 2) 0 * scale)
      ((pw : ℚ) * (max (bbox.dptr.getD (n * 5 + 3) 0 * scale
        - bbox.dptr.getD (n * 5 + 1) 0 * scale) 0 / ((out.size3 : ℚ) - 1))
        + bbox.dptr.getD (n * 5 + 1) 0 * scale) data.size2 data.size3
  · have hb' := hb
    obtain ⟨h1, h2, h3, h4⟩ := hb'
    rw [if_pos hb, if_neg (by
      simp only [not_or, not_lt, not_le]
      exact ⟨h1, h2, h3, h4⟩)]
    obtain ⟨hay, hay2⟩ := anchor_bounds _ data.size2 h1 hH
    obtain ⟨hax, hax2⟩ := anchor_bounds _ data.size3 h3 hW
    have qy := congrArg (fun z : Int => (z : ℚ)) hay
    have qx := congrArg (fun z : Int => (z : ℚ)) hax
    simp only [Int.cast_natCast] at qy qx
    unfold anchor at qy qx hay hax
    unfold anchor
    rw [← qy, ← qx]
    have i1 : ∀ b a x : Nat, data.size1 * data.size2 * data.size3 * b
        + c * (data.size2 * data.size3) + a * data.size3 + x
        = ((b * data.size1 + c) * data.size2 + a) * data.size3 + x := by
      intro b a x; ring
    have j2 : ∀ m a x : Nat, (m + a) * data.size3 + x + 1
        = (m + a) * data.size3 + (x + 1) := by
      intro m a x; ring
    have j3 : ∀ m a x : Nat, (m + a) * data.size3 + x + data.size3
        = (m + (a + 1)) * data.size3 + x := by
      intro m a x; ring
    have j4 : ∀ m a x : Nat, (m + a) * data.size3 + x + data.size3 + 1
        = (m + (a + 1)) * data.size3 + (x + 1) := by
      intro m a x; ring
    rw [i1, j4, j3, j2]
    ring
  · rw [if_neg hb, if_pos (by
      by_contra hc
      simp only [not_or, not_lt, not_le] at hc
      exact hb hc)]

/-! ## The loops of ROIAlignBackwardAcc -/

theorem bwd_row (G : List ℚ) (H W PW : Nat) (y1 x1 bh bw : ℚ) (base top ph : Nat)
    (g0 : List ℚ) (hH : 2 ≤ H) (hW : 2 ≤ W) (hbase : base + H * W ≤ g0.length)
    (htop : top + ph * PW + PW ≤ G.length) :
    ∃ g', forLoop PW (fun pw => bwdCell G H W PW y1 x1 bh bw base top ph pw) g0 = .ok g' ∧
      g'.length = g0.length ∧
      ∀ j, g'.getD j 0 = g0.getD j 0 + ∑ pw in Finset.range PW,
        cellGrad (G.getD (top + ph * PW + pw) 0) H W y1 x1 bh bw base ph pw j := by
  have key := forLoop_accum (fun s : List ℚ => s) (fun _ _ => True)
    (fun pw => bwdCell G H W PW y1 x1 bh bw base top ph pw) PW
    (fun pw j => cellGrad (G.getD (top + ph * PW + pw) 0) H W y1 x1 bh bw base ph pw j)
    g0 trivial
    (by
      intro k hk s _ hl
      have hl' : s.length = g0.length := hl
      obtain ⟨g', h, hlen, hv⟩ := bwdCell_ok G H W PW y1 x1 bh bw base top ph k s hH hW
        (by omega) (by omega)
      exact ⟨g', h, trivial, hlen, hv⟩)
  obtain ⟨g', h, -, hl, hv⟩ := key
  exact ⟨g', h, hl, hv⟩

theorem bwd_plane (G : List ℚ) (H W PH PW : Nat) (y1 x1 bh bw : ℚ) (base top : Nat)
    (g0 : List ℚ) (hH : 2 ≤ H) (hW : 2 ≤ W) (hbase : base + H * W ≤ g0.length)
    (htop : top + PH * PW ≤ G.length) :
    ∃ g', forLoop PH (fun ph => forLoop PW (fun pw =>
        bwdCell G H W PW y1 x1 bh bw base top ph pw)) g0 = .ok g' ∧
      g'.length = g0.length ∧
      ∀ j, g'.getD j 0 = g0.getD j 0 + ∑ ph in Finset.range PH, ∑ pw in Finset.range PW,
        cellGrad (G.getD (top + ph * PW + pw) 0) H W y1 x1 bh bw base ph pw j := by
  have key := forLoop_accum (fun s : List ℚ => s) (fun _ _ => True)
    (fun ph => forLoop PW (fun pw => bwdCell G H W PW y1 x1 bh bw base top ph pw)) PH
    (fun ph j => ∑ pw in Finset.range PW,
      cellGrad (G.getD (top + ph * PW + pw) 0) H W y1 x1 bh bw base ph pw j)
    g0 trivial
    (by
      intro k hk s _ hl
      have hl' : s.length = g0.length := hl
      have hle := succ_mul_le k PH PW hk
      obtain ⟨g', h, hlen, hv⟩ := bwd_row G H W PW y1 x1 bh bw base top k s hH hW
        (by omega) (by omega)
      exact ⟨g', h, trivial, hlen, hv⟩)
  obtain ⟨g', h, -, hl, hv⟩ := key
  exact ⟨g', h, hl, hv⟩

theorem bwd_channels (in_grad out_grad : Tensor4) (y1 x1 bh bw : ℚ) (base0 top0 : Nat)
    (g0 : List ℚ) (hH : 2 ≤ in_grad.size2) (hW : 2 ≤ in_grad.size3)
    (hbase : base0 + in_grad.size1 * (in_grad.size2 * in_grad.size3) ≤ g0.length)
    (htop : top0 + in_grad.size1 * (out_grad.size2 * out_grad.size3)
      ≤ out_grad.dptr.length) :
    ∃ s', forLoop in_grad.size1 (bwdChannel in_grad out_grad y1 x1 bh bw)
        ⟨g0, (base0 : Int), (top0 : Int)⟩ = .ok s' ∧
      s'.top_diff = ((top0 + in_grad.size1 * (out_grad.size2 * out_grad.size3) : Nat) : Int) ∧
      s'.grad.length = g0.length ∧
      ∀ j, s'.grad.getD j 0 = g0.getD j 0 + ∑ c in Finset.range in_grad.size1,
        ∑ ph in Finset.range out_grad.size2, ∑ pw in Finset.range out_grad.size3,
          cellGrad (out_grad.dptr.getD
              (top0 + c * (out_grad.size2 * out_grad.size3) + ph * out_grad.size3 + pw) 0)
            in_grad.size2 in_grad.size3 y1 x1 bh bw
            (base0 + c * (in_grad.size2 * in_grad.size3)) ph pw j := by
  have key := forLoop_accum (fun s : BwdChan => s.grad)
    (fun k s => s.batch_data = ((base0 + k * (in_grad.size2 * in_grad.size3) : Nat) : Int)
      ∧ s.top_diff = ((top0 + k * (out_grad.size2 * out_grad.size3) : Nat) : Int))
    (bwdChannel in_grad out_grad y1 x1 bh bw) in_grad.size1
    (fun c j => ∑ ph in Finset.range out_grad.size2, ∑ pw in Finset.range out_grad.size3,
      cellGrad (out_grad.dptr.getD
          (top0 + c * (out_grad.size2 * out_grad.size3) + ph * out_grad.size3 + pw) 0)
        in_grad.size2 in_grad.size3 y1 x1 bh bw
        (base0 + c * (in_grad.size2 * in_grad.size3)) ph pw j)
    ⟨g0, (base0 : Int), (top0 : Int)⟩ (by simp)
    (by
      intro k hk s hJ hl
      have hle1 := succ_mul_le k in_grad.size1 (in_grad.size2 * in_grad.size3) hk
      have hle2 := succ_mul_le k in_grad.size1 (out_grad.size2 * out_grad.size3) hk
      have hl' : s.grad.length = g0.length := hl
      obtain ⟨g', h, hlen, hv⟩ := bwd_plane out_grad.dptr in_grad.size2 in_grad.size3
        out_grad.size2 out_grad.size3 y1 x1 bh bw
        (base0 + k * (in_grad.size2 * in_grad.size3))
        (top0 + k * (out_grad.size2 * out_grad.size3)) s.grad hH hW (by omega) (by omega)
      refine ⟨⟨g', s.batch_data + ((in_grad.size2 * in_grad.size3 : Nat) : Int),
        s.top_diff + ((out_grad.size2 * out_grad.size3 : Nat) : Int)⟩, ?_, ?_, hlen, hv⟩
      · simp only [bwdChannel, hJ.1, hJ.2, h]
      · constructor
        · show s.batch_data + _ = _
          rw [hJ.1]; push_cast; ring
        · show s.top_diff + _ = _
          rw [hJ.2]; push_cast; ring)
  obtain ⟨s', h, hJ, hl, hv⟩ := key
  exact ⟨s', h, hJ.2, hl, hv⟩

theorem bwd_rois (bs : Int) (in_grad out_grad : Tensor4) (bbox : Tensor2) (scale : ℚ)
    (hv : ValidBackward bs in_grad out_grad bbox) :
    ∃ s', forLoop bbox.size0 (bwdRoi bs in_grad out_grad bbox scale) ⟨in_grad.dptr, 0, 0⟩
        = .ok s' ∧
      s'.grad.length = in_grad.dptr.length ∧
      ∀ j, s'.grad.getD j 0
        = in_grad.dptr.getD j 0 + backwardSum in_grad out_grad bbox scale j := by
  have hs := hv.shapes
  have key := forLoop_accum (fun s : BwdState => s.grad)
    (fun k s => s.top_diff
        = ((k * (in_grad.size1 * (out_grad.size2 * out_grad.size3)) : Nat) : Int)
      ∧ s.bottom_rois = ((k * 5 : Nat) : Int))
    (bwdRoi bs in_grad out_grad bbox scale) bbox.size0
    (fun n j => regionSum in_grad out_grad bbox scale n j)
    ⟨in_grad.dptr, 0, 0⟩ (by simp)
    (by
      intro k hk s hJ hl
      have hl' : s.grad.length = in_grad.dptr.length := hl
      have hbl := hs.bbox_len
      obtain ⟨hb0, hb1⟩ := hs.batch_ind k hk
      have hb2 := hv.batch_size k hk
      have hle1 := succ_mul_le (roiBatchInd bbox k).toNat in_grad.size0
        (in_grad.size1 * (in_grad.size2 * in_grad.size3)) (by omega)
      have hle2 := succ_mul_le k bbox.size0
        (in_grad.size1 * (out_grad.size2 * out_grad.size3)) hk
      have hdl := hs.data_len
      have hol := hs.out_len
      have hassoc : in_grad.size1 * in_grad.size2 * in_grad.size3
          = in_grad.size1 * (in_grad.size2 * in_grad.size3) := Nat.mul_assoc _ _ _
      have hcomm : in_grad.size1 * (in_grad.size2 * in_grad.size3)
          * (roiBatchInd bbox k).toNat
          = (roiBatchInd bbox k).toNat * (in_grad.size1 * (in_grad.size2 * in_grad.size3)) :=
        Nat.mul_comm _ _
      obtain ⟨s', h, htd, hlen, hw⟩ := bwd_channels in_grad out_grad
        (roiStartH bbox scale k) (roiStartW bbox scale k)
        (binSizeH bbox scale out_grad.size2 k) (binSizeW bbox scale out_grad.size3 k)
        (in_grad.size1 * in_grad.size2 * in_grad.size3 * (roiBatchInd bbox k).toNat)
        (k * (in_grad.size1 * (out_grad.size2 * out_grad.size3))) s.grad hs.height hs.width
        (by rw [hassoc]; omega) (by omega)
      have e0 : s.bottom_rois = ((k * 5 : Nat) : Int) := hJ.2
      have e1 : s.bottom_rois + 1 = ((k * 5 + 1 : Nat) : Int) := by rw [e0]; push_cast; ring
      have e2 : s.bottom_rois + 2 = ((k * 5 + 2 : Nat) : Int) := by rw [e0]; push_cast; ring
      have e3 : s.bottom_rois + 3 = ((k * 5 + 3 : Nat) : Int) := by rw [e0]; push_cast; ring
      have e4 : s.bottom_rois + 4 = ((k * 5 + 4 : Nat) : Int) := by rw [e0]; push_cast; ring
      have ebase : (((in_grad.size1 * in_grad.size2 * in_grad.size3 : Nat) : Int))
          * castInt (bbox.dptr.getD (k * 5) 0)
          = ((in_grad.size1 * in_grad.size2 * in_grad.size3
              * (roiBatchInd bbox k).toNat : Nat) : Int) := by
        have : ((roiBatchInd bbox k).toNat : Int) = roiBatchInd bbox k :=
          Int.toNat_of_nonneg hb0
        push_cast
        rw [this]
        rfl
      have hge : castInt (bbox.dptr.getD (k * 5) 0) ≥ 0 := hb0
      have hlt : castInt (bbox.dptr.getD (k * 5) 0) < bs := hb2
      refine ⟨⟨s'.grad, s'.top_diff, s.bottom_rois + (bbox.size1 : Int)⟩, ?_, ?_, hlen, ?_⟩
      · unfold bwdRoi
        simp only [e1, e2, e3, e4]
        rw [e0, load_of_lt _ _ (by omega : k * 5 < bbox.dptr.length),
          load_of_lt _ _ (by omega : k * 5 + 1 < bbox.dptr.length),
          load_of_lt _ _ (by omega : k * 5 + 2 < bbox.dptr.length),
          load_of_lt _ _ (by omega : k * 5 + 3 < bbox.dptr.length),
          load_of_lt _ _ (by omega : k * 5 + 4 < bbox.dptr.length)]
        simp only [hge, hlt, not_true_eq_false, if_false, ebase, hJ.1]
        have h' := h
        simp only [roiStartH, roiStartW, binSizeH, binSizeW, roiEndH, roiEndW] at h'
        simp only [h', e0]
      · constructor
        · show s'.top_diff = _
          rw [htd]; push_cast; ring
        · show s.bottom_rois + (bbox.size1 : Int) = _
          rw [e0, hs.bbox_size1]; push_cast; ring
      · intro j
        show s'.grad.getD j 0 = s.grad.getD j 0 + regionSum in_grad out_grad bbox scale k j
        rw [hw j]
        unfold regionSum backwardTerm
        have hidx : ∀ c ph pw : Nat,
            k * (in_grad.size1 * (out_grad.size2 * out_grad.size3))
              + c * (out_grad.size2 * out_grad.size3) + ph * out_grad.size3 + pw
            = flat4 in_grad.size1 out_grad.size2 out_grad.size3 k c ph pw := by
          intro c ph pw
          rw [flat4_eq]
          omega
        simp only [hidx])
  obtain ⟨s', h, -, hl, hw⟩ := key
  exact ⟨s', h, hl, fun j => by rw [hw j]; rfl⟩

/-! ## The backward kernel as a whole -/

/-- On a valid input `ROIAlignBackwardAcc` returns, and every cell of the gradient
buffer has grown by the sum of the contributions of all output cells. -/
theorem backward_flat (bs : Int) (in_grad out_grad : Tensor4) (bbox : Tensor2) (scale : ℚ)
    (hv : ValidBackward bs in_grad out_grad bbox) :
    ∃ g', ROIAlignBackwardAcc bs in_grad out_grad bbox scale = .ok g' ∧
      g'.length = in_grad.dptr.length ∧
      ∀ j, g'.getD j 0 = in_grad.dptr.getD j 0 + backwardSum in_grad out_grad bbox scale j := by
  obtain ⟨s', h, hl, hw⟩ := bwd_rois bs in_grad out_grad bbox scale hv
  refine ⟨s'.grad, ?_, hl, hw⟩
  simp only [ROIAlignBackwardAcc, h]


/-! ## Sums over flat offsets -/

theorem sum_blocks (a b : Nat) (F : Nat → ℚ) :
    ∑ i in Finset.range (a * b), F i
      = ∑ q in Finset.range a, ∑ r in Finset.range b, F (q * b + r) := by
  induction a with
  | zero => simp
  | succ k ih => rw [Nat.succ_mul, Finset.sum_range_add, ih, Finset.sum_range_succ]

theorem sum_flat4 (N C PH PW : Nat) (F : Nat → ℚ) :
    ∑ i in Finset.range (N * (C * (PH * PW))), F i
      = ∑ n in Finset.range N, ∑ c in Finset.range C, ∑ ph in Finset.range PH,
          ∑ pw in Finset.range PW, F (flat4 C PH PW n c ph pw) := by
  rw [sum_blocks]
  refine Finset.sum_congr rfl (fun n _ => ?_)
  rw [sum_blocks C (PH * PW) (fun r => F (n * (C * (PH * PW)) + r))]
  refine Finset.sum_congr rfl (fun c _ => ?_)
  rw [sum_blocks PH PW (fun r => F (n * (C * (PH * PW)) + (c * (PH * PW) + r)))]
  refine Finset.sum_congr rfl (fun ph _ => ?_)
  refine Finset.sum_congr rfl (fun pw _ => ?_)
  rw [flat4_eq]

theorem cell_adjoint (X : List ℚ) (t : ℚ) (H W : Nat) (y1 x1 bh bw : ℚ) (base ph pw L : Nat)
    (hH : 2 ≤ H) (hW : 2 ≤ W) (hL : base + H * W ≤ L) :
    ∑ j in Finset.range L, cellGrad t H W y1 x1 bh bw base ph pw j * X.getD j 0
      = t * cellValue X H W y1 x1 bh bw base ph pw := by
  unfold cellGrad cellValue
  by_cases hb : inBounds (sampleCoord ph bh y1) (sampleCoord pw bw x1) H W
  · have hb' := hb
    obtain ⟨h1, -, h3, -⟩ := hb'
    obtain ⟨-, hay2⟩ := anchor_bounds _ H h1 hH
    obtain ⟨-, hax2⟩ := anchor_bounds _ W h3 hW
    have hroom := plane_room base H W _ _ hay2 hax2
    simp only [if_pos hb, add_mul, ite_mul, zero_mul, Finset.sum_add_distrib,
      Finset.sum_ite_eq', Finset.mem_range]
    rw [if_pos (by omega), if_pos (by omega), if_pos (by omega), if_pos (by omega)]
    ring
  · simp only [if_neg hb, zero_mul, Finset.sum_const_zero, mul_zero]


/-! ## Valid inputs of the two kernels -/

theorem validBackward_of_forward (bs : Int) (out X : Tensor4) (bbox : Tensor2)
    (g G : List ℚ) (hf : ValidForward out X bbox) (hg : g.length = X.dptr.length)
    (hG : G.length = out.dptr.length)
    (hbs : ∀ n, n < bbox.size0 → roiBatchInd bbox n < bs) :
    ValidBackward bs (withData X g) (withData out G) bbox where
  shapes :=
    { data_len := hg.trans hf.data_len
      out_len := hG.trans hf.out_len
      out_size0 := hf.out_size0
      out_size1 := hf.out_size1
      bbox_len := hf.bbox_len
      bbox_size1 := hf.bbox_size1
      height := hf.height
      width := hf.width
      pooled_height := hf.pooled_height
      pooled_width := hf.pooled_width
      batch_ind := hf.batch_ind }
  batch_size := hbs

theorem getD_replicate_zero (n j : Nat) : (List.replicate n (0 : ℚ)).getD j 0 = 0 := by
  rw [List.getD_eq_getElem?_getD]
  by_cases h : j < n
  · rw [List.getElem?_eq_getElem (by simpa using h)]
    simp
  · rw [List.getElem?_eq_none (by simpa using h)]
    rfl

theorem base_room (out data : Tensor4) (bbox : Tensor2) (hv : ValidForward out data bbox)
    (n c : Nat) (hn : n < bbox.size0) (hc : c < data.size1) :
    data.size1 * data.size2 * data.size3 * (roiBatchInd bbox n).toNat
      + c * (data.size2 * data.size3) + data.size2 * data.size3 ≤ data.dptr.length := by
  obtain ⟨hb0, hb1⟩ := hv.batch_ind n hn
  have hle1 := succ_mul_le (roiBatchInd bbox n).toNat data.size0
    (data.size1 * (data.size2 * data.size3)) (by omega)
  have hle2 := succ_mul_le c data.size1 (data.size2 * data.size3) hc
  have hdl := hv.data_len
  have hassoc : data.size1 * data.size2 * data.size3
      = data.size1 * (data.size2 * data.size3) := Nat.mul_assoc _ _ _
  have hcomm : data.size1 * (data.size2 * data.size3) * (roiBatchInd bbox n).toNat
      = (roiBatchInd bbox n).toNat * (data.size1 * (data.size2 * data.size3)) :=
    Nat.mul_comm _ _
  rw [hassoc]
  omega

/-- The dot product of the backward sum with a feature map, cell by cell. -/
theorem backwardSum_dot (out X : Tensor4) (bbox : Tensor2) (scale : ℚ) (g G : List ℚ)
    (hf : ValidForward out X bbox) :
    ∑ j in Finset.range X.dptr.length,
        backwardSum (withData X g) (withData out G) bbox scale j * X.dptr.getD j 0
      = ∑ n in Finset.range bbox.size0, ∑ c in Finset.range X.size1,
          ∑ ph in Finset.range out.size2, ∑ pw in Finset.range out.size3,
            G.getD (flat4 X.size1 out.size2 out.size3 n c ph pw) 0
              * forwardValue X bbox scale out.size2 out.size3 n c ph pw := by
  unfold backwardSum regionSum
  simp only [Finset.sum_mul]
  rw [Finset.sum_comm]
  refine Finset.sum_congr rfl (fun n hn => ?_)
  rw [Finset.sum_comm]
  refine Finset.sum_congr rfl (fun c hc => ?_)
  rw [Finset.sum_comm]
  refine Finset.sum_congr rfl (fun ph _ => ?_)
  rw [Finset.sum_comm]
  refine Finset.sum_congr rfl (fun pw _ => ?_)
  exact cell_adjoint X.dptr _ X.size2 X.size3 _ _ _ _ _ ph pw X.dptr.length hf.height hf.width
    (base_room out X bbox hf n c (Finset.mem_range.mp hn) (Finset.mem_range.mp hc))


/-! ## Weights -/

theorem ratio_bounds (x_ : ℚ) (size : Nat) (hle : x_ ≤ (size : ℚ) - 1) :
    0 ≤ x_ - ((anchor x_ size : Int) : ℚ) ∧ x_ - ((anchor x_ size : Int) : ℚ) ≤ 1 := by
  have hfl : ((⌊x_⌋ : Int) : ℚ) ≤ x_ := Int.floor_le x_
  have hlt : x_ < ((⌊x_⌋ : Int) : ℚ) + 1 := Int.lt_floor_add_one x_
  unfold anchor
  rcases le_total ⌊x_⌋ ((size : Int) - 2) with h | h
  · rw [min_eq_left h]
    constructor <;> linarith
  · rw [min_eq_right h]
    have hc : (((size : Int) - 2 : Int) : ℚ) ≤ ((⌊x_⌋ : Int) : ℚ) := by exact_mod_cast h
    have he : (((size : Int) - 2 : Int) : ℚ) = (size : ℚ) - 2 := by push_cast; ring
    rw [he] at hc ⊢
    constructor <;> linarith

theorem weight_bounds (a b : ℚ) (ha0 : 0 ≤ a) (ha1 : a ≤ 1) (hb0 : 0 ≤ b) (hb1 : b ≤ 1) :
    0 ≤ a * b ∧ a * b ≤ 1 := by
  constructor
  · exact mul_nonneg ha0 hb0
  · nlinarith

/-- In bounds, the closed form of a cell is the combination of the four neighbours
`X[b,c,ay,ax]`, `X[b,c,ay,ax+1]`, `X[b,c,ay+1,ax]`, `X[b,c,ay+1,ax+1]` with the
coefficients `bilinearWeights`. -/
theorem forwardValue_weights (X : Tensor4) (bbox : Tensor2) (scale : ℚ)
    (PH PW n c ph pw : Nat)
    (hin : inBounds (sampleH bbox scale PH n ph) (sampleW bbox scale PW n pw) X.size2 X.size3) :
    forwardValue X bbox scale PH PW n c ph pw
      = (bilinearWeights (sampleH bbox scale PH n ph) (sampleW bbox scale PW n pw)
            X.size2 X.size3).1
          * X.get (roiBatchInd bbox n).toNat c (anchor (sampleH bbox scale PH n ph) X.size2).toNat
              (anchor (sampleW bbox scale PW n pw) X.size3).toNat
        + (bilinearWeights (sampleH bbox scale PH n ph) (sampleW bbox scale PW n pw)
            X.size2 X.size3).2.1
          * X.get (roiBatchInd bbox n).toNat c (anchor (sampleH bbox scale PH n ph) X.size2).toNat
              ((anchor (sampleW bbox scale PW n pw) X.size3).toNat + 1)
        + (bilinearWeights (sampleH bbox scale PH n ph) (sampleW bbox scale PW n pw)
            X.size2 X.size3).2.2.1
          * X.get (roiBatchInd bbox n).toNat c
              ((anchor (sampleH bbox scale PH n ph) X.size2).toNat + 1)
              (anchor (sampleW bbox scale PW n pw) X.size3).toNat
        + (bilinearWeights (sampleH bbox scale PH n ph) (sampleW bbox scale PW n pw)
            X.size2 X.size3).2.2.2
          * X.get (roiBatchInd bbox n).toNat c
              ((anchor (sampleH bbox scale PH n ph) X.size2).toNat + 1)
              ((anchor (sampleW bbox scale PW n pw) X.size3).toNat + 1) := by
  unfold sampleH sampleW at *
  unfold forwardValue cellValue bilinearWeights Tensor4.get
  simp only [if_pos hin]
  have i1 : ∀ b a x : Nat, X.size1 * X.size2 * X.size3 * b
      + c * (X.size2 * X.size3) + a * X.size3 + x
      = ((b * X.size1 + c) * X.size2 + a) * X.size3 + x := by
    intro b a x; ring
  have j2 : ∀ m a x : Nat, (m + a) * X.size3 + x + 1 = (m + a) * X.size3 + (x + 1) := by
    intro m a x; ring
  have j3 : ∀ m a x : Nat, (m + a) * X.size3 + x + X.size3
      = (m + (a + 1)) * X.size3 + x := by
    intro m a x; ring
  have j4 : ∀ m a x : Nat, (m + a) * X.size3 + x + X.size3 + 1
      = (m + (a + 1)) * X.size3 + (x + 1) := by
    intro m a x; ring
  rw [i1, j4, j3, j2]
  ring


theorem validBackward_withData (bs : Int) (in_grad out_grad : Tensor4) (bbox : Tensor2)
    (g : List ℚ) (hv : ValidBackward bs in_grad out_grad bbox)
    (hg : g.length = in_grad.dptr.length) :
    ValidBackward bs (withData in_grad g) out_grad bbox where
  shapes :=
    { data_len := hg.trans hv.shapes.data_len
      out_len := hv.shapes.out_len
      out_size0 := hv.shapes.out_size0
      out_size1 := hv.shapes.out_size1
      bbox_len := hv.shapes.bbox_len
      bbox_size1 := hv.shapes.bbox_size1
      height := hv.shapes.height
      width := hv.shapes.width
      pooled_height := hv.shapes.pooled_height
      pooled_width := hv.shapes.pooled_width
      batch_ind := hv.shapes.batch_ind }
  batch_size := hv.batch_size

/-- The result of `ROIAlignBackwardAcc` on a zeroed buffer. -/
theorem backward_zero (bs : Int) (in_grad out_grad : Tensor4) (bbox : Tensor2) (scale : ℚ)
    (hv : ValidBackward bs in_grad out_grad bbox) :
    ∃ z, ROIAlignBackwardAcc bs (zeroGrad in_grad) out_grad bbox scale = .ok z ∧
      z.length = in_grad.dptr.length ∧
      ∀ j, z.getD j 0 = backwardSum in_grad out_grad bbox scale j := by
  obtain ⟨z, hz, hl, hzv⟩ := backward_flat bs (zeroGrad in_grad) out_grad bbox scale
    (validBackward_withData bs in_grad out_grad bbox _ hv (by simp))
  refine ⟨z, hz, ?_, ?_⟩
  · rw [hl]
    show (List.replicate in_grad.dptr.length (0 : ℚ)).length = _
    simp
  · intro j
    rw [hzv j]
    show (List.replicate in_grad.dptr.length (0 : ℚ)).getD j 0
      + backwardSum in_grad out_grad bbox scale j = _
    rw [getD_replicate_zero, zero_add]


/-! ## Equal results from equal region geometry -/

theorem list_eq_of_getD (l1 l2 : List ℚ) (hl : l1.length = l2.length)
    (h : ∀ j, l1.getD j 0 = l2.getD j 0) : l1 = l2 := by
  refine List.ext_getElem? (fun j => ?_)
  by_cases hj : j < l1.length
  · have h1 := h j
    rw [List.getD_eq_getElem?_getD, List.getD_eq_getElem?_getD,
      List.getElem?_eq_getElem hj, List.getElem?_eq_getElem (by omega)] at h1
    rw [List.getElem?_eq_getElem hj, List.getElem?_eq_getElem (by omega)]
    exact congrArg some h1
  · rw [List.getElem?_eq_none (by omega), List.getElem?_eq_none (by omega)]

theorem list_eq_of_flat4 (l1 l2 : List ℚ) (N C PH PW : Nat)
    (h1 : l1.length = N * (C * (PH * PW))) (h2 : l2.length = N * (C * (PH * PW)))
    (h : ∀ n c ph pw, n < N → c < C → ph < PH → pw < PW →
      l1[flat4 C PH PW n c ph pw]? = l2[flat4 C PH PW n c ph pw]?) : l1 = l2 := by
  refine List.ext_getElem? (fun r => ?_)
  by_cases hr : r < N * (C * (PH * PW))
  · have hpos : 0 < C * (PH * PW) := by
      rcases Nat.eq_zero_or_pos (C * (PH * PW)) with h0 | h0
      · rw [h0] at hr
        simp at hr
      · exact h0
    have hpos2 : 0 < PH * PW := by
      rcases Nat.eq_zero_or_pos (PH * PW) with h0 | h0
      · rw [h0] at hpos
        simp at hpos
      · exact h0
    have hpos3 : 0 < PW := by
      rcases Nat.eq_zero_or_pos PW with h0 | h0
      · rw [h0] at hpos2
        simp at hpos2
      · exact h0
    have b1 : r / (C * (PH * PW)) < N :=
      Nat.div_lt_of_lt_mul (by rw [Nat.mul_comm]; exact hr)
    have b2 : r % (C * (PH * PW)) / (PH * PW) < C := by
      have hlt : r % (C * (PH * PW)) < PH * PW * C := by
        rw [Nat.mul_comm (PH * PW) C]
        exact Nat.mod_lt _ hpos
      exact Nat.div_lt_of_lt_mul hlt
    have b3 : r % (C * (PH * PW)) % (PH * PW) / PW < PH := by
      have hlt : r % (C * (PH * PW)) % (PH * PW) < PW * PH := by
        rw [Nat.mul_comm PW PH]
        exact Nat.mod_lt _ hpos2
      exact Nat.div_lt_of_lt_mul hlt
    have b4 : r % (C * (PH * PW)) % (PH * PW) % PW < PW := Nat.mod_lt _ hpos3
    have := h _ _ _ _ b1 b2 b3 b4
    rw [flat4_encode] at this
    exact this
  · rw [List.getElem?_eq_none (by omega), List.getElem?_eq_none (by omega)]

/-- Two region lists of the same length with the same batch indices, start points
and bin sizes give the same forward result. -/
theorem forward_congr (out X : Tensor4) (bbox bbox' : Tensor2) (scale scale' : ℚ)
    (hv : ValidForward out X bbox) (hv' : ValidForward out X bbox')
    (hfields : ∀ m, m < bbox.size0 →
      roiBatchInd bbox' m = roiBatchInd bbox m ∧
      roiStartH bbox' scale' m = roiStartH bbox scale m ∧
      roiStartW bbox' scale' m = roiStartW bbox scale m ∧
      binSizeH bbox' scale' out.size2 m = binSizeH bbox scale out.size2 m ∧
      binSizeW bbox' scale' out.size3 m = binSizeW bbox scale out.size3 m) :
    ∃ r, ROIAlignForward out X bbox scale = .ok r ∧
      ROIAlignForward out X bbox' scale' = .ok r := by
  obtain ⟨r, h, hl, hw⟩ := forward_flat out X bbox scale hv
  obtain ⟨r', h', hl', hw'⟩ := forward_flat out X bbox' scale' hv'
  have hN : bbox'.size0 = bbox.size0 := by
    rw [← hv.out_size0, ← hv'.out_size0]
  refine ⟨r, h, ?_⟩
  rw [h']
  congr 1
  refine list_eq_of_flat4 r' r bbox.size0 X.size1 out.size2 out.size3
    (by rw [hl', hv.out_len]) (by rw [hl, hv.out_len]) ?_
  intro n c ph pw hn hc hph hpw
  rw [hw n c ph pw hn hc hph hpw, hw' n c ph pw (by omega) hc hph hpw]
  obtain ⟨f1, f2, f3, f4, f5⟩ := hfields n hn
  unfold forwardValue
  rw [f1, f2, f3, f4, f5]

/-- Two region lists of the same length with the same batch indices, start points
and bin sizes give the same backward result. -/
theorem backward_congr (bs : Int) (in_grad out_grad : Tensor4) (bbox bbox' : Tensor2)
    (scale scale' : ℚ) (hv : ValidBackward bs in_grad out_grad bbox)
    (hv' : ValidBackward bs in_grad out_grad bbox')
    (hfields : ∀ m, m < bbox.size0 →
      roiBatchInd bbox' m = roiBatchInd bbox m ∧
      roiStartH bbox' scale' m = roiStartH bbox scale m ∧
      roiStartW bbox' scale' m = roiStartW bbox scale m ∧
      binSizeH bbox' scale' out_grad.size2 m = binSizeH bbox scale out_grad.size2 m ∧
      binSizeW bbox' scale' out_grad.size3 m = binSizeW bbox scale out_grad.size3 m) :
    ∃ g, ROIAlignBackwardAcc bs in_grad out_grad bbox scale = .ok g ∧
      ROIAlignBackwardAcc bs in_grad out_grad bbox' scale' = .ok g := by
  obtain ⟨g, h, hl, hw⟩ := backward_flat bs in_grad out_grad bbox scale hv
  obtain ⟨g', h', hl', hw'⟩ := backward_flat bs in_grad out_grad bbox' scale' hv'
  have hN : bbox'.size0 = bbox.size0 := by
    rw [← hv.shapes.out_size0, ← hv'.shapes.out_size0]
  refine ⟨g, h, ?_⟩
  rw [h']
  congr 1
  refine list_eq_of_getD g' g (by rw [hl', hl]) (fun j => ?_)
  rw [hw j, hw' j]
  congr 1
  unfold backwardSum
  rw [hN]
  refine Finset.sum_congr rfl (fun n hn => ?_)
  obtain ⟨f1, f2, f3, f4, f5⟩ := hfields n (Finset.mem_range.mp hn)
  unfold regionSum backwardTerm
  rw [f1, f2, f3, f4, f5]

/-- A region list that differs from a valid one in entries that leave the batch
indices alone is valid. -/
theorem validForward_of_batch (out X : Tensor4) (bbox bbox' : Tensor2)
    (hv : ValidForward out X bbox) (hs0 : bbox'.size0 = bbox.size0)
    (hs1 : bbox'.size1 = bbox.size1) (hlen : bbox'.dptr.length = bbox.dptr.length)
    (hb : ∀ m, m < bbox.size0 → roiBatchInd bbox' m = roiBatchInd bbox m) :
    ValidForward out X bbox' where
  data_len := hv.data_len
  out_len := by rw [hs0]; exact hv.out_len
  out_size0 := by rw [hs0]; exact hv.out_size0
  out_size1 := hv.out_size1
  bbox_len := by rw [hs0, hlen]; exact hv.bbox_len
  bbox_size1 := by rw [hs1]; exact hv.bbox_size1
  height := hv.height
  width := hv.width
  pooled_height := hv.pooled_height
  pooled_width := hv.pooled_width
  batch_ind := by
    intro m hm
    rw [hs0] at hm
    rw [hb m hm]
    exact hv.batch_ind m hm

theorem validBackward_of_batch (bs : Int) (in_grad out_grad : Tensor4) (bbox bbox' : Tensor2)
    (hv : ValidBackward bs in_grad out_grad bbox) (hs0 : bbox'.size0 = bbox.size0)
    (hs1 : bbox'.size1 = bbox.size1) (hlen : bbox'.dptr.length = bbox.dptr.length)
    (hb : ∀ m, m < bbox.size0 → roiBatchInd bbox' m = roiBatchInd bbox m) :
    ValidBackward bs in_grad out_grad bbox' where
  shapes := validForward_of_batch out_grad in_grad bbox bbox' hv.shapes hs0 hs1 hlen hb
  batch_size := by
    intro m hm
    rw [hs0] at hm
    rw [hb m hm]
    exact hv.batch_size m hm

/-! ## Collapsed regions -/

theorem collapseW_fields (bbox : Tensor2) (scale : ℚ) (PH PW n : Nat)
    (hlen : n * 5 + 3 < bbox.dptr.length)
    (hx : roiEndW bbox scale n < roiStartW bbox scale n) (m : Nat) :
    roiBatchInd (collapseW bbox n) m = roiBatchInd bbox m ∧
    roiStartH (collapseW bbox n) scale m = roiStartH bbox scale m ∧
    roiStartW (collapseW bbox n) scale m = roiStartW bbox scale m ∧
    binSizeH (collapseW bbox n) scale PH m = binSizeH bbox scale PH m ∧
    binSizeW (collapseW bbox n) scale PW m = binSizeW bbox scale PW m := by
  unfold binSizeH binSizeW roiEndH roiEndW roiStartH roiStartW roiBatchInd collapseW
  unfold roiEndW roiStartW at hx
  have e0 : ¬ (m * 5 = n * 5 + 3) := by omega
  have e1 : ¬ (m * 5 + 1 = n * 5 + 3) := by omega
  have e2 : ¬ (m * 5 + 2 = n * 5 + 3) := by omega
  have e4 : ¬ (m * 5 + 4 = n * 5 + 3) := by omega
  simp only [getD_set bbox.dptr _ _ hlen, if_neg e0, if_neg e1, if_neg e2, if_neg e4]
  refine ⟨trivial, trivial, trivial, trivial, ?_⟩
  by_cases hm : m = n
  · subst hm
    rw [if_pos rfl, sub_self, max_self, max_eq_right (by linarith)]
  · rw [if_neg (by omega)]

theorem collapseH_fields (bbox : Tensor2) (scale : ℚ) (PH PW n : Nat)
    (hlen : n * 5 + 4 < bbox.dptr.length)
    (hy : roiEndH bbox scale n < roiStartH bbox scale n) (m : Nat) :
    roiBatchInd (collapseH bbox n) m = roiBatchInd bbox m ∧
    roiStartH (collapseH bbox n) scale m = roiStartH bbox scale m ∧
    roiStartW (collapseH bbox n) scale m = roiStartW bbox scale m ∧
    binSizeH (collapseH bbox n) scale PH m = binSizeH bbox scale PH m ∧
    binSizeW (collapseH bbox n) scale PW m = binSizeW bbox scale PW m := by
  unfold binSizeH binSizeW roiEndH roiEndW roiStartH roiStartW roiBatchInd collapseH
  unfold roiEndH roiStartH at hy
  have e0 : ¬ (m * 5 = n * 5 + 4) := by omega
  have e1 : ¬ (m * 5 + 1 = n * 5 + 4) := by omega
  have e2 : ¬ (m * 5 + 2 = n * 5 + 4) := by omega
  have e3 : ¬ (m * 5 + 3 = n * 5 + 4) := by omega
  simp only [getD_set bbox.dptr _ _ hlen, if_neg e0, if_neg e1, if_neg e2, if_neg e3]
  refine ⟨trivial, trivial, trivial, ?_, trivial⟩
  by_cases hm : m = n
  · subst hm
    rw [if_pos rfl, sub_self, max_self, max_eq_right (by linarith)]
  · rw [if_neg (by omega)]


/-! ## Single regions -/

theorem getD_take_drop (l : List ℚ) (a b i : Nat) (h : i < b) :
    ((l.drop a).take b).getD i 0 = l.getD (a + i) 0 := by
  simp only [List.getD_eq_getElem?_getD]
  rw [List.getElem?_take_of_lt h, List.getElem?_drop]

theorem regionRois_fields (bbox : Tensor2) (scale : ℚ) (PH PW n : Nat) :
    roiBatchInd (regionRois bbox n) 0 = roiBatchInd bbox n ∧
    roiStartH (regionRois bbox n) scale 0 = roiStartH bbox scale n ∧
    roiStartW (regionRois bbox n) scale 0 = roiStartW bbox scale n ∧
    binSizeH (regionRois bbox n) scale PH 0 = binSizeH bbox scale PH n ∧
    binSizeW (regionRois bbox n) scale PW 0 = binSizeW bbox scale PW n := by
  unfold binSizeH binSizeW roiEndH roiEndW roiStartH roiStartW roiBatchInd regionRois
  simp only [Nat.zero_mul, Nat.zero_add]
  rw [getD_take_drop _ _ _ 0 (by omega), getD_take_drop _ _ _ 1 (by omega),
    getD_take_drop _ _ _ 2 (by omega), getD_take_drop _ _ _ 3 (by omega),
    getD_take_drop _ _ _ 4 (by omega)]
  exact ⟨rfl, rfl, rfl, rfl, rfl⟩

theorem validBackward_region (bs : Int) (in_grad out_grad : Tensor4) (bbox : Tensor2)
    (hv : ValidBackward bs in_grad out_grad bbox) (n : Nat) (hn : n < bbox.size0) :
    ValidBackward bs in_grad (regionGrad out_grad n) (regionRois bbox n) where
  shapes :=
    { data_len := hv.shapes.data_len
      out_len := by
        have h1 := hv.shapes.out_len
        have h2 := hv.shapes.out_size1
        have h3 := succ_mul_le n bbox.size0
          (in_grad.size1 * (out_grad.size2 * out_grad.size3)) hn
        show ((out_grad.dptr.drop _).take _).length
          = 1 * (in_grad.size1 * (out_grad.size2 * out_grad.size3))
        rw [List.length_take, List.length_drop, h2]
        omega
      out_size0 := rfl
      out_size1 := hv.shapes.out_size1
      bbox_len := by
        have h1 := hv.shapes.bbox_len
        show ((bbox.dptr.drop _).take _).length = 1 * 5
        rw [List.length_take, List.length_drop]
        omega
      bbox_size1 := rfl
      height := hv.shapes.height
      width := hv.shapes.width
      pooled_height := hv.shapes.pooled_height
      pooled_width := hv.shapes.pooled_width
      batch_ind := by
        intro m hm
        have h0 : m = 0 := by
          have : m < 1 := hm
          omega
        subst h0
        rw [(regionRois_fields bbox 0 0 0 n).1]
        exact hv.shapes.batch_ind n hn }
  batch_size := by
    intro m hm
    have h0 : m = 0 := by
      have : m < 1 := hm
      omega
    subst h0
    rw [(regionRois_fields bbox 0 0 0 n).1]
    exact hv.batch_size n hn

theorem regionSum_region (bs : Int) (in_grad out_grad : Tensor4) (bbox : Tensor2)
    (scale : ℚ) (hv : ValidBackward bs in_grad out_grad bbox) (n j : Nat) :
    regionSum in_grad (regionGrad out_grad n) (regionRois bbox n) scale 0 j
      = regionSum in_grad out_grad bbox scale n j := by
  obtain ⟨f1, f2, f3, f4, f5⟩ := regionRois_fields bbox scale out_grad.size2 out_grad.size3 n
  have hs1 := hv.shapes.out_size1
  unfold regionSum
  refine Finset.sum_congr rfl (fun c hc => ?_)
  refine Finset.sum_congr rfl (fun ph hph => ?_)
  refine Finset.sum_congr rfl (fun pw hpw => ?_)
  unfold backwardTerm
  show cellGrad (((out_grad.dptr.drop _).take _).getD
      (flat4 in_grad.size1 out_grad.size2 out_grad.size3 0 c ph pw) 0) in_grad.size2
      in_grad.size3 (roiStartH (regionRois bbox n) scale 0) (roiStartW (regionRois bbox n) scale 0)
      (binSizeH (regionRois bbox n) scale out_grad.size2 0)
      (binSizeW (regionRois bbox n) scale out_grad.size3 0)
      (in_grad.size1 * in_grad.size2 * in_grad.size3 * (roiBatchInd (regionRois bbox n) 0).toNat
        + c * (in_grad.size2 * in_grad.size3)) ph pw j = _
  have hlt := flat4_lt 1 in_grad.size1 out_grad.size2 out_grad.size3 0 c ph pw (by omega)
    (Finset.mem_range.mp hc) (Finset.mem_range.mp hph) (Finset.mem_range.mp hpw)
  rw [Nat.one_mul] at hlt
  rw [f1, f2, f3, f4, f5, hs1, getD_take_drop _ _ _ _ hlt]
  have hidx : n * (in_grad.size1 * (out_grad.size2 * out_grad.size3))
      + flat4 in_grad.size1 out_grad.size2 out_grad.size3 0 c ph pw
      = flat4 in_grad.size1 out_grad.size2 out_grad.size3 n c ph pw := by
    rw [flat4_eq, flat4_eq]
    omega
  rw [hidx]


/-! ## Grid points -/

theorem anchor_range (x_ : ℚ) (size : Nat) (h0 : 0 ≤ x_) (hs : 2 ≤ size) :
    0 ≤ anchor x_ size ∧ anchor x_ size ≤ (size : Int) - 2 := by
  have hf : 0 ≤ ⌊x_⌋ := Int.floor_nonneg.mpr h0
  unfold anchor
  omega

theorem cell_mass (t : ℚ) (H W : Nat) (y1 x1 bh bw : ℚ) (base ph pw L : Nat)
    (hH : 2 ≤ H) (hW : 2 ≤ W) (hL : base + H * W ≤ L) :
    ∑ j in Finset.range L, cellGrad t H W y1 x1 bh bw base ph pw j
      = if inBounds (sampleCoord ph bh y1) (sampleCoord pw bw x1) H W then t else 0 := by
  unfold cellGrad
  by_cases hb : inBounds (sampleCoord ph bh y1) (sampleCoord pw bw x1) H W
  · have hb' := hb
    obtain ⟨h1, -, h3, -⟩ := hb'
    obtain ⟨-, hay2⟩ := anchor_bounds _ H h1 hH
    obtain ⟨-, hax2⟩ := anchor_bounds _ W h3 hW
    have hroom := plane_room base H W _ _ hay2 hax2
    simp only [if_pos hb, Finset.sum_add_distrib, Finset.sum_ite_eq', Finset.mem_range]
    rw [if_pos (by omega), if_pos (by omega), if_pos (by omega), if_pos (by omega)]
    ring
  · simp only [if_neg hb, Finset.sum_const_zero]

theorem backwardSum_mass (bs : Int) (in_grad out_grad : Tensor4) (bbox : Tensor2) (scale : ℚ)
    (hv : ValidBackward bs in_grad out_grad bbox) :
    ∑ j in Finset.range in_grad.dptr.length, backwardSum in_grad out_grad bbox scale j
      = ∑ n in Finset.range bbox.size0, ∑ c in Finset.range in_grad.size1,
          ∑ ph in Finset.range out_grad.size2, ∑ pw in Finset.range out_grad.size3,
            if inBounds (sampleH bbox scale out_grad.size2 n ph)
                (sampleW bbox scale out_grad.size3 n pw) in_grad.size2 in_grad.size3
            then out_grad.dptr.getD (flat4 in_grad.size1 out_grad.size2 out_grad.size3 n c ph pw) 0
            else 0 := by
  unfold backwardSum regionSum
  rw [Finset.sum_comm]
  refine Finset.sum_congr rfl (fun n hn => ?_)
  rw [Finset.sum_comm]
  refine Finset.sum_congr rfl (fun c hc => ?_)
  rw [Finset.sum_comm]
  refine Finset.sum_congr rfl (fun ph _ => ?_)
  rw [Finset.sum_comm]
  refine Finset.sum_congr rfl (fun pw _ => ?_)
  exact cell_mass _ in_grad.size2 in_grad.size3 _ _ _ _ _ ph pw in_grad.dptr.length
    hv.shapes.height hv.shapes.width
    (base_room out_grad in_grad bbox hv.shapes n c (Finset.mem_range.mp hn)
      (Finset.mem_range.mp hc))

theorem scaleRois_getD (bbox : Tensor2) (s : ℚ) (i : Nat) :
    (scaleRois bbox s).dptr.getD i 0
      = if i % 5 = 0 then bbox.dptr.getD i 0 else bbox.dptr.getD i 0 * s := by
  unfold scaleRois
  simp only [List.getD_eq_getElem?_getD, List.getElem?_map]
  by_cases hi : i < bbox.dptr.length
  · rw [List.getElem?_range hi]
    simp only [Option.map_some', Option.getD_some, scaleEntry, List.getD_eq_getElem?_getD]
  · have hnone : bbox.dptr[i]? = none := List.getElem?_eq_none (by omega)
    have hr : (List.range bbox.dptr.length)[i]? = none :=
      List.getElem?_eq_none (by rw [List.length_range]; omega)
    rw [hr, hnone]
    simp

theorem scaleRois_fields (bbox : Tensor2) (s : ℚ) (PH PW m : Nat) :
    roiBatchInd (scaleRois bbox s) m = roiBatchInd bbox m ∧
    roiStartH (scaleRois bbox s) 1 m = roiStartH bbox s m ∧
    roiStartW (scaleRois bbox s) 1 m = roiStartW bbox s m ∧
    binSizeH (scaleRois bbox s) 1 PH m = binSizeH bbox s PH m ∧
    binSizeW (scaleRois bbox s) 1 PW m = binSizeW bbox s PW m := by
  unfold binSizeH binSizeW roiEndH roiEndW roiStartH roiStartW roiBatchInd
  simp only [scaleRois_getD, mul_one]
  rw [if_pos (by omega), if_neg (by omega), if_neg (by omega), if_neg (by omega),
    if_neg (by omega)]
  exact ⟨rfl, rfl, rfl, rfl, rfl⟩

theorem scaleRois_length (bbox : Tensor2) (s : ℚ) :
    (scaleRois bbox s).dptr.length = bbox.dptr.length := by
  unfold scaleRois
  simp

/-! ## Runs that stop at an assertion -/

theorem validForward_of_shaped (out data : Tensor4) (bbox : Tensor2)
    (hs : WellShaped out data bbox) (hb : ∀ n, n < bbox.size0 → batchIndOk data bbox n) :
    ValidForward out data bbox where
  data_len := hs.data_len
  out_len := hs.out_len
  out_size0 := hs.out_size0
  out_size1 := hs.out_size1
  bbox_len := hs.bbox_len
  bbox_size1 := hs.bbox_size1
  height := hs.height
  width := hs.width
  pooled_height := hs.pooled_height
  pooled_width := hs.pooled_width
  batch_ind := hb

theorem wellShaped_of_valid (out data : Tensor4) (bbox : Tensor2)
    (hv : ValidForward out data bbox) : WellShaped out data bbox where
  data_len := hv.data_len
  out_len := hv.out_len
  out_size0 := hv.out_size0
  out_size1 := hv.out_size1
  bbox_len := hv.bbox_len
  bbox_size1 := hv.bbox_size1
  height := hv.height
  width := hv.width
  pooled_height := hv.pooled_height
  pooled_width := hv.pooled_width

/-- Once an iteration stops with a fault, the loop stops with that fault. -/
theorem forLoop_error {σ : Type} (body : Nat → σ → Except Fault σ) (s sk : σ) (k : Nat)
    (e : Fault) (hk : forLoop k body s = .ok sk) (he : body k sk = .error e) :
    ∀ m, k < m → forLoop m body s = .error e := by
  intro m hm
  induction m with
  | zero => omega
  | succ j ih =>
    by_cases hj : k = j
    · subst hj
      simp only [forLoop, hk, he]
    · have := ih (by omega)
      simp only [forLoop, this]

/-- One iteration of the region loop on a region whose batch index is in range. -/
theorem fwdRoi_step (out data : Tensor4) (bbox : Tensor2) (scale : ℚ)
    (hs : WellShaped out data bbox) (k : Nat) (hk : k < bbox.size0)
    (hok : batchIndOk data bbox k) (s : FwdState)
    (hJ : s.top_data = ((k * (data.size1 * (out.size2 * out.size3)) : Nat) : Int)
      ∧ s.bottom_rois = ((k * 5 : Nat) : Int))
    (hl : s.out.length = out.dptr.length) :
    ∃ s', fwdRoi data out bbox scale k s = .ok s' ∧
      (s'.top_data = (((k + 1) * (data.size1 * (out.size2 * out.size3)) : Nat) : Int)
        ∧ s'.bottom_rois = (((k + 1) * 5 : Nat) : Int)) ∧
      s'.out.length = s.out.length ∧
      (∀ r, r < data.size1 * (out.size2 * out.size3) →
        s'.out[0 + k * (data.size1 * (out.size2 * out.size3)) + r]?
          = some (forwardValue data bbox scale out.size2 out.size3 k
            (r / (out.size2 * out.size3)) (r % (out.size2 * out.size3) / out.size3)
            (r % (out.size2 * out.size3) % out.size3))) ∧
      (∀ i, (i < 0 + k * (data.size1 * (out.size2 * out.size3))
          ∨ 0 + (k + 1) * (data.size1 * (out.size2 * out.size3)) ≤ i) →
        s'.out[i]? = s.out[i]?) := by
  have hbl := hs.bbox_len
  obtain ⟨hb0, hb1⟩ := hok
  have hle1 := succ_mul_le (roiBatchInd bbox k).toNat data.size0
    (data.size1 * (data.size2 * data.size3)) (by omega)
  have hle2 := succ_mul_le k bbox.size0 (data.size1 * (out.size2 * out.size3)) hk
  have hdl := hs.data_len
  have hol := hs.out_len
  have hassoc : data.size1 * data.size2 * data.size3
      = data.size1 * (data.size2 * data.size3) := Nat.mul_assoc _ _ _
  have hcomm : data.size1 * (data.size2 * data.size3) * (roiBatchInd bbox k).toNat
      = (roiBatchInd bbox k).toNat * (data.size1 * (data.size2 * data.size3)) :=
    Nat.mul_comm _ _
  obtain ⟨s', h, htd, hlen, hw, hf⟩ := fwd_channels data out
    (roiStartH bbox scale k) (roiStartW bbox scale k)
    (binSizeH bbox scale out.size2 k) (binSizeW bbox scale out.size3 k)
    (data.size1 * data.size2 * data.size3 * (roiBatchInd bbox k).toNat)
    (k * (data.size1 * (out.size2 * out.size3))) s.out hs.height hs.width
    (by rw [hassoc]; omega) (by omega)
  have e0 : s.bottom_rois = ((k * 5 : Nat) : Int) := hJ.2
  have e1 : s.bottom_rois + 1 = ((k * 5 + 1 : Nat) : Int) := by rw [e0]; push_cast; ring
  have e2 : s.bottom_rois + 2 = ((k * 5 + 2 : Nat) : Int) := by rw [e0]; push_cast; ring
  have e3 : s.bottom_rois + 3 = ((k * 5 + 3 : Nat) : Int) := by rw [e0]; push_cast; ring
  have e4 : s.bottom_rois + 4 = ((k * 5 + 4 : Nat) : Int) := by rw [e0]; push_cast; ring
  have ebase : (((data.size1 * data.size2 * data.size3 : Nat) : Int))
      * castInt (bbox.dptr.getD (k * 5) 0)
      = ((data.size1 * data.size2 * data.size3 * (roiBatchInd bbox k).toNat : Nat) : Int) := by
    have : ((roiBatchInd bbox k).toNat : Int) = roiBatchInd bbox k :=
      Int.toNat_of_nonneg hb0
    push_cast
    rw [this]
    rfl
  have hge : castInt (bbox.dptr.getD (k * 5) 0) ≥ 0 := hb0
  have hlt : castInt (bbox.dptr.getD (k * 5) 0) < (data.size0 : Int) := hb1
  refine ⟨⟨s'.out, s'.top_data, s.bottom_rois + (bbox.size1 : Int)⟩, ?_, ?_, hlen, ?_, ?_⟩
  · unfold fwdRoi
    simp only [e1, e2, e3, e4]
    rw [e0, load_of_lt _ _ (by omega : k * 5 < bbox.dptr.length),
      load_of_lt _ _ (by omega : k * 5 + 1 < bbox.dptr.length),
      load_of_lt _ _ (by omega : k * 5 + 2 < bbox.dptr.length),
      load_of_lt _ _ (by omega : k * 5 + 3 < bbox.dptr.length),
      load_of_lt _ _ (by omega : k * 5 + 4 < bbox.dptr.length)]
    simp only [hge, hlt, not_true_eq_false, if_false, ebase, hJ.1]
    have h' := h
    simp only [roiStartH, roiStartW, binSizeH, binSizeW, roiEndH, roiEndW] at h'
    simp only [h', e0]
  · constructor
    · show s'.top_data = _
      rw [htd]; push_cast; ring
    · show s.bottom_rois + (bbox.size1 : Int) = _
      rw [e0, hs.bbox_size1]; push_cast; ring
  · intro r hr
    have := hw r hr
    simp only [Nat.zero_add]
    rw [this]
    rfl
  · intro i hi
    exact hf i (by rw [Nat.succ_mul] at hi; omega)

/-- The region loop over the first `k` regions, all with a batch index in range. -/
theorem fwd_rois_prefix (out data : Tensor4) (bbox : Tensor2) (scale : ℚ)
    (hs : WellShaped out data bbox) (k : Nat) (hk : k ≤ bbox.size0)
    (hok : ∀ n, n < k → batchIndOk data bbox n) :
    ∃ s', forLoop k (fwdRoi data out bbox scale) ⟨out.dptr, 0, 0⟩ = .ok s' ∧
      (s'.top_data = ((k * (data.size1 * (out.size2 * out.size3)) : Nat) : Int)
        ∧ s'.bottom_rois = ((k * 5 : Nat) : Int)) ∧
      s'.out.length = out.dptr.length ∧
      (∀ n c ph pw, n < k → c < data.size1 → ph < out.size2 → pw < out.size3 →
        s'.out[flat4 data.size1 out.size2 out.size3 n c ph pw]?
          = some (forwardValue data bbox scale out.size2 out.size3 n c ph pw)) ∧
      (∀ i, k * (data.size1 * (out.size2 * out.size3)) ≤ i → s'.out[i]? = out.dptr[i]?) := by
  have key := forLoop_blocks (fun s : FwdState => s.out)
    (fun k s => s.top_data = ((k * (data.size1 * (out.size2 * out.size3)) : Nat) : Int)
      ∧ s.bottom_rois = ((k * 5 : Nat) : Int))
    (fwdRoi data out bbox scale) k (data.size1 * (out.size2 * out.size3)) 0
    (fun k r => forwardValue data bbox scale out.size2 out.size3 k
      (r / (out.size2 * out.size3)) (r % (out.size2 * out.size3) / out.size3)
      (r % (out.size2 * out.size3) % out.size3))
    ⟨out.dptr, 0, 0⟩ (by simp)
    (fun j hj s hJ hl =>
      fwdRoi_step out data bbox scale hs j (by omega) (hok j hj) s hJ hl)
  obtain ⟨s', h, hJ, hl, hw, hf⟩ := key
  refine ⟨s', h, hJ, hl, ?_, ?_⟩
  · intro n c ph pw hn hc hph hpw
    have := hw _ (flat4_lt k _ _ _ n c ph pw hn hc hph hpw)
    obtain ⟨d1, d2, d3, d4⟩ := flat4_decode data.size1 out.size2 out.size3 n c ph pw hc hph hpw
    simp only [Nat.zero_add] at this
    rw [d1] at this
    have e : flat4 data.size1 out.size2 out.size3 n c ph pw
        % (data.size1 * (out.size2 * out.size3)) = c * (out.size2 * out.size3)
          + (ph * out.size3 + pw) := by
      rw [flat4_eq]
      exact block_mod _ _ _ (block_lt _ _ _ _ hc (block_lt _ _ _ _ hph hpw))
    rw [e] at d2 d3 d4
    rw [e, d2, d3, d4] at this
    exact this
  · intro i hi
    exact hf i (Or.inr (by omega))

/-- One iteration of the region loop on a region whose batch index is out of range
stops at an assertion, with the output buffer as it stands. -/
theorem fwdRoi_assert (out data : Tensor4) (bbox : Tensor2) (scale : ℚ)
    (hs : WellShaped out data bbox) (k : Nat) (hk : k < bbox.size0)
    (hbad : ¬ batchIndOk data bbox k) (s : FwdState)
    (hJ : s.bottom_rois = ((k * 5 : Nat) : Int)) :
    fwdRoi data out bbox scale k s = .error (.assertion s.out) := by
  have hbl := hs.bbox_len
  have e1 : s.bottom_rois + 1 = ((k * 5 + 1 : Nat) : Int) := by rw [hJ]; push_cast; ring
  have e2 : s.bottom_rois + 2 = ((k * 5 + 2 : Nat) : Int) := by rw [hJ]; push_cast; ring
  have e3 : s.bottom_rois + 3 = ((k * 5 + 3 : Nat) : Int) := by rw [hJ]; push_cast; ring
  have e4 : s.bottom_rois + 4 = ((k * 5 + 4 : Nat) : Int) := by rw [hJ]; push_cast; ring
  unfold batchIndOk roiBatchInd at hbad
  unfold fwdRoi
  simp only [e1, e2, e3, e4]
  rw [hJ, load_of_lt _ _ (by omega : k * 5 < bbox.dptr.length),
    load_of_lt _ _ (by omega : k * 5 + 1 < bbox.dptr.length),
    load_of_lt _ _ (by omega : k * 5 + 2 < bbox.dptr.length),
    load_of_lt _ _ (by omega : k * 5 + 3 < bbox.dptr.length),
    load_of_lt _ _ (by omega : k * 5 + 4 < bbox.dptr.length)]
  simp only []
  by_cases h0 : castInt (bbox.dptr.getD (k * 5) 0) ≥ 0
  · have h1 : ¬ castInt (bbox.dptr.getD (k * 5) 0) < (data.size0 : Int) :=
      fun h => hbad ⟨h0, h⟩
    rw [if_neg (not_not.mpr h0), if_pos h1]
  · rw [if_pos h0]

/-- The forward kernel on a well-shaped input whose first region with a batch index
out of range is region `k`. -/
theorem forward_assert (out data : Tensor4) (bbox : Tensor2) (scale : ℚ)
    (hs : WellShaped out data bbox) (k : Nat) (hk : k < bbox.size0)
    (hok : ∀ n, n < k → batchIndOk data bbox n) (hbad : ¬ batchIndOk data bbox k) :
    ∃ mem, ROIAlignForward out data bbox scale = .error (.assertion mem) ∧
      mem.length = out.dptr.length ∧
      (∀ n c ph pw, n < k → c < data.size1 → ph < out.size2 → pw < out.size3 →
        mem[flat4 data.size1 out.size2 out.size3 n c ph pw]?
          = some (forwardValue data bbox scale out.size2 out.size3 n c ph pw)) ∧
      (∀ i, k * (data.size1 * (out.size2 * out.size3)) ≤ i → mem[i]? = out.dptr[i]?) := by
  obtain ⟨s', h, hJ, hl, hw, hf⟩ := fwd_rois_prefix out data bbox scale hs k (by omega) hok
  have hstop := forLoop_error (fwdRoi data out bbox scale) ⟨out.dptr, 0, 0⟩ s' k _ h
    (fwdRoi_assert out data bbox scale hs k hk hbad s' hJ.2) bbox.size0 hk
  refine ⟨s'.out, ?_, hl, hw, hf⟩
  simp only [ROIAlignForward, hstop]

theorem least_bad (P : Nat → Prop) (N : Nat) (h : ∃ n, n < N ∧ ¬ P n) :
    ∃ k, k < N ∧ (∀ n, n < k → P n) ∧ ¬ P k := by
  classical
  have hex : ∃ n, n < N ∧ ¬ P n := h
  refine ⟨Nat.find hex, (Nat.find_spec hex).1, ?_, (Nat.find_spec hex).2⟩
  intro n hn
  by_contra hP
  exact Nat.find_min hex hn ⟨lt_trans hn (Nat.find_spec hex).1, hP⟩

/-! ## The log is a ghost: dropping it gives the kernel -/

theorem forLoop_dropLog {σ : Type} (body : Nat → σ → Except Fault σ)
    (body' : Nat → σ × List Int → Except Fault (σ × List Int))
    (h : ∀ k s l, Except.map Prod.fst (body' k (s, l)) = body k s) (n : Nat) (s : σ)
    (l : List Int) :
    Except.map Prod.fst (forLoop n body' (s, l)) = forLoop n body s := by
  induction n with
  | zero => rfl
  | succ k ih =>
    simp only [forLoop]
    cases hr : forLoop k body' (s, l) with
    | error e =>
      rw [hr] at ih
      rw [← ih]
      rfl
    | ok r =>
      rw [hr] at ih
      rw [← ih]
      exact h k r.1 r.2

theorem fwdCellLog_dropLog (data : List ℚ) (H W PW : Nat) (y1 x1 bh bw : ℚ)
    (batch_data top_data : Int) (ph pw : Nat) (o : List ℚ) (l : List Int) :
    Except.map Prod.fst (fwdCellLog data H W PW y1 x1 bh bw batch_data top_data ph pw (o, l))
      = fwdCell data H W PW y1 x1 bh bw batch_data top_data ph pw o := by
  unfold fwdCellLog
  cases fwdCell data H W PW y1 x1 bh bw batch_data top_data ph pw o <;> rfl

theorem fwdChannelLog_dropLog (data out : Tensor4) (y1 x1 bh bw : ℚ) (c : Nat) (s : FwdChan)
    (l : List Int) :
    Except.map Prod.fst (fwdChannelLog data out y1 x1 bh bw c (s, l))
      = fwdChannel data out y1 x1 bh bw c s := by
  have inner := forLoop_dropLog
    (fun ph => forLoop out.size3 (fun pw =>
      fwdCell data.dptr data.size2 data.size3 out.size3 y1 x1 bh bw s.batch_data s.top_data
        ph pw))
    (fun ph => forLoop out.size3 (fun pw =>
      fwdCellLog data.dptr data.size2 data.size3 out.size3 y1 x1 bh bw s.batch_data s.top_data
        ph pw))
    (fun ph o l' => forLoop_dropLog _ _
      (fun pw o' l'' => fwdCellLog_dropLog data.dptr data.size2 data.size3 out.size3 y1 x1 bh
        bw s.batch_data s.top_data ph pw o' l'') out.size3 o l')
    out.size2 s.out l
  unfold fwdChannelLog fwdChannel
  simp only []
  rw [← inner]
  cases forLoop out.size2 (fun ph => forLoop out.size3 (fun pw =>
      fwdCellLog data.dptr data.size2 data.size3 out.size3 y1 x1 bh bw s.batch_data s.top_data
        ph pw)) (s.out, l) <;> rfl

theorem fwdRoiLog_dropLog (data out : Tensor4) (bbox : Tensor2) (scale : ℚ) (n : Nat)
    (s : FwdState) (l : List Int) :
    Except.map Prod.fst (fwdRoiLog data out bbox scale n (s, l))
      = fwdRoi data out bbox scale n s := by
  unfold fwdRoiLog fwdRoi
  simp only []
  cases load bbox.dptr s.bottom_rois with
  | none => rfl
  | some r0 =>
    cases load bbox.dptr (s.bottom_rois + 1) with
    | none => rfl
    | some r1 =>
      cases load bbox.dptr (s.bottom_rois + 2) with
      | none => rfl
      | some r2 =>
        cases load bbox.dptr (s.bottom_rois + 3) with
        | none => rfl
        | some r3 =>
          cases load bbox.dptr (s.bottom_rois + 4) with
          | none => rfl
          | some r4 =>
            simp only []
            by_cases h0 : castInt r0 ≥ 0
            · by_cases h1 : castInt r0 < (data.size0 : Int)
              · rw [if_neg (not_not.mpr h0), if_neg (not_not.mpr h1),
                  if_neg (not_not.mpr h0), if_neg (not_not.mpr h1)]
                rw [← forLoop_dropLog _ _ (fun c s' l' =>
                  fwdChannelLog_dropLog data out _ _ _ _ c s' l') data.size1 _ l]
                cases forLoop data.size1 (fwdChannelLog data out (r2 * scale) (r1 * scale)
                  (max (r4 * scale - r2 * scale) 0 / (((out.size2 : Int) - 1 : Int) : ℚ))
                  (max (r3 * scale - r1 * scale) 0 / (((out.size3 : Int) - 1 : Int) : ℚ)))
                  (({ out := s.out, batch_data :=
                      ((data.size1 * data.size2 * data.size3 : Nat) : Int) * castInt r0,
                      top_data := s.top_data } : FwdChan), l) <;> rfl
              · rw [if_neg (not_not.mpr h0), if_pos h1, if_neg (not_not.mpr h0), if_pos h1]
                rfl
            · rw [if_pos h0, if_pos h0]
              rfl

/-- Dropping the log of `ROIAlignForwardLog` gives `ROIAlignForward`, on every input. -/
theorem forwardLog_dropLog (out data : Tensor4) (bbox : Tensor2) (scale : ℚ) :
    Except.map Prod.fst (ROIAlignForwardLog out data bbox scale)
      = ROIAlignForward out data bbox scale := by
  unfold ROIAlignForwardLog ROIAlignForward
  rw [← forLoop_dropLog _ _ (fun n s l => fwdRoiLog_dropLog data out bbox scale n s l)
    bbox.size0 _ []]
  cases forLoop bbox.size0 (fwdRoiLog data out bbox scale)
    (({ out := out.dptr, top_data := 0, bottom_rois := 0 } : FwdState), []) <;> rfl

/-! ## The log on a valid input -/

theorem offsets_succ (a n : Nat) : offsets a (n + 1) = offsets a n ++ [((a + n : Nat) : Int)] := by
  unfold offsets
  rw [List.range_succ, List.map_append]
  rfl

theorem offsets_add (a m n : Nat) : offsets a (m + n) = offsets a m ++ offsets (a + m) n := by
  induction n with
  | zero => simp [offsets]
  | succ k ih =>
    rw [← Nat.add_assoc, offsets_succ, ih, offsets_succ, List.append_assoc, Nat.add_assoc]

theorem forLoop_inv {σ : Type} (J : Nat → σ → Prop) (body : Nat → σ → Except Fault σ)
    (n : Nat) (s0 : σ) (h0 : J 0 s0)
    (hstep : ∀ k, k < n → ∀ s, J k s → ∃ s', body k s = .ok s' ∧ J (k + 1) s') :
    ∃ s', forLoop n body s0 = .ok s' ∧ J n s' := by
  induction n with
  | zero => exact ⟨s0, rfl, h0⟩
  | succ k ih =>
    obtain ⟨s1, h1, hJ1⟩ := ih (fun j hj s hJ => hstep j (Nat.lt_succ_of_lt hj) s hJ)
    obtain ⟨s2, h2, hJ2⟩ := hstep k (Nat.lt_succ_self k) s1 hJ1
    refine ⟨s2, ?_, hJ2⟩
    simp only [forLoop, h1]
    exact h2

theorem fwdLog_row (data : List ℚ) (H W PW : Nat) (y1 x1 bh bw : ℚ) (base top ph : Nat)
    (out0 : List ℚ) (l0 : List Int) (hH : 2 ≤ H) (hW : 2 ≤ W)
    (hbase : base + H * W ≤ data.length) (htop : top + ph * PW + PW ≤ out0.length) :
    ∃ out', forLoop PW (fun pw => fwdCellLog data H W PW y1 x1 bh bw base top ph pw) (out0, l0)
        = .ok (out', l0 ++ offsets (top + ph * PW) PW) ∧ out'.length = out0.length := by
  obtain ⟨s', h, hl, hlog⟩ := forLoop_inv
    (fun k (s : List ℚ × List Int) => s.1.length = out0.length
      ∧ s.2 = l0 ++ offsets (top + ph * PW) k)
    (fun pw => fwdCellLog data H W PW y1 x1 bh bw base top ph pw) PW (out0, l0)
    ⟨rfl, by simp [offsets]⟩
    (by
      rintro k hk ⟨o, l⟩ ⟨hl, hlog⟩
      have hl' : o.length = out0.length := hl
      have hlog' : l = l0 ++ offsets (top + ph * PW) k := hlog
      have hc := fwdCell_ok data H W PW y1 x1 bh bw base top ph k o hH hW hbase (by omega)
      refine ⟨(o.set (top + ph * PW + k) (cellValue data H W y1 x1 bh bw base ph k),
        l ++ [((top : Int) + ((ph : Int) * (PW : Int) + (k : Int)))]), ?_, ?_, ?_⟩
      · simp only [fwdCellLog, hc]
      · show (o.set _ _).length = out0.length
        rw [List.length_set]
        exact hl'
      · show l ++ _ = l0 ++ offsets (top + ph * PW) (k + 1)
        rw [offsets_succ, hlog', List.append_assoc]
        congr 2
        push_cast
        ring_nf)
  obtain ⟨o, l⟩ := s'
  have hlog' : l = l0 ++ offsets (top + ph * PW) PW := hlog
  exact ⟨o, by rw [h, hlog'], hl⟩

theorem fwdLog_plane (data : List ℚ) (H W PH PW : Nat) (y1 x1 bh bw : ℚ) (base top : Nat)
    (out0 : List ℚ) (l0 : List Int) (hH : 2 ≤ H) (hW : 2 ≤ W)
    (hbase : base + H * W ≤ data.length) (htop : top + PH * PW ≤ out0.length) :
    ∃ out', forLoop PH (fun ph => forLoop PW (fun pw =>
        fwdCellLog data H W PW y1 x1 bh bw base top ph pw)) (out0, l0)
        = .ok (out', l0 ++ offsets top (PH * PW)) ∧ out'.length = out0.length := by
  obtain ⟨s', h, hl, hlog⟩ := forLoop_inv
    (fun k (s : List ℚ × List Int) => s.1.length = out0.length
      ∧ s.2 = l0 ++ offsets top (k * PW))
    (fun ph => forLoop PW (fun pw => fwdCellLog data H W PW y1 x1 bh bw base top ph pw))
    PH (out0, l0) ⟨rfl, by simp [offsets]⟩
    (by
      rintro k hk ⟨o, l⟩ ⟨hl, hlog⟩
      have hl' : o.length = out0.length := hl
      have hlog' : l = l0 ++ offsets top (k * PW) := hlog
      have hle := succ_mul_le k PH PW hk
      obtain ⟨o', h, hlen⟩ := fwdLog_row data H W PW y1 x1 bh bw base top k o l hH hW hbase
        (by omega)
      refine ⟨(o', l ++ offsets (top + k * PW) PW), h, ?_, ?_⟩
      · show o'.length = out0.length
        rw [hlen]
        exact hl'
      · show l ++ _ = l0 ++ offsets top ((k + 1) * PW)
        rw [hlog', List.append_assoc, ← offsets_add, Nat.succ_mul])
  obtain ⟨o, l⟩ := s'
  have hlog' : l = l0 ++ offsets top (PH * PW) := hlog
  exact ⟨o, by rw [h, hlog'], hl⟩

theorem fwdLog_channels (data out : Tensor4) (y1 x1 bh bw : ℚ) (base0 top0 : Nat)
    (out0 : List ℚ) (l0 : List Int) (hH : 2 ≤ data.size2) (hW : 2 ≤ data.size3)
    (hbase : base0 + data.size1 * (data.size2 * data.size3) ≤ data.dptr.length)
    (htop : top0 + data.size1 * (out.size2 * out.size3) ≤ out0.length) :
    ∃ s', forLoop data.size1 (fwdChannelLog data out y1 x1 bh bw)
        (⟨out0, (base0 : Int), (top0 : Int)⟩, l0)
        = .ok (s', l0 ++ offsets top0 (data.size1 * (out.size2 * out.size3))) ∧
      s'.top_data = ((top0 + data.size1 * (out.size2 * out.size3) : Nat) : Int) ∧
      s'.out.length = out0.length := by
  obtain ⟨s', h, hb, ht, hl, hlog⟩ := forLoop_inv
    (fun k (s : FwdChan × List Int) =>
      s.1.batch_data = ((base0 + k * (data.size2 * data.size3) : Nat) : Int)
      ∧ s.1.top_data = ((top0 + k * (out.size2 * out.size3) : Nat) : Int)
      ∧ s.1.out.length = out0.length
      ∧ s.2 = l0 ++ offsets top0 (k * (out.size2 * out.size3)))
    (fwdChannelLog data out y1 x1 bh bw) data.size1 (⟨out0, (base0 : Int), (top0 : Int)⟩, l0)
    ⟨by simp, by simp, rfl, by simp [offsets]⟩
    (by
      rintro k hk ⟨s, l⟩ ⟨hb, ht, hl, hlog⟩
      have hb' : s.batch_data = ((base0 + k * (data.size2 * data.size3) : Nat) : Int) := hb
      have ht' : s.top_data = ((top0 + k * (out.size2 * out.size3) : Nat) : Int) := ht
      have hl' : s.out.length = out0.length := hl
      have hlog' : l = l0 ++ offsets top0 (k * (out.size2 * out.size3)) := hlog
      have hle1 := succ_mul_le k data.size1 (data.size2 * data.size3) hk
      have hle2 := succ_mul_le k data.size1 (out.size2 * out.size3) hk
      obtain ⟨o', h, hlen⟩ := fwdLog_plane data.dptr data.size2 data.size3 out.size2 out.size3
        y1 x1 bh bw (base0 + k * (data.size2 * data.size3))
        (top0 + k * (out.size2 * out.size3)) s.out l hH hW (by omega) (by omega)
      refine ⟨(⟨o', s.batch_data + ((data.size2 * data.size3 : Nat) : Int),
        s.top_data + ((out.size2 * out.size3 : Nat) : Int)⟩,
        l ++ offsets (top0 + k * (out.size2 * out.size3)) (out.size2 * out.size3)),
        ?_, ?_, ?_, ?_, ?_⟩
      · simp only [fwdChannelLog, hb', ht', h]
      · show s.batch_data + _ = _
        rw [hb']; push_cast; ring
      · show s.top_data + _ = _
        rw [ht']; push_cast; ring
      · show o'.length = out0.length
        rw [hlen]
        exact hl'
      · show l ++ _ = l0 ++ offsets top0 ((k + 1) * (out.size2 * out.size3))
        rw [hlog', List.append_assoc, ← offsets_add, Nat.succ_mul])
  obtain ⟨s, l⟩ := s'
  have hlog' : l = l0 ++ offsets top0 (data.size1 * (out.size2 * out.size3)) := hlog
  exact ⟨s, by rw [h, hlog'], ht, hl⟩

theorem fwdLog_rois (out data : Tensor4) (bbox : Tensor2) (scale : ℚ)
    (hv : ValidForward out data bbox) :
    ∃ s', forLoop bbox.size0 (fwdRoiLog data out bbox scale) (⟨out.dptr, 0, 0⟩, [])
        = .ok (s', offsets 0 (bbox.size0 * (data.size1 * (out.size2 * out.size3)))) := by
  obtain ⟨s', h, -, -, -, hlog⟩ := forLoop_inv
    (fun k (s : FwdState × List Int) =>
      s.1.top_data = ((k * (data.size1 * (out.size2 * out.size3)) : Nat) : Int)
      ∧ s.1.bottom_rois = ((k * 5 : Nat) : Int)
      ∧ s.1.out.length = out.dptr.length
      ∧ s.2 = offsets 0 (k * (data.size1 * (out.size2 * out.size3))))
    (fwdRoiLog data out bbox scale) bbox.size0 (⟨out.dptr, 0, 0⟩, [])
    ⟨by simp, by simp, rfl, by simp [offsets]⟩
    (by
      rintro k hk ⟨s, l⟩ ⟨ht, hbr, hl, hlog⟩
      have ht' : s.top_data = ((k * (data.size1 * (out.size2 * out.size3)) : Nat) : Int) := ht
      have e0 : s.bottom_rois = ((k * 5 : Nat) : Int) := hbr
      have hl' : s.out.length = out.dptr.length := hl
      have hlog' : l = offsets 0 (k * (data.size1 * (out.size2 * out.size3))) := hlog
      have hbl := hv.bbox_len
      obtain ⟨hb0, hb1⟩ := hv.batch_ind k hk
      have hle1 := succ_mul_le (roiBatchInd bbox k).toNat data.size0
        (data.size1 * (data.size2 * data.size3)) (by omega)
      have hle2 := succ_mul_le k bbox.size0 (data.size1 * (out.size2 * out.size3)) hk
      have hdl := hv.data_len
      have hol := hv.out_len
      have hassoc : data.size1 * data.size2 * data.size3
          = data.size1 * (data.size2 * data.size3) := Nat.mul_assoc _ _ _
      have hcomm : data.size1 * (data.size2 * data.size3) * (roiBatchInd bbox k).toNat
          = (roiBatchInd bbox k).toNat * (data.size1 * (data.size2 * data.size3)) :=
        Nat.mul_comm _ _
      obtain ⟨s', h, htd, hlen⟩ := fwdLog_channels data out
        (roiStartH bbox scale k) (roiStartW bbox scale k)
        (binSizeH bbox scale out.size2 k) (binSizeW bbox scale out.size3 k)
        (data.size1 * data.size2 * data.size3 * (roiBatchInd bbox k).toNat)
        (k * (data.size1 * (out.size2 * out.size3))) s.out l hv.height hv.width
        (by rw [hassoc]; omega) (by omega)
      have e1 : s.bottom_rois + 1 = ((k * 5 + 1 : Nat) : Int) := by rw [e0]; push_cast; ring
      have e2 : s.bottom_rois + 2 = ((k * 5 + 2 : Nat) : Int) := by rw [e0]; push_cast; ring
      have e3 : s.bottom_rois + 3 = ((k * 5 + 3 : Nat) : Int) := by rw [e0]; push_cast; ring
      have e4 : s.bottom_rois + 4 = ((k * 5 + 4 : Nat) : Int) := by rw [e0]; push_cast; ring
      have ebase : (((data.size1 * data.size2 * data.size3 : Nat) : Int))
          * castInt (bbox.dptr.getD (k * 5) 0)
          = ((data.size1 * data.size2 * data.size3 * (roiBatchInd bbox k).toNat : Nat) : Int) := by
        have : ((roiBatchInd bbox k).toNat : Int) = roiBatchInd bbox k :=
          Int.toNat_of_nonneg hb0
        push_cast
        rw [this]
        rfl
      have hge : castInt (bbox.dptr.getD (k * 5) 0) ≥ 0 := hb0
      have hlt : castInt (bbox.dptr.getD (k * 5) 0) < (data.size0 : Int) := hb1
      refine ⟨(⟨s'.out, s'.top_data, s.bottom_rois + (bbox.size1 : Int)⟩,
        l ++ offsets (k * (data.size1 * (out.size2 * out.size3)))
          (data.size1 * (out.size2 * out.size3))), ?_, ?_, ?_, ?_, ?_⟩
      · unfold fwdRoiLog
        simp only [e1, e2, e3, e4]
        rw [e0, load_of_lt _ _ (by omega : k * 5 < bbox.dptr.length),
          load_of_lt _ _ (by omega : k * 5 + 1 < bbox.dptr.length),
          load_of_lt _ _ (by omega : k * 5 + 2 < bbox.dptr.length),
          load_of_lt _ _ (by omega : k * 5 + 3 < bbox.dptr.length),
          load_of_lt _ _ (by omega : k * 5 + 4 < bbox.dptr.length)]
        simp only [hge, hlt, not_true_eq_false, if_false, ebase, ht']
        have h' := h
        simp only [roiStartH, roiStartW, binSizeH, binSizeW, roiEndH, roiEndW] at h'
        simp only [h', e0]
      · show s'.top_data = _
        rw [htd]; push_cast; ring
      · show s.bottom_rois + (bbox.size1 : Int) = _
        rw [e0, hv.bbox_size1]; push_cast; ring
      · show s'.out.length = out.dptr.length
        rw [hlen]
        exact hl'
      · show l ++ _ = offsets 0 ((k + 1) * (data.size1 * (out.size2 * out.size3)))
        rw [hlog', Nat.succ_mul, offsets_add, Nat.zero_add])
  obtain ⟨s, l⟩ := s'
  have hlog' : l = offsets 0 (bbox.size0 * (data.size1 * (out.size2 * out.size3))) := hlog
  exact ⟨s, by rw [h, hlog']⟩

/-- A successful cell iteration of `ROIAlignForward` is one store to `top_data[pool_index]`. -/
theorem fwdCell_one_store (data : List ℚ) (H W PW : Nat) (y1 x1 bh bw : ℚ)
    (batch_data top_data : Int) (ph pw : Nat) (mem mem' : List ℚ)
    (h : fwdCell data H W PW y1 x1 bh bw batch_data top_data ph pw mem = .ok mem') :
    ∃ v, store mem (top_data + ((ph : Int) * (PW : Int) + (pw : Int))) v = some mem' := by
  unfold fwdCell at h
  simp only [] at h
  split at h
  · split at h
    · rename_i o ho
      injection h with h
      exact ⟨0, by rw [ho, h]⟩
    · cases h
  · split at h
    · split at h
      · rename_i o ho
        injection h with h
        exact ⟨_, by rw [ho, h]⟩
      · cases h
    · cases h

/-- On a valid input the result of `ROIAlignForward` does not depend on the content of
the output buffer before the call. -/
theorem forward_independent (out data : Tensor4) (bbox : Tensor2) (scale : ℚ)
    (hv : ValidForward out data bbox) (d : List ℚ) (hd : d.length = out.dptr.length) :
    ∃ r, ROIAlignForward out data bbox scale = .ok r ∧
      ROIAlignForward (withData out d) data bbox scale = .ok r := by
  have hv' : ValidForward (withData out d) data bbox :=
    { data_len := hv.data_len
      out_len := hd.trans hv.out_len
      out_size0 := hv.out_size0
      out_size1 := hv.out_size1
      bbox_len := hv.bbox_len
      bbox_size1 := hv.bbox_size1
      height := hv.height
      width := hv.width
      pooled_height := hv.pooled_height
      pooled_width := hv.pooled_width
      batch_ind := hv.batch_ind }
  obtain ⟨r, h, hl, hw⟩ := forward_flat out data bbox scale hv
  obtain ⟨r', h', hl', hw'⟩ := forward_flat (withData out d) data bbox scale hv'
  refine ⟨r, h, ?_⟩
  rw [h']
  congr 1
  refine list_eq_of_flat4 r' r bbox.size0 data.size1 out.size2 out.size3
    (by rw [hl']; exact hd.trans hv.out_len) (by rw [hl, hv.out_len]) ?_
  intro n c ph pw hn hc hph hpw
  rw [hw n c ph pw hn hc hph hpw]
  exact hw' n c ph pw hn hc hph hpw

/-! ## The compiled kernels on valid inputs of bounded size -/

/-- A value in the range of a 32-bit `int` is not changed by the wrap-around. -/
theorem wrapInt32_of_range (z : Int) (h0 : -2147483648 ≤ z) (h1 : z < 2147483648) :
    wrapInt32 z = z := by
  unfold wrapInt32
  omega

/-- Two loops whose bodies agree wherever the invariant holds give the same result. -/
theorem forLoop_congr {σ : Type} (J : Nat → σ → Prop)
    (body body' : Nat → σ → Except Fault σ) (n : Nat) (s0 : σ) (h0 : J 0 s0)
    (hstep : ∀ k, k < n → ∀ s, J k s → ∃ s', body k s = .ok s' ∧ J (k + 1) s')
    (heq : ∀ k, k < n → ∀ s, J k s → body' k s = body k s) :
    forLoop n body' s0 = forLoop n body s0 := by
  have key : ∀ m, m ≤ n →
      ∃ s, forLoop m body s0 = .ok s ∧ forLoop m body' s0 = .ok s ∧ J m s := by
    intro m
    induction m with
    | zero => intro _; exact ⟨s0, rfl, rfl, h0⟩
    | succ k ih =>
      intro hk
      obtain ⟨s, h1, h2, hJ⟩ := ih (by omega)
      obtain ⟨s', hs', hJ'⟩ := hstep k (by omega) s hJ
      refine ⟨s', ?_, ?_, hJ'⟩
      · simp only [forLoop, h1, hs']
      · simp only [forLoop, h2, heq k (by omega) s hJ, hs']
  obtain ⟨s, h1, h2, -⟩ := key n le_rfl
  rw [h1, h2]

/-- The offset of a batch slice fits a 32-bit `int` when the buffer has fewer than `2^31`
elements. -/
theorem wrap_base (B P : Nat) (b : Int) (hb0 : 0 ≤ b) (hb1 : b < (B : Int))
    (hsz : B * P < 2147483648) :
    wrapInt32 (wrapInt32 ((P : Nat) : Int) * b) = ((P : Nat) : Int) * b := by
  have hle := succ_mul_le b.toNat B P (by omega)
  have hbn : ((b.toNat : Nat) : Int) = b := Int.toNat_of_nonneg hb0
  have hP : P < 2147483648 := by
    have : P ≤ (b.toNat + 1) * P := Nat.le_mul_of_pos_left _ (by omega)
    omega
  have hPb : b.toNat * P < 2147483648 := by
    have : (b.toNat + 1) * P = b.toNat * P + P := Nat.succ_mul _ _
    omega
  have e : ((P : Nat) : Int) * b = ((b.toNat * P : Nat) : Int) := by
    push_cast
    rw [hbn]
    ring
  have hin : wrapInt32 ((P : Nat) : Int) = ((P : Nat) : Int) :=
    wrapInt32_of_range _ (by omega) (by omega)
  rw [hin, e]
  exact wrapInt32_of_range _ (by omega) (by omega)

/-- On a region whose batch index is in range, of a feature map with fewer than `2^31`
elements, the compiled iteration of the region loop is the iteration `fwdRoi`. -/
theorem fwdRoiRelease_eq (out data : Tensor4) (bbox : Tensor2) (scale : ℚ)
    (hs : WellShaped out data bbox)
    (hsz : data.size0 * (data.size1 * (data.size2 * data.size3)) < 2147483648)
    (k : Nat) (hk : k < bbox.size0) (hok : batchIndOk data bbox k) (s : FwdState)
    (hJ : s.bottom_rois = ((k * 5 : Nat) : Int)) :
    fwdRoiRelease data out bbox scale k s = fwdRoi data out bbox scale k s := by
  have hbl := hs.bbox_len
  obtain ⟨hb0, hb1⟩ := hok
  have hassoc : data.size1 * data.size2 * data.size3
      = data.size1 * (data.size2 * data.size3) := Nat.mul_assoc _ _ _
  have e0 : s.bottom_rois = ((k * 5 : Nat) : Int) := hJ
  have e1 : s.bottom_rois + 1 = ((k * 5 + 1 : Nat) : Int) := by rw [e0]; push_cast; ring
  have e2 : s.bottom_rois + 2 = ((k * 5 + 2 : Nat) : Int) := by rw [e0]; push_cast; ring
  have e3 : s.bottom_rois + 3 = ((k * 5 + 3 : Nat) : Int) := by rw [e0]; push_cast; ring
  have e4 : s.bottom_rois + 4 = ((k * 5 + 4 : Nat) : Int) := by rw [e0]; push_cast; ring
  have hge : castInt (bbox.dptr.getD (k * 5) 0) ≥ 0 := hb0
  have hlt : castInt (bbox.dptr.getD (k * 5) 0) < (data.size0 : Int) := hb1
  have hw := wrap_base data.size0 (data.size1 * data.size2 * data.size3)
    (castInt (bbox.dptr.getD (k * 5) 0)) hge hlt (by rw [hassoc]; exact hsz)
  unfold fwdRoiRelease fwdRoi
  simp only [e1, e2, e3, e4]
  rw [e0, load_of_lt _ _ (by omega : k * 5 < bbox.dptr.length),
    load_of_lt _ _ (by omega : k * 5 + 1 < bbox.dptr.length),
    load_of_lt _ _ (by omega : k * 5 + 2 < bbox.dptr.length),
    load_of_lt _ _ (by omega : k * 5 + 3 < bbox.dptr.length),
    load_of_lt _ _ (by omega : k * 5 + 4 < bbox.dptr.length)]
  simp only [hge, hlt, not_true_eq_false, if_false, hw]

/-- The compiled region loop over the first `k` regions, all with a batch index in
range, is the loop of `fwdRoi`. -/
theorem forward_release_first_regions (out data : Tensor4) (bbox : Tensor2) (scale : ℚ)
    (hs : WellShaped out data bbox)
    (hsz : data.size0 * (data.size1 * (data.size2 * data.size3)) < 2147483648)
    (k : Nat) (hk : k ≤ bbox.size0) (hok : ∀ n, n < k → batchIndOk data bbox n) :
    forLoop k (fwdRoiRelease data out bbox scale) ⟨out.dptr, 0, 0⟩
      = forLoop k (fwdRoi data out bbox scale) ⟨out.dptr, 0, 0⟩ := by
  refine forLoop_congr
    (fun j s => (s.top_data = ((j * (data.size1 * (out.size2 * out.size3)) : Nat) : Int)
      ∧ s.bottom_rois = ((j * 5 : Nat) : Int)) ∧ s.out.length = out.dptr.length)
    _ _ k _ ⟨by simp, rfl⟩ ?_ ?_
  · intro j hj s hJ
    obtain ⟨s', h, hJ', hl', -⟩ :=
      fwdRoi_step out data bbox scale hs j (by omega) (hok j hj) s hJ.1 hJ.2
    exact ⟨s', h, hJ', by rw [hl', hJ.2]⟩
  · intro j hj s hJ
    exact fwdRoiRelease_eq out data bbox scale hs hsz j (by omega) (hok j hj) s hJ.1.2

/-- On a valid input whose feature map has fewer than `2^31` elements the compiled
forward kernel is the kernel `ROIAlignForward`. -/
theorem forward_release_eq (out data : Tensor4) (bbox : Tensor2) (scale : ℚ)
    (hv : ValidForward out data bbox)
    (hsz : data.size0 * (data.size1 * (data.size2 * data.size3)) < 2147483648) :
    ROIAlignForwardRelease out data bbox scale = ROIAlignForward out data bbox scale := by
  unfold ROIAlignForwardRelease ROIAlignForward
  rw [forward_release_first_regions out data bbox scale (wellShaped_of_valid out data bbox hv) hsz
    bbox.size0 le_rfl (fun n hn => hv.batch_ind n hn)]

/-- One iteration of the region loop of `ROIAlignBackwardAcc` on a valid input. -/
theorem bwdRoi_step (bs : Int) (in_grad out_grad : Tensor4) (bbox : Tensor2) (scale : ℚ)
    (hv : ValidBackward bs in_grad out_grad bbox) (k : Nat) (hk : k < bbox.size0)
    (s : BwdState)
    (hJ : s.top_diff
        = ((k * (in_grad.size1 * (out_grad.size2 * out_grad.size3)) : Nat) : Int)
      ∧ s.bottom_rois = ((k * 5 : Nat) : Int))
    (hl : s.grad.length = in_grad.dptr.length) :
    ∃ s', bwdRoi bs in_grad out_grad bbox scale k s = .ok s' ∧
      (s'.top_diff
          = (((k + 1) * (in_grad.size1 * (out_grad.size2 * out_grad.size3)) : Nat) : Int)
        ∧ s'.bottom_rois = (((k + 1) * 5 : Nat) : Int)) ∧
      s'.grad.length = s.grad.length := by
  have hs := hv.shapes
  have hbl := hs.bbox_len
  obtain ⟨hb0, hb1⟩ := hs.batch_ind k hk
  have hb2 := hv.batch_size k hk
  have hle1 := succ_mul_le (roiBatchInd bbox k).toNat in_grad.size0
    (in_grad.size1 * (in_grad.size2 * in_grad.size3)) (by omega)
  have hle2 := succ_mul_le k bbox.size0
    (in_grad.size1 * (out_grad.size2 * out_grad.size3)) hk
  have hdl := hs.data_len
  have hol := hs.out_len
  have hassoc : in_grad.size1 * in_grad.size2 * in_grad.size3
      = in_grad.size1 * (in_grad.size2 * in_grad.size3) := Nat.mul_assoc _ _ _
  have hcomm : in_grad.size1 * (in_grad.size2 * in_grad.size3)
      * (roiBatchInd bbox k).toNat
      = (roiBatchInd bbox k).toNat * (in_grad.size1 * (in_grad.size2 * in_grad.size3)) :=
    Nat.mul_comm _ _
  obtain ⟨s', h, htd, hlen, -⟩ := bwd_channels in_grad out_grad
    (roiStartH bbox scale k) (roiStartW bbox scale k)
    (binSizeH bbox scale out_grad.size2 k) (binSizeW bbox scale out_grad.size3 k)
    (in_grad.size1 * in_grad.size2 * in_grad.size3 * (roiBatchInd bbox k).toNat)
    (k * (in_grad.size1 * (out_grad.size2 * out_grad.size3))) s.grad hs.height hs.width
    (by rw [hassoc]; omega) (by omega)
  have e0 : s.bottom_rois = ((k * 5 : Nat) : Int) := hJ.2
  have e1 : s.bottom_rois + 1 = ((k * 5 + 1 : Nat) : Int) := by rw [e0]; push_cast; ring
  have e2 : s.bottom_rois + 2 = ((k * 5 + 2 : Nat) : Int) := by rw [e0]; push_cast; ring
  have e3 : s.bottom_rois + 3 = ((k * 5 + 3 : Nat) : Int) := by rw [e0]; push_cast; ring
  have e4 : s.bottom_rois + 4 = ((k * 5 + 4 : Nat) : Int) := by rw [e0]; push_cast; ring
  have ebase : (((in_grad.size1 * in_grad.size2 * in_grad.size3 : Nat) : Int))
      * castInt (bbox.dptr.getD (k * 5) 0)
      = ((in_grad.size1 * in_grad.size2 * in_grad.size3
          * (roiBatchInd bbox k).toNat : Nat) : Int) := by
    have : ((roiBatchInd bbox k).toNat : Int) = roiBatchInd bbox k :=
      Int.toNat_of_nonneg hb0
    push_cast
    rw [this]
    rfl
  have hge : castInt (bbox.dptr.getD (k * 5) 0) ≥ 0 := hb0
  have hlt : castInt (bbox.dptr.getD (k * 5) 0) < bs := hb2
  refine ⟨⟨s'.grad, s'.top_diff, s.bottom_rois + (bbox.size1 : Int)⟩, ?_, ?_, hlen⟩
  · unfold bwdRoi
    simp only [e1, e2, e3, e4]
    rw [e0, load_of_lt _ _ (by omega : k * 5 < bbox.dptr.length),
      load_of_lt _ _ (by omega : k * 5 + 1 < bbox.dptr.length),
      load_of_lt _ _ (by omega : k * 5 + 2 < bbox.dptr.length),
      load_of_lt _ _ (by omega : k * 5 + 3 < bbox.dptr.length),
      load_of_lt _ _ (by omega : k * 5 + 4 < bbox.dptr.length)]
    simp only [hge, hlt, not_true_eq_false, if_false, ebase, hJ.1]
    have h' := h
    simp only [roiStartH, roiStartW, binSizeH, binSizeW, roiEndH, roiEndW] at h'
    simp only [h', e0]
  · constructor
    · show s'.top_diff = _
      rw [htd]; push_cast; ring
    · show s.bottom_rois + (bbox.size1 : Int) = _
      rw [e0, hs.bbox_size1]; push_cast; ring

/-- On a region whose batch index is in range, of a gradient buffer with fewer than
`2^31` elements, the compiled iteration of the region loop is the iteration
`bwdRoi`. -/
theorem bwdRoiRelease_eq (bs : Int) (in_grad out_grad : Tensor4) (bbox : Tensor2)
    (scale : ℚ) (hv : ValidBackward bs in_grad out_grad bbox)
    (hsz : in_grad.size0 * (in_grad.size1 * (in_grad.size2 * in_grad.size3)) < 2147483648)
    (k : Nat) (hk : k < bbox.size0) (s : BwdState)
    (hJ : s.bottom_rois = ((k * 5 : Nat) : Int)) :
    bwdRoiRelease in_grad out_grad bbox scale k s
      = bwdRoi bs in_grad out_grad bbox scale k s := by
  have hs := hv.shapes
  have hbl := hs.bbox_len
  obtain ⟨hb0, hb1⟩ := hs.batch_ind k hk
  have hb2 := hv.batch_size k hk
  have hassoc : in_grad.size1 * in_grad.size2 * in_grad.size3
      = in_grad.size1 * (in_grad.size2 * in_grad.size3) := Nat.mul_assoc _ _ _
  have e0 : s.bottom_rois = ((k * 5 : Nat) : Int) := hJ
  have e1 : s.bottom_rois + 1 = ((k * 5 + 1 : Nat) : Int) := by rw [e0]; push_cast; ring
  have e2 : s.bottom_rois + 2 = ((k * 5 + 2 : Nat) : Int) := by rw [e0]; push_cast; ring
  have e3 : s.bottom_rois + 3 = ((k * 5 + 3 : Nat) : Int) := by rw [e0]; push_cast; ring
  have e4 : s.bottom_rois + 4 = ((k * 5 + 4 : Nat) : Int) := by rw [e0]; push_cast; ring
  have hge : castInt (bbox.dptr.getD (k * 5) 0) ≥ 0 := hb0
  have hlt : castInt (bbox.dptr.getD (k * 5) 0) < bs := hb2
  have hlt' : castInt (bbox.dptr.getD (k * 5) 0) < (in_grad.size0 : Int) := hb1
  have hw := wrap_base in_grad.size0 (in_grad.size1 * in_grad.size2 * in_grad.size3)
    (castInt (bbox.dptr.getD (k * 5) 0)) hge hlt' (by rw [hassoc]; exact hsz)
  unfold bwdRoiRelease bwdRoi
  simp only [e1, e2, e3, e4]
  rw [e0, load_of_lt _ _ (by omega : k * 5 < bbox.dptr.length),
    load_of_lt _ _ (by omega : k * 5 + 1 < bbox.dptr.length),
    load_of_lt _ _ (by omega : k * 5 + 2 < bbox.dptr.length),
    load_of_lt _ _ (by omega : k * 5 + 3 < bbox.dptr.length),
    load_of_lt _ _ (by omega : k * 5 + 4 < bbox.dptr.length)]
  simp only [hge, hlt, not_true_eq_false, if_false, hw]

/-- On a valid input whose gradient buffer has fewer than `2^31` elements the compiled
backward kernel is the kernel `ROIAlignBackwardAcc`. -/
theorem backward_release_eq (bs : Int) (in_grad out_grad : Tensor4) (bbox : Tensor2)
    (scale : ℚ) (hv : ValidBackward bs in_grad out_grad bbox)
    (hsz : in_grad.size0 * (in_grad.size1 * (in_grad.size2 * in_grad.size3)) < 2147483648) :
    ROIAlignBackwardAccRelease in_grad out_grad bbox scale
      = ROIAlignBackwardAcc bs in_grad out_grad bbox scale := by
  unfold ROIAlignBackwardAccRelease ROIAlignBackwardAcc
  have h : forLoop bbox.size0 (bwdRoiRelease in_grad out_grad bbox scale)
      ⟨in_grad.dptr, 0, 0⟩
      = forLoop bbox.size0 (bwdRoi bs in_grad out_grad bbox scale) ⟨in_grad.dptr, 0, 0⟩ := by
    refine forLoop_congr
      (fun j s => (s.top_diff
          = ((j * (in_grad.size1 * (out_grad.size2 * out_grad.size3)) : Nat) : Int)
        ∧ s.bottom_rois = ((j * 5 : Nat) : Int)) ∧ s.grad.length = in_grad.dptr.length)
      _ _ bbox.size0 _ ⟨by simp, rfl⟩ ?_ ?_
    · intro j hj s hJ
      obtain ⟨s', h, hJ', hl'⟩ :=
        bwdRoi_step bs in_grad out_grad bbox scale hv j hj s hJ.1 hJ.2
      exact ⟨s', h, hJ', by rw [hl', hJ.2]⟩
    · intro j hj s hJ
      exact bwdRoiRelease_eq bs in_grad out_grad bbox scale hv hsz j hj s hJ.1.2
  rw [h]

/-! ## The compiled forward kernel holds no check -/

/-- A loop whose body never stops at an assertion never stops at an assertion. -/
theorem forLoop_no_assertion {σ : Type} (body : Nat → σ → Except Fault σ)
    (hbody : ∀ k s mem, body k s ≠ .error (.assertion mem)) :
    ∀ n s mem, forLoop n body s ≠ .error (.assertion mem) := by
  intro n
  induction n with
  | zero =>
    intro s mem h
    simp [forLoop] at h
  | succ k ih =>
    intro s mem h
    simp only [forLoop] at h
    cases hk : forLoop k body s with
    | ok s' =>
      rw [hk] at h
      exact hbody k s' mem h
    | error e =>
      rw [hk] at h
      simp only at h
      injection h with h
      subst h
      exact ih s mem hk

/-- The loop body of `ROIAlignForward` holds no assertion. -/
theorem fwdCell_no_assertion (data : List ℚ) (height_ width_ pooled_width_ : Nat)
    (y1 x1 bh bw : ℚ) (bd td : Int) (ph pw : Nat) (out mem : List ℚ) :
    fwdCell data height_ width_ pooled_width_ y1 x1 bh bw bd td ph pw out
      ≠ .error (.assertion mem) := by
  unfold fwdCell
  simp only []
  split_ifs
  · split <;> simp
  · split
    · split <;> simp
    · simp

/-- The channel loop of `ROIAlignForward` holds no assertion. -/
theorem fwdChannel_no_assertion (data out : Tensor4) (y1 x1 bh bw : ℚ) (c : Nat)
    (s : FwdChan) (mem : List ℚ) :
    fwdChannel data out y1 x1 bh bw c s ≠ .error (.assertion mem) := by
  unfold fwdChannel
  intro h
  split at h
  · simp at h
  · rename_i e he
    injection h with h
    subst h
    exact forLoop_no_assertion _ (fun ph s' mem' =>
      forLoop_no_assertion _ (fun pw s'' mem'' =>
        fwdCell_no_assertion _ _ _ _ _ _ _ _ _ _ _ _ _ _) _ _ _) _ _ _ he

/-- The region loop of the compiled `ROIAlignForward` holds no assertion. -/
theorem fwdRoiRelease_no_assertion (data out : Tensor4) (bbox : Tensor2) (scale : ℚ)
    (n : Nat) (s : FwdState) (mem : List ℚ) :
    fwdRoiRelease data out bbox scale n s ≠ .error (.assertion mem) := by
  unfold fwdRoiRelease
  simp only []
  intro h
  split at h
  · split at h
    · simp at h
    · rename_i e he
      injection h with h
      subst h
      exact forLoop_no_assertion _ (fun c s' mem' =>
        fwdChannel_no_assertion _ _ _ _ _ _ _ _ _) _ _ _ he
  · simp at h

/-- The compiled `ROIAlignForward` never stops at an assertion. -/
theorem forwardRelease_no_assertion (out data : Tensor4) (bbox : Tensor2) (scale : ℚ)
    (mem : List ℚ) :
    ROIAlignForwardRelease out data bbox scale ≠ .error (.assertion mem) := by
  unfold ROIAlignForwardRelease
  intro h
  split at h
  · simp at h
  · rename_i e he
    injection h with h
    subst h
    exact forLoop_no_assertion _ (fun n s' mem' =>
      fwdRoiRelease_no_assertion _ _ _ _ _ _ _) _ _ _ he

/-! ## The example is a valid input -/

theorem example_valid_of (bbox : Tensor2) (r1 r2 r3 r4 : ℚ)
    (hb : bbox = ⟨[0, r1, r2, r3, r4], 1, 5⟩) :
    ValidForward exampleOut exampleData bbox where
  data_len := by simp only [exampleData, List.length_map, List.length_range]
  out_len := by subst hb; simp [exampleOut, exampleData]
  out_size0 := by subst hb; rfl
  out_size1 := rfl
  bbox_len := by subst hb; simp
  bbox_size1 := by subst hb; rfl
  height := by simp [exampleData]
  width := by simp [exampleData]
  pooled_height := by simp [exampleOut]
  pooled_width := by simp [exampleOut]
  batch_ind := by
    subst hb
    intro n hn
    have h0 : n = 0 := by
      have : n < 1 := hn
      omega
    subst h0
    simp [roiBatchInd, castInt, exampleData]

theorem example_valid : ValidForward exampleOut exampleData exampleRois :=
  example_valid_of exampleRois 0 0 4 4 rfl

theorem exampleData_get (y x : Nat) (hy : y < 8) (hx : x < 6) :
    exampleData.get 0 0 y x = ((y * 6 + x : Nat) : ℚ) := by
  unfold Tensor4.get exampleData
  simp only [Nat.zero_mul, Nat.zero_add, Nat.add_zero]
  rw [List.getD_eq_getElem?_getD, List.getElem?_map, List.getElem?_range (by omega)]
  rfl

theorem exampleData_size2 : exampleData.size2 = 8 := rfl

theorem exampleData_size3 : exampleData.size3 = 6 := rfl

theorem toNat_two : Int.toNat 2 = 2 := rfl

theorem toNat_four : Int.toNat 4 = 4 := rfl

theorem toNat_six : Int.toNat 6 = 6 := rfl

/-- The forward kernel on the example map with one region and pooled size `(2,2)`. -/
theorem forward_example (bbox : Tensor2) (scale : ℚ) (hN : bbox.size0 = 1)
    (hv : ValidForward exampleOut exampleData bbox) :
    ROIAlignForward exampleOut exampleData bbox scale
      = .ok [specForward exampleData bbox scale 2 2 0 0 0 0,
          specForward exampleData bbox scale 2 2 0 0 0 1,
          specForward exampleData bbox scale 2 2 0 0 1 0,
          specForward exampleData bbox scale 2 2 0 0 1 1] := by
  obtain ⟨out', h, hl, hw⟩ := forward_flat exampleOut exampleData bbox scale hv
  rw [h]
  have h00 := hw 0 0 0 0 (by omega) (by decide) (by decide) (by decide)
  have h01 := hw 0 0 0 1 (by omega) (by decide) (by decide) (by decide)
  have h10 := hw 0 0 1 0 (by omega) (by decide) (by decide) (by decide)
  have h11 := hw 0 0 1 1 (by omega) (by decide) (by decide) (by decide)
  rw [forwardValue_eq_spec exampleOut exampleData bbox scale hv] at h00 h01 h10 h11
  have h00 : out'[0]? = some (specForward exampleData bbox scale 2 2 0 0 0 0) := h00
  have h01 : out'[1]? = some (specForward exampleData bbox scale 2 2 0 0 0 1) := h01
  have h10 : out'[2]? = some (specForward exampleData bbox scale 2 2 0 0 1 0) := h10
  have h11 : out'[3]? = some (specForward exampleData bbox scale 2 2 0 0 1 1) := h11
  have hl : out'.length = 4 := hl
  match out', hl, h00, h01, h10, h11 with
  | [a, b, c, d], _, h00, h01, h10, h11 =>
    simp only [List.getElem?_cons_zero, List.getElem?_cons_succ, Option.some.injEq]
      at h00 h01 h10 h11
    rw [h00, h01, h10, h11]

theorem two_regions_valid : ValidBackward (exampleData.size0 : Int) exampleData twoGrad twoRois where
  shapes :=
    { data_len := by simp only [exampleData, List.length_map, List.length_range]
      out_len := by simp [twoGrad, twoRois, exampleData]
      out_size0 := rfl
      out_size1 := rfl
      bbox_len := by simp [twoRois]
      bbox_size1 := rfl
      height := by simp [exampleData]
      width := by simp [exampleData]
      pooled_height := by simp [twoGrad]
      pooled_width := by simp [twoGrad]
      batch_ind := by
        intro n hn
        have h2 : n < 2 := hn
        interval_cases n <;> simp [roiBatchInd, castInt, twoRois, exampleData] }
  batch_size := by
    intro n hn
    have h2 : n < 2 := hn
    interval_cases n <;> simp [roiBatchInd, castInt, twoRois, exampleData]

theorem bad_second_shaped : WellShaped sevensOut exampleData badSecondRois where
  data_len := by simp only [exampleData, List.length_map, List.length_range]
  out_len := by simp [sevensOut, badSecondRois, exampleData]
  out_size0 := rfl
  out_size1 := rfl
  bbox_len := by simp [badSecondRois]
  bbox_size1 := rfl
  height := by simp [exampleData]
  width := by simp [exampleData]
  pooled_height := by simp [sevensOut]
  pooled_width := by simp [sevensOut]

theorem bad_second_first_ok : ∀ n, n < 1 → batchIndOk exampleData badSecondRois n := by
  intro n hn
  have h0 : n = 0 := by omega
  subst h0
  simp [batchIndOk, roiBatchInd, castInt, badSecondRois, exampleData]

theorem bad_second_bad : ¬ batchIndOk exampleData badSecondRois 1 := by
  simp [batchIndOk, roiBatchInd, castInt, badSecondRois, exampleData]

/-! ## Inputs of the compiled kernels -/

/-- The feature map of `2^32` zeros with the one region in its second batch slice is a
valid input. -/
theorem huge_valid : ValidForward exampleOut hugeData hugeRois where
  data_len := by
    show (List.replicate 4294967296 (0 : ℚ)).length = 2 * (1 * (65536 * 32768))
    rw [List.length_replicate]
  out_len := by decide
  out_size0 := rfl
  out_size1 := rfl
  bbox_len := by decide
  bbox_size1 := rfl
  height := by decide
  width := by decide
  pooled_height := by decide
  pooled_width := by decide
  batch_ind := by
    intro n hn
    have hn0 : n = 0 := by
      have : n < 1 := hn
      omega
    subst hn0
    norm_num [roiBatchInd, hugeRois, castInt]
    decide

/-- On the feature map of `2^32` zeros the compiled forward kernel stops at its first
cell: the plane offset is `-2^31`. -/
theorem huge_forward_faults :
    ROIAlignForwardRelease exampleOut hugeData hugeRois 1 = .error (.access [0, 0, 0, 0]) := by
  have hcell : ∀ (data : List ℚ) (top : Int),
      fwdCell data 65536 32768 2 0 0 1 1 (-2147483648) top 0 0 [0, 0, 0, 0]
        = .error (.access [0, 0, 0, 0]) := by
    intro data top
    norm_num [fwdCell, load, sampleCoord, anchor]
  have hroi : fwdRoiRelease hugeData exampleOut hugeRois 1 0 ⟨[0, 0, 0, 0], 0, 0⟩
      = .error (.access [0, 0, 0, 0]) := by
    norm_num [fwdRoiRelease, load, castInt, exampleOut, hugeRois, forLoop,
      fwdChannel, hcell, wrapInt32, show hugeData.size1 = 1 from rfl,
      show hugeData.size2 = 65536 from rfl, show hugeData.size3 = 32768 from rfl,
      show Int.toNat 2 = 2 from rfl, show Int.toNat 3 = 3 from rfl,
      show Int.toNat 4 = 4 from rfl]
  show (match forLoop 1 (fwdRoiRelease hugeData exampleOut hugeRois 1) ⟨[0, 0, 0, 0], 0, 0⟩ with
    | .ok s => Except.ok s.out
    | .error e => .error e) = _
  simp only [forLoop, hroi]

/-- A read at or past offset `48` is outside the example map. -/
theorem exampleData_load_none (p : Int) (hp : 48 ≤ p) : load exampleData.dptr p = none := by
  unfold load
  rw [if_pos (by omega)]
  apply List.getElem?_eq_none
  simp only [exampleData, List.length_map, List.length_range]
  omega

/-- The state of the region loop after the first of the two regions. -/
theorem bad_second_first_run :
    forLoop 1 (fwdRoi exampleData sevensOut badSecondRois 1) ⟨sevensOut.dptr, 0, 0⟩
      = .ok ⟨[0, 4, 24, 28, 7, 7, 7, 7], 4, 5⟩ := by
  obtain ⟨s', h, hJ, hl, hw, hf⟩ := fwd_rois_prefix sevensOut exampleData badSecondRois 1
    bad_second_shaped 1 (by decide) bad_second_first_ok
  rw [h]
  have hin : ∀ ph pw, ph < 2 → pw < 2 →
      inBounds (sampleH badSecondRois 1 2 0 ph) (sampleW badSecondRois 1 2 0 pw)
        exampleData.size2 exampleData.size3 := by
    intro ph pw hph hpw
    interval_cases ph <;> interval_cases pw <;>
      norm_num [inBounds, sampleH, sampleW, sampleCoord, binSizeH, binSizeW, roiEndH,
        roiEndW, roiStartH, roiStartW, badSecondRois, exampleData]
  have v00 : forwardValue exampleData badSecondRois 1 2 2 0 0 0 0 = 0 := by
    rw [forwardValue_weights _ _ _ _ _ _ _ _ _ (hin 0 0 (by decide) (by decide))]
    norm_num [bilinearWeights, anchor, sampleH, sampleW, sampleCoord, binSizeH, binSizeW,
      roiEndH, roiEndW, roiStartH, roiStartW, roiBatchInd, castInt, badSecondRois,
      exampleData_get, exampleData_size2, exampleData_size3, toNat_four]
  have v01 : forwardValue exampleData badSecondRois 1 2 2 0 0 0 1 = 4 := by
    rw [forwardValue_weights _ _ _ _ _ _ _ _ _ (hin 0 1 (by decide) (by decide))]
    norm_num [bilinearWeights, anchor, sampleH, sampleW, sampleCoord, binSizeH, binSizeW,
      roiEndH, roiEndW, roiStartH, roiStartW, roiBatchInd, castInt, badSecondRois,
      exampleData_get, exampleData_size2, exampleData_size3, toNat_four]
  have v10 : forwardValue exampleData badSecondRois 1 2 2 0 0 1 0 = 24 := by
    rw [forwardValue_weights _ _ _ _ _ _ _ _ _ (hin 1 0 (by decide) (by decide))]
    norm_num [bilinearWeights, anchor, sampleH, sampleW, sampleCoord, binSizeH, binSizeW,
      roiEndH, roiEndW, roiStartH, roiStartW, roiBatchInd, castInt, badSecondRois,
      exampleData_get, exampleData_size2, exampleData_size3, toNat_four]
  have v11 : forwardValue exampleData badSecondRois 1 2 2 0 0 1 1 = 28 := by
    rw [forwardValue_weights _ _ _ _ _ _ _ _ _ (hin 1 1 (by decide) (by decide))]
    norm_num [bilinearWeights, anchor, sampleH, sampleW, sampleCoord, binSizeH, binSizeW,
      roiEndH, roiEndW, roiStartH, roiStartW, roiBatchInd, castInt, badSecondRois,
      exampleData_get, exampleData_size2, exampleData_size3, toNat_four]
  have h0 : s'.out[0]? = some (forwardValue exampleData badSecondRois 1 2 2 0 0 0 0) :=
    hw 0 0 0 0 (by decide) (by decide) (by decide) (by decide)
  have h1 : s'.out[1]? = some (forwardValue exampleData badSecondRois 1 2 2 0 0 0 1) :=
    hw 0 0 0 1 (by decide) (by decide) (by decide) (by decide)
  have h2 : s'.out[2]? = some (forwardValue exampleData badSecondRois 1 2 2 0 0 1 0) :=
    hw 0 0 1 0 (by decide) (by decide) (by decide) (by decide)
  have h3 : s'.out[3]? = some (forwardValue exampleData badSecondRois 1 2 2 0 0 1 1) :=
    hw 0 0 1 1 (by decide) (by decide) (by decide) (by decide)
  have h4 : s'.out[4]? = some 7 := hf 4 (by decide)
  have h5 : s'.out[5]? = some 7 := hf 5 (by decide)
  have h6 : s'.out[6]? = some 7 := hf 6 (by decide)
  have h7 : s'.out[7]? = some 7 := hf 7 (by decide)
  have hl : s'.out.length = 8 := hl
  rw [v00] at h0
  rw [v01] at h1
  rw [v10] at h2
  rw [v11] at h3
  obtain ⟨mem, td, br⟩ := s'
  have htd : td = 4 := hJ.1
  have hbr : br = 5 := hJ.2
  subst htd hbr
  match mem, hl, h0, h1, h2, h3, h4, h5, h6, h7 with
  | [a0, a1, a2, a3, a4, a5, a6, a7], _, h0, h1, h2, h3, h4, h5, h6, h7 =>
    simp only [List.getElem?_cons_zero, List.getElem?_cons_succ, Option.some.injEq]
      at h0 h1 h2 h3 h4 h5 h6 h7
    rw [h0, h1, h2, h3, h4, h5, h6, h7]

/-! ## Rounding -/

/-- The rounding of `q` from its exponent `e`. -/
theorem round_eval (f : Fmt) (q : ℚ) (e : Int) (h1 : (2 : ℚ) ^ e ≤ |q|)
    (h2 : |q| < (2 : ℚ) ^ (e + 1)) (hmin : 1 - f.emax ≤ e) :
    f.round q
      = if |(roundEven (q / (2 : ℚ) ^ (e - (f.prec : Int) + 1)) : ℚ)
            * (2 : ℚ) ^ (e - (f.prec : Int) + 1)| ≥ (2 : ℚ) ^ (f.emax + 1)
        then .inf (decide (q < 0))
        else .fin ((roundEven (q / (2 : ℚ) ^ (e - (f.prec : Int) + 1)) : ℚ)
            * (2 : ℚ) ^ (e - (f.prec : Int) + 1)) := by
  have hpos : 0 < |q| := lt_of_lt_of_le (zpow_pos (by norm_num) e) h1
  have hq : q ≠ 0 := abs_pos.mp hpos
  have hlog : Int.log 2 |q| = e := by
    have a1 : e ≤ Int.log 2 |q| :=
      (Int.zpow_le_iff_le_log (by norm_num) hpos).mp (by exact_mod_cast h1)
    have a2 : Int.log 2 |q| < e + 1 :=
      (Int.lt_zpow_iff_log_lt (by norm_num) hpos).mp (by exact_mod_cast h2)
    omega
  unfold Fmt.round
  rw [if_neg hq]
  simp only [hlog, max_eq_left hmin]

theorem round_zero (f : Fmt) : f.round 0 = .fin 0 := by
  unfold Fmt.round
  rw [if_pos rfl]

/-- In `float`, `2^24 + 1` rounds to `2^24`. -/
theorem r32_big (q : ℚ) (h : q = 16777217) : binary32.round q = .fin 16777216 := by
  subst h
  rw [round_eval binary32 16777217 24 (by norm_num) (by norm_num) (by norm_num [binary32])]
  norm_num [binary32, roundEven]

theorem r32_one (q : ℚ) (h : q = 1) : binary32.round q = .fin 1 := by
  subst h
  rw [round_eval binary32 1 0 (by norm_num) (by norm_num) (by norm_num [binary32])]
  norm_num [binary32, roundEven]

theorem r32_two (q : ℚ) (h : q = 2) : binary32.round q = .fin 2 := by
  subst h
  rw [round_eval binary32 2 1 (by norm_num) (by norm_num) (by norm_num [binary32])]
  norm_num [binary32, roundEven]

theorem r32_three (q : ℚ) (h : q = 3) : binary32.round q = .fin 3 := by
  subst h
  rw [round_eval binary32 3 1 (by norm_num) (by norm_num) (by norm_num [binary32])]
  norm_num [binary32, roundEven]

theorem r32_four (q : ℚ) (h : q = 4) : binary32.round q = .fin 4 := by
  subst h
  rw [round_eval binary32 4 2 (by norm_num) (by norm_num) (by norm_num [binary32])]
  norm_num [binary32, roundEven]

theorem r32_pow (q : ℚ) (h : q = 16777216) : binary32.round q = .fin 16777216 := by
  subst h
  rw [round_eval binary32 16777216 24 (by norm_num) (by norm_num) (by norm_num [binary32])]
  norm_num [binary32, roundEven]

theorem r32_sum (q : ℚ) (h : q = 16777220) : binary32.round q = .fin 16777220 := by
  subst h
  rw [round_eval binary32 16777220 24 (by norm_num) (by norm_num) (by norm_num [binary32])]
  norm_num [binary32, roundEven]

theorem r64_one (q : ℚ) (h : q = 1) : binary64.round q = .fin 1 := by
  subst h
  rw [round_eval binary64 1 0 (by norm_num) (by norm_num) (by norm_num [binary64])]
  norm_num [binary64, roundEven]

theorem r64_two (q : ℚ) (h : q = 2) : binary64.round q = .fin 2 := by
  subst h
  rw [round_eval binary64 2 1 (by norm_num) (by norm_num) (by norm_num [binary64])]
  norm_num [binary64, roundEven]

theorem r64_three (q : ℚ) (h : q = 3) : binary64.round q = .fin 3 := by
  subst h
  rw [round_eval binary64 3 1 (by norm_num) (by norm_num) (by norm_num [binary64])]
  norm_num [binary64, roundEven]

theorem r64_four (q : ℚ) (h : q = 4) : binary64.round q = .fin 4 := by
  subst h
  rw [round_eval binary64 4 2 (by norm_num) (by norm_num) (by norm_num [binary64])]
  norm_num [binary64, roundEven]

theorem r64_pow (q : ℚ) (h : q = 16777216) : binary64.round q = .fin 16777216 := by
  subst h
  rw [round_eval binary64 16777216 24 (by norm_num) (by norm_num) (by norm_num [binary64])]
  norm_num [binary64, roundEven]

theorem r64_big (q : ℚ) (h : q = 16777217) : binary64.round q = .fin 16777217 := by
  subst h
  rw [round_eval binary64 16777217 24 (by norm_num) (by norm_num) (by norm_num [binary64])]
  norm_num [binary64, roundEven]

/-! ## The floating-point kernels on the region `[0,0,0,0,0]` -/

theorem FP.add_fin (f : Fmt) (a b : ℚ) : FP.add f (.fin a) (.fin b) = f.round (a + b) := rfl

theorem FP.mul_fin (f : Fmt) (a b : ℚ) : FP.mul f (.fin a) (.fin b) = f.round (a * b) := rfl

theorem FP.cvt_fin (f : Fmt) (a : ℚ) : FP.cvt f (.fin a) = f.round a := rfl

/-- A 2 x 2 nest of loops runs its four cells in row-major order. -/
theorem forLoopFP_two_two {σ : Type} (cell : Nat → Nat → σ → Option σ) (s0 s1 s2 s3 s4 : σ)
    (h00 : cell 0 0 s0 = some s1) (h01 : cell 0 1 s1 = some s2)
    (h10 : cell 1 0 s2 = some s3) (h11 : cell 1 1 s3 = some s4) :
    forLoopFP 2 (fun ph => forLoopFP 2 (fun pw => cell ph pw)) s0 = some s4 := by
  simp only [forLoopFP, h00, h01, h10, h11]

/-- The iteration of `ROIAlignBackwardAcc` for a cell whose sample point is `(0, 0)`, on
a `2 x 2` plane: the weights are `1, 0, 0, 0`. -/
theorem bwdCellFP_origin (og : List FP) (td : Int) (ph pw : Nat) (hph : ph < 2) (hpw : pw < 2)
    (t x0 x1 x2 x3 : FP) (ht : loadFP og (td + ((ph : Int) * 2 + (pw : Int))) = some t) :
    bwdCellFP og 2 2 2 (.fin 0) (.fin 0) (.fin 0) (.fin 0) 0 td ph pw [x0, x1, x2, x3]
      = some
        [FP.cvt binary32
          (FP.add binary64 x0 (FP.mul binary64 (FP.mul binary64 t (.fin 1)) (.fin 1))),
         FP.cvt binary32
          (FP.add binary64 x1 (FP.mul binary64 (FP.mul binary64 t (.fin 1)) (.fin 0))),
         FP.cvt binary32
          (FP.add binary64 x2 (FP.mul binary64 (FP.mul binary32 t (.fin 0)) (.fin 1))),
         FP.add binary32 x3 (FP.mul binary32 (FP.mul binary32 t (.fin 0)) (.fin 0))] := by
  interval_cases ph <;> interval_cases pw <;>
    (simp only [Nat.cast_zero, Nat.cast_one, zero_mul, one_mul, zero_add, add_zero] at ht
     norm_num [bwdCellFP, addAtDouble, addAtFloat, FP.add_fin, FP.mul_fin, FP.sub, FP.neg,
        FP.lt, FP.ge, FP.floor, FP.fmin, FP.toInt, castInt, loadFP, storeFP, round_zero,
        r32_one _ rfl, r64_one _ rfl, r32_two _ rfl, show Int.toNat 1 = 1 from rfl,
        show Int.toNat 2 = 2 from rfl, show Int.toNat 3 = 3 from rfl] at ht ⊢
     simp [ht])

/-- One iteration of the region loop of `ROIAlignBackwardAcc` for a region `[0,0,0,0,0]`,
one channel, a `2 x 2` plane and pooled size `(2,2)`, from the result of its four
cells. -/
theorem bwdRoiFP_origin (in_grad og : Tensor4FP) (bbox : Tensor2FP) (n : Nat) (s : BwdStateFP)
    (hi1 : in_grad.size1 = 1) (hi2 : in_grad.size2 = 2) (hi3 : in_grad.size3 = 2)
    (ho2 : og.size2 = 2) (ho3 : og.size3 = 2)
    (h0 : loadFP bbox.dptr s.bottom_rois = some (.fin 0))
    (h1 : loadFP bbox.dptr (s.bottom_rois + 1) = some (.fin 0))
    (h2 : loadFP bbox.dptr (s.bottom_rois + 2) = some (.fin 0))
    (h3 : loadFP bbox.dptr (s.bottom_rois + 3) = some (.fin 0))
    (h4 : loadFP bbox.dptr (s.bottom_rois + 4) = some (.fin 0))
    (G : List FP)
    (hloop : forLoopFP 2 (fun ph => forLoopFP 2 (fun pw =>
      bwdCellFP og.dptr 2 2 2 (.fin 0) (.fin 0) (.fin 0) (.fin 0) 0 s.top_diff ph pw)) s.grad
      = some G) :
    bwdRoiFP in_grad og bbox (.fin 1) n s
      = some ⟨G, s.top_diff + 4, s.bottom_rois + (bbox.size1 : Int)⟩ := by
  unfold bwdRoiFP
  simp only [h0, h1, h2, h3, h4, hi1, hi2, hi3, ho2, ho3]
  norm_num [bwdChannelFP, forLoopFP, wrapInt32, FP.toInt, FP.mul_fin, FP.sub, FP.add_fin,
    FP.neg, FP.fmax, FP.div, FP.lt, castInt, round_zero, r32_one _ rfl, hi2, hi3, ho2, ho3]
  simp only [forLoopFP] at hloop
  simp [hloop]

/-- A call of `ROIAlignBackwardAcc` with one region. -/
theorem backwardFP_one (in_grad og : Tensor4FP) (bbox : Tensor2FP) (scale : FP)
    (hN : bbox.size0 = 1) (s1 : BwdStateFP)
    (h0 : bwdRoiFP in_grad og bbox scale 0 ⟨in_grad.dptr, 0, 0⟩ = some s1) :
    ROIAlignBackwardAccFP in_grad og bbox scale = some s1.grad := by
  unfold ROIAlignBackwardAccFP
  simp only [hN, forLoopFP, h0]

/-- A call of `ROIAlignBackwardAcc` with two regions. -/
theorem backwardFP_two (in_grad og : Tensor4FP) (bbox : Tensor2FP) (scale : FP)
    (hN : bbox.size0 = 2) (s1 s2 : BwdStateFP)
    (h0 : bwdRoiFP in_grad og bbox scale 0 ⟨in_grad.dptr, 0, 0⟩ = some s1)
    (h1 : bwdRoiFP in_grad og bbox scale 1 s1 = some s2) :
    ROIAlignBackwardAccFP in_grad og bbox scale = some s2.grad := by
  unfold ROIAlignBackwardAccFP
  simp only [hN, forLoopFP, h0, h1]

/-- The four cells of a region `[0,0,0,0,0]` whose output gradients are `1`, on a
gradient plane that holds `2^24` at `(0,0)`: every `+= 1` is absorbed. -/
theorem cells_absorb (og : List FP) (td : Int)
    (ht : ∀ ph pw : Nat, ph < 2 → pw < 2 →
      loadFP og (td + ((ph : Int) * 2 + (pw : Int))) = some (.fin 1)) :
    forLoopFP 2 (fun ph => forLoopFP 2 (fun pw =>
      bwdCellFP og 2 2 2 (.fin 0) (.fin 0) (.fin 0) (.fin 0) 0 td ph pw))
      [.fin 16777216, .fin 0, .fin 0, .fin 0]
      = some [.fin 16777216, .fin 0, .fin 0, .fin 0] := by
  have e : (16777216 : ℚ) + 1 = 16777217 := by norm_num
  have hc : ∀ ph pw : Nat, ph < 2 → pw < 2 →
      bwdCellFP og 2 2 2 (.fin 0) (.fin 0) (.fin 0) (.fin 0) 0 td ph pw
        [.fin 16777216, .fin 0, .fin 0, .fin 0]
      = some [.fin 16777216, .fin 0, .fin 0, .fin 0] := by
    intro ph pw hph hpw
    rw [bwdCellFP_origin og td ph pw hph hpw (.fin 1) _ _ _ _ (ht ph pw hph hpw)]
    simp only [FP.mul_fin, FP.add_fin, FP.cvt_fin, mul_one, mul_zero, add_zero, round_zero, e,
      r64_one _ rfl, r64_big _ rfl, r32_big _ rfl]
  exact forLoopFP_two_two _ _ _ _ _ _ (hc 0 0 (by decide) (by decide))
    (hc 0 1 (by decide) (by decide)) (hc 1 0 (by decide) (by decide))
    (hc 1 1 (by decide) (by decide))

/-- The four cells of a region `[0,0,0,0,0]` whose output gradients are `1`, on a zeroed
gradient plane: `(0,0)` receives `1 + 1 + 1 + 1`. -/
theorem cells_count (og : List FP) (td : Int)
    (ht : ∀ ph pw : Nat, ph < 2 → pw < 2 →
      loadFP og (td + ((ph : Int) * 2 + (pw : Int))) = some (.fin 1)) :
    forLoopFP 2 (fun ph => forLoopFP 2 (fun pw =>
      bwdCellFP og 2 2 2 (.fin 0) (.fin 0) (.fin 0) (.fin 0) 0 td ph pw))
      [.fin 0, .fin 0, .fin 0, .fin 0]
      = some [.fin 4, .fin 0, .fin 0, .fin 0] := by
  have e1 : (0 : ℚ) + 1 = 1 := by norm_num
  have e2 : (1 : ℚ) + 1 = 2 := by norm_num
  have e3 : (2 : ℚ) + 1 = 3 := by norm_num
  have e4 : (3 : ℚ) + 1 = 4 := by norm_num
  have hc : ∀ (ph pw : Nat) (a b : ℚ), ph < 2 → pw < 2 → a + 1 = b →
      binary64.round b = .fin b → binary32.round b = .fin b →
      bwdCellFP og 2 2 2 (.fin 0) (.fin 0) (.fin 0) (.fin 0) 0 td ph pw
        [.fin a, .fin 0, .fin 0, .fin 0]
      = some [.fin b, .fin 0, .fin 0, .fin 0] := by
    intro ph pw a b hph hpw hab h64 h32
    rw [bwdCellFP_origin og td ph pw hph hpw (.fin 1) _ _ _ _ (ht ph pw hph hpw)]
    simp only [FP.mul_fin, FP.add_fin, FP.cvt_fin, mul_one, mul_zero, add_zero, round_zero, hab,
      r64_one _ rfl, h64, h32]
  exact forLoopFP_two_two _ _ _ _ _ _
    (hc 0 0 0 1 (by decide) (by decide) e1 (r64_one _ rfl) (r32_one _ rfl))
    (hc 0 1 1 2 (by decide) (by decide) e2 (r64_two _ rfl) (r32_two _ rfl))
    (hc 1 0 2 3 (by decide) (by decide) e3 (r64_three _ rfl) (r32_three _ rfl))
    (hc 1 1 3 4 (by decide) (by decide) e4 (r64_four _ rfl) (r32_four _ rfl))

/-- The four cells of a region `[0,0,0,0,0]` whose output gradients are `2^24, 0, 0, 0`,
on a zeroed gradient plane. -/
theorem cells_big (og : List FP) (td : Int)
    (h00 : loadFP og (td + (((0 : Nat) : Int) * 2 + ((0 : Nat) : Int))) = some (.fin 16777216))
    (h01 : loadFP og (td + (((0 : Nat) : Int) * 2 + ((1 : Nat) : Int))) = some (.fin 0))
    (h10 : loadFP og (td + (((1 : Nat) : Int) * 2 + ((0 : Nat) : Int))) = some (.fin 0))
    (h11 : loadFP og (td + (((1 : Nat) : Int) * 2 + ((1 : Nat) : Int))) = some (.fin 0)) :
    forLoopFP 2 (fun ph => forLoopFP 2 (fun pw =>
      bwdCellFP og 2 2 2 (.fin 0) (.fin 0) (.fin 0) (.fin 0) 0 td ph pw))
      [.fin 0, .fin 0, .fin 0, .fin 0]
      = some [.fin 16777216, .fin 0, .fin 0, .fin 0] := by
  have c00 : bwdCellFP og 2 2 2 (.fin 0) (.fin 0) (.fin 0) (.fin 0) 0 td 0 0
      [.fin 0, .fin 0, .fin 0, .fin 0] = some [.fin 16777216, .fin 0, .fin 0, .fin 0] := by
    rw [bwdCellFP_origin og td 0 0 (by decide) (by decide) (.fin 16777216) _ _ _ _ h00]
    simp only [FP.mul_fin, FP.add_fin, FP.cvt_fin, mul_one, mul_zero, add_zero, zero_add,
      round_zero, r64_pow _ rfl, r32_pow _ rfl]
  have hc : ∀ ph pw : Nat, ph < 2 → pw < 2 →
      loadFP og (td + ((ph : Int) * 2 + (pw : Int))) = some (.fin 0) →
      bwdCellFP og 2 2 2 (.fin 0) (.fin 0) (.fin 0) (.fin 0) 0 td ph pw
        [.fin 16777216, .fin 0, .fin 0, .fin 0]
      = some [.fin 16777216, .fin 0, .fin 0, .fin 0] := by
    intro ph pw hph hpw ht
    rw [bwdCellFP_origin og td ph pw hph hpw (.fin 0) _ _ _ _ ht]
    simp only [FP.mul_fin, FP.add_fin, FP.cvt_fin, mul_one, mul_zero, add_zero, zero_add,
      round_zero, r64_pow _ rfl, r32_pow _ rfl]
  exact forLoopFP_two_two _ _ _ _ _ _ c00 (hc 0 1 (by decide) (by decide) h01)
    (hc 1 0 (by decide) (by decide) h10) (hc 1 1 (by decide) (by decide) h11)

/-- The region `[0,0,0,0,0]` with output gradients `1` on the buffer that holds `2^24`. -/
theorem big_backward :
    ROIAlignBackwardAccFP bigGradFP onesOutGradFP originRoisFP (.fin 1)
      = some [.fin 16777216, .fin 0, .fin 0, .fin 0] :=
  backwardFP_one bigGradFP onesOutGradFP originRoisFP (.fin 1) rfl _
    (bwdRoiFP_origin bigGradFP onesOutGradFP originRoisFP 0 ⟨bigGradFP.dptr, 0, 0⟩
      rfl rfl rfl rfl rfl rfl rfl rfl rfl rfl _
      (cells_absorb onesOutGradFP.dptr 0 (by
        intro ph pw hph hpw
        interval_cases ph <;> interval_cases pw <;> rfl)))

/-- The region `[0,0,0,0,0]` with output gradients `1` on the zeroed buffer. -/
theorem zero_backward :
    ROIAlignBackwardAccFP zeroGradFP onesOutGradFP originRoisFP (.fin 1)
      = some [.fin 4, .fin 0, .fin 0, .fin 0] :=
  backwardFP_one zeroGradFP onesOutGradFP originRoisFP (.fin 1) rfl _
    (bwdRoiFP_origin zeroGradFP onesOutGradFP originRoisFP 0 ⟨zeroGradFP.dptr, 0, 0⟩
      rfl rfl rfl rfl rfl rfl rfl rfl rfl rfl _
      (cells_count onesOutGradFP.dptr 0 (by
        intro ph pw hph hpw
        interval_cases ph <;> interval_cases pw <;> rfl)))

/-- The region `[0,0,0,0,0]` with output gradients `2^24, 0, 0, 0` on the zeroed buffer. -/
theorem big_only_backward :
    ROIAlignBackwardAccFP zeroGradFP bigOnlyOutGradFP originRoisFP (.fin 1)
      = some [.fin 16777216, .fin 0, .fin 0, .fin 0] :=
  backwardFP_one zeroGradFP bigOnlyOutGradFP originRoisFP (.fin 1) rfl _
    (bwdRoiFP_origin zeroGradFP bigOnlyOutGradFP originRoisFP 0 ⟨zeroGradFP.dptr, 0, 0⟩
      rfl rfl rfl rfl rfl rfl rfl rfl rfl rfl _
      (cells_big bigOnlyOutGradFP.dptr 0 rfl rfl rfl rfl))

/-- The two regions `[0,0,0,0,0]` in one call on the zeroed buffer. -/
theorem two_regions_backward :
    ROIAlignBackwardAccFP zeroGradFP bigFirstOutGradFP twoOriginRoisFP (.fin 1)
      = some [.fin 16777216, .fin 0, .fin 0, .fin 0] :=
  backwardFP_two zeroGradFP bigFirstOutGradFP twoOriginRoisFP (.fin 1) rfl _ _
    (bwdRoiFP_origin zeroGradFP bigFirstOutGradFP twoOriginRoisFP 0 ⟨zeroGradFP.dptr, 0, 0⟩
      rfl rfl rfl rfl rfl rfl rfl rfl rfl rfl _
      (cells_big bigFirstOutGradFP.dptr 0 rfl rfl rfl rfl))
    (bwdRoiFP_origin zeroGradFP bigFirstOutGradFP twoOriginRoisFP 1
      ⟨[.fin 16777216, .fin 0, .fin 0, .fin 0], 0 + 4, 0 + ((5 : Nat) : Int)⟩
      rfl rfl rfl rfl rfl
      (by norm_num [loadFP, twoOriginRoisFP, show Int.toNat 5 = 5 from rfl])
      (by norm_num [loadFP, twoOriginRoisFP, show Int.toNat 6 = 6 from rfl])
      (by norm_num [loadFP, twoOriginRoisFP, show Int.toNat 7 = 7 from rfl])
      (by norm_num [loadFP, twoOriginRoisFP, show Int.toNat 8 = 8 from rfl])
      (by norm_num [loadFP, twoOriginRoisFP, show Int.toNat 9 = 9 from rfl]) _
      (cells_absorb bigFirstOutGradFP.dptr (0 + 4) (by
        intro ph pw hph hpw
        interval_cases ph <;> interval_cases pw <;>
          norm_num [loadFP, bigFirstOutGradFP, show Int.toNat 4 = 4 from rfl,
            show Int.toNat 5 = 5 from rfl, show Int.toNat 6 = 6 from rfl,
            show Int.toNat 7 = 7 from rfl])))

/-- C1: on every valid input (batch indices in range, `H, W >= 2`, `PH, PW >= 2`) the
pointer walk of `ROIAlignForward` over the flat buffers returns, and the
element it leaves at the output position `(n, c, ph, pw)` is the value of the
specification: `0` when the sample point is outside `[0,H) x [0,W)`, and the
bilinear combination of the four neighbours in the slice of the region's
batch index otherwise. -/
theorem forward_writes_spec_value (out data : Tensor4) (bbox : Tensor2) (scale : ℚ)
    (hv : ValidForward out data bbox) :
    ∃ out', ROIAlignForward out data bbox scale = .ok out' ∧
      out'.length = out.dptr.length ∧
      ∀ n c ph pw, n < bbox.size0 → c < data.size1 → ph < out.size2 → pw < out.size3 →
        out'[((n * data.size1 + c) * out.size2 + ph) * out.size3 + pw]?
          = some (specForward data bbox scale out.size2 out.size3 n c ph pw) := by
  obtain ⟨out', h, hl, hw⟩ := forward_flat out data bbox scale hv
  refine ⟨out', h, hl, ?_⟩
  intro n c ph pw hn hc hph hpw
  have := hw n c ph pw hn hc hph hpw
  rw [forwardValue_eq_spec out data bbox scale hv] at this
  exact this

/-- C1 at the example of the operator description, with the scale `7/10`. -/
theorem forward_writes_spec_value_witness :
    ValidForward exampleOut exampleData exampleRois ∧
    ∃ out', ROIAlignForward exampleOut exampleData exampleRois (7 / 10) = .ok out' ∧
      out'.length = exampleOut.dptr.length ∧
      ∀ n c ph pw, n < exampleRois.size0 → c < exampleData.size1 → ph < exampleOut.size2 →
        pw < exampleOut.size3 →
        out'[((n * exampleData.size1 + c) * exampleOut.size2 + ph) * exampleOut.size3 + pw]?
          = some (specForward exampleData exampleRois (7 / 10) exampleOut.size2
              exampleOut.size3 n c ph pw) :=
  ⟨example_valid,
    forward_writes_spec_value exampleOut exampleData exampleRois (7 / 10) example_valid⟩

/-- C2: backward is the exact adjoint of forward.  On every valid input, for every
feature map `X` and every output-side gradient `G`, the sum over the output
positions of `G * ROIAlignForward(X)` equals the sum over the feature-map
positions of `ROIAlignBackwardAcc(G)`, run on a zeroed buffer, times `X`. -/
theorem backward_adjoint_of_forward (bs : Int) (out X : Tensor4) (bbox : Tensor2)
    (scale : ℚ) (G : List ℚ) (hf : ValidForward out X bbox)
    (hG : G.length = out.dptr.length)
    (hbs : ∀ n, n < bbox.size0 → roiBatchInd bbox n < bs) :
    ∃ Y B, ROIAlignForward out X bbox scale = .ok Y ∧
      ROIAlignBackwardAcc bs (zeroGrad X) (withData out G) bbox scale = .ok B ∧
      ∑ i in Finset.range G.length, G.getD i 0 * Y.getD i 0
        = ∑ j in Finset.range X.dptr.length, B.getD j 0 * X.dptr.getD j 0 := by
  obtain ⟨Y, hY, -, hYv⟩ := forward_flat out X bbox scale hf
  have hvb := validBackward_of_forward bs out X bbox (List.replicate X.dptr.length 0) G hf
    (by simp) hG hbs
  obtain ⟨B, hB, -, hBv⟩ := backward_flat bs _ _ bbox scale hvb
  refine ⟨Y, B, hY, hB, ?_⟩
  have hB' : ∀ j, B.getD j 0
      = backwardSum (withData X (List.replicate X.dptr.length 0)) (withData out G) bbox scale j := by
    intro j
    rw [hBv j]
    show (List.replicate X.dptr.length (0 : ℚ)).getD j 0 + _ = _
    rw [getD_replicate_zero, zero_add]
  simp only [hB']
  rw [backwardSum_dot out X bbox scale _ G hf, hG, hf.out_len, sum_flat4]
  refine Finset.sum_congr rfl (fun n hn => ?_)
  refine Finset.sum_congr rfl (fun c hc => ?_)
  refine Finset.sum_congr rfl (fun ph hph => ?_)
  refine Finset.sum_congr rfl (fun pw hpw => ?_)
  rw [getD_of_getElem? Y _ _ (hYv n c ph pw (Finset.mem_range.mp hn) (Finset.mem_range.mp hc)
    (Finset.mem_range.mp hph) (Finset.mem_range.mp hpw))]

/-- C2 at the example of the operator description, with the scale `7/10` and the
output gradient `[[1,2],[3,4]]`. -/
theorem backward_adjoint_of_forward_witness :
    ∃ Y B, ROIAlignForward exampleOut exampleData exampleRois (7 / 10) = .ok Y ∧
      ROIAlignBackwardAcc (exampleData.size0 : Int) (zeroGrad exampleData)
        (withData exampleOut [1, 2, 3, 4]) exampleRois (7 / 10) = .ok B ∧
      ∑ i in Finset.range [(1 : ℚ), 2, 3, 4].length, [(1 : ℚ), 2, 3, 4].getD i 0 * Y.getD i 0
        = ∑ j in Finset.range exampleData.dptr.length,
            B.getD j 0 * exampleData.dptr.getD j 0 :=
  backward_adjoint_of_forward (exampleData.size0 : Int) exampleOut exampleData exampleRois
    (7 / 10) [1, 2, 3, 4] example_valid rfl (fun n hn => (example_valid.batch_ind n hn).2)

/-- C3: the operator description states that the `1x1x8x6` map holding `0..47`, the
region `[0,0,0,4,4]`, pooled size `(2,2)` and scale `1.0` give `[[14,16],[26,28]]`.
At this input `ROIAlignForward` returns `[[0,4],[24,28]]`, the values of the map at
the four grid points `(0,0)`, `(0,4)`, `(4,0)`, `(4,4)`, and so not the documented
output. -/
theorem forward_example_scale_one :
    ROIAlignForward exampleOut exampleData exampleRois 1 = .ok [0, 4, 24, 28]
    ∧ ROIAlignForward exampleOut exampleData exampleRois 1 ≠ .ok [14, 16, 26, 28] := by
  have key : ROIAlignForward exampleOut exampleData exampleRois 1 = .ok [0, 4, 24, 28] := by
    rw [forward_example exampleRois 1 rfl example_valid]
    have h00 : specForward exampleData exampleRois 1 2 2 0 0 0 0 = 0 := by
      norm_num [specForward, exampleRois, castInt, exampleData_get, exampleData_size2,
        exampleData_size3, toNat_four, toNat_two]
    have h01 : specForward exampleData exampleRois 1 2 2 0 0 0 1 = 4 := by
      norm_num [specForward, exampleRois, castInt, exampleData_get, exampleData_size2,
        exampleData_size3, toNat_four, toNat_two]
    have h10 : specForward exampleData exampleRois 1 2 2 0 0 1 0 = 24 := by
      norm_num [specForward, exampleRois, castInt, exampleData_get, exampleData_size2,
        exampleData_size3, toNat_four, toNat_two]
    have h11 : specForward exampleData exampleRois 1 2 2 0 0 1 1 = 28 := by
      norm_num [specForward, exampleRois, castInt, exampleData_get, exampleData_size2,
        exampleData_size3, toNat_four, toNat_two]
    rw [h00, h01, h10, h11]
  refine ⟨key, ?_⟩
  rw [key]
  intro h
  injection h with h
  have h0 := (List.cons.inj h).1
  norm_num at h0

/-- C4: the operator description states that the same map and region with scale `0.7`
give `[[7,9],[19,21]]`.  At this input, with the scale `7/10`, the scaled corners are
`(0,0)-(2.8,2.8)` and `ROIAlignForward` returns `[[0, 14/5], [84/5, 98/5]]`, the
bilinear samples at `y, x` in `{0, 2.8}`, and so not the documented output. -/
theorem forward_example_scale_seven_tenths :
    ROIAlignForward exampleOut exampleData exampleRois (7 / 10)
      = .ok [0, 14 / 5, 84 / 5, 98 / 5]
    ∧ ROIAlignForward exampleOut exampleData exampleRois (7 / 10) ≠ .ok [7, 9, 19, 21] := by
  have key : ROIAlignForward exampleOut exampleData exampleRois (7 / 10)
      = .ok [0, 14 / 5, 84 / 5, 98 / 5] := by
    rw [forward_example exampleRois (7 / 10) rfl example_valid]
    have h00 : specForward exampleData exampleRois (7 / 10) 2 2 0 0 0 0 = 0 := by
      norm_num [specForward, exampleRois, castInt, exampleData_get, exampleData_size2,
        exampleData_size3, toNat_four, toNat_two]
    have h01 : specForward exampleData exampleRois (7 / 10) 2 2 0 0 0 1 = 14 / 5 := by
      norm_num [specForward, exampleRois, castInt, exampleData_get, exampleData_size2,
        exampleData_size3, toNat_four, toNat_two]
    have h10 : specForward exampleData exampleRois (7 / 10) 2 2 0 0 1 0 = 84 / 5 := by
      norm_num [specForward, exampleRois, castInt, exampleData_get, exampleData_size2,
        exampleData_size3, toNat_four, toNat_two]
    have h11 : specForward exampleData exampleRois (7 / 10) 2 2 0 0 1 1 = 98 / 5 := by
      norm_num [specForward, exampleRois, castInt, exampleData_get, exampleData_size2,
        exampleData_size3, toNat_four, toNat_two]
    rw [h00, h01, h10, h11]
  refine ⟨key, ?_⟩
  rw [key]
  intro h
  injection h with h
  have h0 := (List.cons.inj h).1
  norm_num at h0

/-- C5 as stated fails: the region `[0,0,0,0,7.5]` has `x2 >= x1` and `y2 >= y1`, its
cell `(1,0)` has the sample point `(7.5, 0)` inside `[0,8) x [0,6)`, and the
coefficient `(1-dy)(1-dx)` of that cell is `-1/2`. -/
theorem last_band_weight_negative :
    roiStartW lastBandRois 1 0 ≤ roiEndW lastBandRois 1 0 ∧
    roiStartH lastBandRois 1 0 ≤ roiEndH lastBandRois 1 0 ∧
    inBounds (sampleH lastBandRois 1 2 0 1) (sampleW lastBandRois 1 2 0 0) 8 6 ∧
    (bilinearWeights (sampleH lastBandRois 1 2 0 1) (sampleW lastBandRois 1 2 0 0) 8 6).1
      = -1 / 2 ∧
    ROIAlignForward exampleOut exampleData lastBandRois 1 = .ok [0, 0, 45, 45] ∧
    exampleData.get 0 0 6 0 = 36 ∧ exampleData.get 0 0 6 1 = 37 ∧
    exampleData.get 0 0 7 0 = 42 ∧ exampleData.get 0 0 7 1 = 43 := by
  have hH : sampleH lastBandRois 1 2 0 1 = 15 / 2 := by
    norm_num [sampleH, sampleCoord, binSizeH, roiEndH, roiStartH, lastBandRois]
  have hW : sampleW lastBandRois 1 2 0 0 = 0 := by
    norm_num [sampleW, sampleCoord, binSizeW, roiEndW, roiStartW, lastBandRois]
  rw [hH, hW]
  refine ⟨?_, ?_, ?_, ?_, ?_, ?_, ?_, ?_, ?_⟩
  · norm_num [roiStartW, roiEndW, lastBandRois]
  · norm_num [roiStartH, roiEndH, lastBandRois]
  · norm_num [inBounds]
  · norm_num [bilinearWeights, anchor]
  · rw [forward_example lastBandRois 1 rfl (example_valid_of lastBandRois 0 0 0 (15 / 2) rfl)]
    have h00 : specForward exampleData lastBandRois 1 2 2 0 0 0 0 = 0 := by
      norm_num [specForward, lastBandRois, castInt, exampleData_get, exampleData_size2,
        exampleData_size3, toNat_six]
    have h01 : specForward exampleData lastBandRois 1 2 2 0 0 0 1 = 0 := by
      norm_num [specForward, lastBandRois, castInt, exampleData_get, exampleData_size2,
        exampleData_size3, toNat_six]
    have h10 : specForward exampleData lastBandRois 1 2 2 0 0 1 0 = 45 := by
      norm_num [specForward, lastBandRois, castInt, exampleData_get, exampleData_size2,
        exampleData_size3, toNat_six]
    have h11 : specForward exampleData lastBandRois 1 2 2 0 0 1 1 = 45 := by
      norm_num [specForward, lastBandRois, castInt, exampleData_get, exampleData_size2,
        exampleData_size3, toNat_six]
    rw [h00, h01, h10, h11]
  · norm_num [exampleData_get]
  · norm_num [exampleData_get]
  · norm_num [exampleData_get]
  · norm_num [exampleData_get]

/-- C5 (amended): for every valid input and every output cell whose sample point lies
in `[0,H) x [0,W)`, the value `ROIAlignForward` writes is the combination of the
four neighbour values with the coefficients `(1-dy)(1-dx)`, `(1-dy)dx`,
`dy(1-dx)`, `dy*dx`; these sum to 1, and each lies in `[0,1]` when moreover
`y_ <= H-1` and `x_ <= W-1`. -/
theorem forward_weights_sum_one (out X : Tensor4) (bbox : Tensor2) (scale : ℚ)
    (hv : ValidForward out X bbox) (n c ph pw : Nat) (hn : n < bbox.size0)
    (hc : c < X.size1) (hph : ph < out.size2) (hpw : pw < out.size3)
    (hin : inBounds (sampleH bbox scale out.size2 n ph) (sampleW bbox scale out.size3 n pw)
      X.size2 X.size3) :
    ∃ out' w, ROIAlignForward out X bbox scale = .ok out' ∧
      w = bilinearWeights (sampleH bbox scale out.size2 n ph)
        (sampleW bbox scale out.size3 n pw) X.size2 X.size3 ∧
      out'[flat4 X.size1 out.size2 out.size3 n c ph pw]?
        = some (w.1 * X.get (roiBatchInd bbox n).toNat c
              (anchor (sampleH bbox scale out.size2 n ph) X.size2).toNat
              (anchor (sampleW bbox scale out.size3 n pw) X.size3).toNat
          + w.2.1 * X.get (roiBatchInd bbox n).toNat c
              (anchor (sampleH bbox scale out.size2 n ph) X.size2).toNat
              ((anchor (sampleW bbox scale out.size3 n pw) X.size3).toNat + 1)
          + w.2.2.1 * X.get (roiBatchInd bbox n).toNat c
              ((anchor (sampleH bbox scale out.size2 n ph) X.size2).toNat + 1)
              (anchor (sampleW bbox scale out.size3 n pw) X.size3).toNat
          + w.2.2.2 * X.get (roiBatchInd bbox n).toNat c
              ((anchor (sampleH bbox scale out.size2 n ph) X.size2).toNat + 1)
              ((anchor (sampleW bbox scale out.size3 n pw) X.size3).toNat + 1)) ∧
      w.1 + w.2.1 + w.2.2.1 + w.2.2.2 = 1 ∧
      (sampleH bbox scale out.size2 n ph ≤ (X.size2 : ℚ) - 1 →
        sampleW bbox scale out.size3 n pw ≤ (X.size3 : ℚ) - 1 →
        (0 ≤ w.1 ∧ w.1 ≤ 1) ∧ (0 ≤ w.2.1 ∧ w.2.1 ≤ 1) ∧
        (0 ≤ w.2.2.1 ∧ w.2.2.1 ≤ 1) ∧ (0 ≤ w.2.2.2 ∧ w.2.2.2 ≤ 1)) := by
  obtain ⟨out', h, -, hw⟩ := forward_flat out X bbox scale hv
  refine ⟨out', _, h, rfl, ?_, ?_, ?_⟩
  · rw [hw n c ph pw hn hc hph hpw, forwardValue_weights X bbox scale _ _ n c ph pw hin]
  · unfold bilinearWeights
    ring
  · intro hy hx
    obtain ⟨hy0, hy1⟩ := ratio_bounds _ X.size2 hy
    obtain ⟨hx0, hx1⟩ := ratio_bounds _ X.size3 hx
    unfold bilinearWeights
    exact ⟨weight_bounds _ _ (by linarith) (by linarith) (by linarith) (by linarith),
      weight_bounds _ _ (by linarith) (by linarith) hx0 hx1,
      weight_bounds _ _ hy0 hy1 (by linarith) (by linarith),
      weight_bounds _ _ hy0 hy1 hx0 hx1⟩

/-- C5 (amended) at the cell `(1,1)` of the example with the scale `7/10`, whose
sample point is `(2.8, 2.8)`. -/
theorem forward_weights_sum_one_witness :
    inBounds (sampleH exampleRois (7 / 10) exampleOut.size2 0 1)
      (sampleW exampleRois (7 / 10) exampleOut.size3 0 1) exampleData.size2 exampleData.size3 ∧
    ∃ out' w, ROIAlignForward exampleOut exampleData exampleRois (7 / 10) = .ok out' ∧
      w = bilinearWeights (sampleH exampleRois (7 / 10) exampleOut.size2 0 1)
        (sampleW exampleRois (7 / 10) exampleOut.size3 0 1) exampleData.size2
        exampleData.size3 ∧
      out'[flat4 exampleData.size1 exampleOut.size2 exampleOut.size3 0 0 1 1]?
        = some (w.1 * exampleData.get (roiBatchInd exampleRois 0).toNat 0
              (anchor (sampleH exampleRois (7 / 10) exampleOut.size2 0 1)
                exampleData.size2).toNat
              (anchor (sampleW exampleRois (7 / 10) exampleOut.size3 0 1)
                exampleData.size3).toNat
          + w.2.1 * exampleData.get (roiBatchInd exampleRois 0).toNat 0
              (anchor (sampleH exampleRois (7 / 10) exampleOut.size2 0 1)
                exampleData.size2).toNat
              ((anchor (sampleW exampleRois (7 / 10) exampleOut.size3 0 1)
                exampleData.size3).toNat + 1)
          + w.2.2.1 * exampleData.get (roiBatchInd exampleRois 0).toNat 0
              ((anchor (sampleH exampleRois (7 / 10) exampleOut.size2 0 1)
                exampleData.size2).toNat + 1)
              (anchor (sampleW exampleRois (7 / 10) exampleOut.size3 0 1)
                exampleData.size3).toNat
          + w.2.2.2 * exampleData.get (roiBatchInd exampleRois 0).toNat 0
              ((anchor (sampleH exampleRois (7 / 10) exampleOut.size2 0 1)
                exampleData.size2).toNat + 1)
              ((anchor (sampleW exampleRois (7 / 10) exampleOut.size3 0 1)
                exampleData.size3).toNat + 1)) ∧
      w.1 + w.2.1 + w.2.2.1 + w.2.2.2 = 1 ∧
      (sampleH exampleRois (7 / 10) exampleOut.size2 0 1 ≤ (exampleData.size2 : ℚ) - 1 →
        sampleW exampleRois (7 / 10) exampleOut.size3 0 1 ≤ (exampleData.size3 : ℚ) - 1 →
        (0 ≤ w.1 ∧ w.1 ≤ 1) ∧ (0 ≤ w.2.1 ∧ w.2.1 ≤ 1) ∧
        (0 ≤ w.2.2.1 ∧ w.2.2.1 ≤ 1) ∧ (0 ≤ w.2.2.2 ∧ w.2.2.2 ≤ 1)) :=
  have hin : inBounds (sampleH exampleRois (7 / 10) exampleOut.size2 0 1)
      (sampleW exampleRois (7 / 10) exampleOut.size3 0 1) exampleData.size2
      exampleData.size3 := by
    norm_num [inBounds, sampleH, sampleW, sampleCoord, binSizeH, binSizeW, roiEndH, roiEndW,
      roiStartH, roiStartW, exampleRois, exampleOut, exampleData]
  ⟨hin, forward_weights_sum_one exampleOut exampleData exampleRois (7 / 10) example_valid
    0 0 1 1 (by decide) (by decide) (by decide) (by decide) hin⟩

/-- C7 as stated fails in the arithmetic of the kernel.  With `Dtype = float`, the
`1x1x2x2` buffer `B = [2^24, 0, 0, 0]`, the region `[0,0,0,0,0]`, pooled size `(2,2)`
and the output gradients `1`, each of the four `+= 1` of line 170 rounds back to
`2^24`: the call leaves `2^24` at `(0,0)`, where `B` plus the result `4` of the same
call on a zeroed buffer is `2^24 + 4`. -/
theorem backward_not_additive_in_float :
    bigGradFP.dptr = [.fin 16777216, .fin 0, .fin 0, .fin 0] ∧
    ROIAlignBackwardAccFP bigGradFP onesOutGradFP originRoisFP (.fin 1)
      = some [.fin 16777216, .fin 0, .fin 0, .fin 0] ∧
    ROIAlignBackwardAccFP zeroGradFP onesOutGradFP originRoisFP (.fin 1)
      = some [.fin 4, .fin 0, .fin 0, .fin 0] ∧
    FP.add binary32 (.fin 16777216) (.fin 4) = .fin 16777220 ∧
    FP.fin 16777220 ≠ FP.fin 16777216 := by
  refine ⟨rfl, big_backward, zero_backward, ?_, ?_⟩
  · rw [FP.add_fin]
    exact r32_sum _ (by norm_num)
  · intro h
    injection h with h
    norm_num at h

/-- C7 (amended): in exact arithmetic, `ROIAlignBackwardAcc` is additive in its gradient
buffer.  For every valid
input and every initial content of the buffer, the buffer after the call is, at
every position, the initial content plus the result of the same call on a
zeroed buffer; a position for which every output cell contributes `0` keeps its
initial value. -/
theorem backward_additive (bs : Int) (in_grad out_grad : Tensor4) (bbox : Tensor2)
    (scale : ℚ) (hv : ValidBackward bs in_grad out_grad bbox) :
    ∃ g' z, ROIAlignBackwardAcc bs in_grad out_grad bbox scale = .ok g' ∧
      ROIAlignBackwardAcc bs (zeroGrad in_grad) out_grad bbox scale = .ok z ∧
      g'.length = in_grad.dptr.length ∧ z.length = in_grad.dptr.length ∧
      (∀ j, g'.getD j 0 = in_grad.dptr.getD j 0 + z.getD j 0) ∧
      (∀ j, (∀ n c ph pw, n < bbox.size0 → c < in_grad.size1 → ph < out_grad.size2 →
          pw < out_grad.size3 → backwardTerm in_grad out_grad bbox scale n c ph pw j = 0) →
        g'.getD j 0 = in_grad.dptr.getD j 0) := by
  obtain ⟨g', hg, hgl, hgv⟩ := backward_flat bs in_grad out_grad bbox scale hv
  obtain ⟨z, hz, hzl, hzv⟩ := backward_zero bs in_grad out_grad bbox scale hv
  refine ⟨g', z, hg, hz, hgl, hzl, ?_, ?_⟩
  · intro j
    rw [hgv j, hzv j]
  · intro j hj
    rw [hgv j]
    have h0 : backwardSum in_grad out_grad bbox scale j = 0 := by
      unfold backwardSum regionSum
      refine Finset.sum_eq_zero (fun n hn => ?_)
      refine Finset.sum_eq_zero (fun c hc => ?_)
      refine Finset.sum_eq_zero (fun ph hph => ?_)
      refine Finset.sum_eq_zero (fun pw hpw => ?_)
      exact hj n c ph pw (Finset.mem_range.mp hn) (Finset.mem_range.mp hc)
        (Finset.mem_range.mp hph) (Finset.mem_range.mp hpw)
    rw [h0, add_zero]

/-- C7 (amended) at the example of the operator description, on a gradient buffer filled with
the constant `3`. -/
theorem backward_additive_witness :
    ∃ g' z, ROIAlignBackwardAcc (exampleData.size0 : Int)
        (withData exampleData (List.replicate 48 3)) (withData exampleOut [1, 2, 3, 4])
        exampleRois (7 / 10) = .ok g' ∧
      ROIAlignBackwardAcc (exampleData.size0 : Int)
        (zeroGrad (withData exampleData (List.replicate 48 3)))
        (withData exampleOut [1, 2, 3, 4]) exampleRois (7 / 10) = .ok z ∧
      g'.length = 48 ∧ z.length = 48 ∧
      (∀ j, g'.getD j 0 = (List.replicate 48 (3 : ℚ)).getD j 0 + z.getD j 0) :=
  have hv : ValidBackward (exampleData.size0 : Int)
      (withData exampleData (List.replicate 48 3)) (withData exampleOut [1, 2, 3, 4])
      exampleRois :=
    validBackward_of_forward _ exampleOut exampleData exampleRois _ _ example_valid
      (by simp [exampleData]) rfl (fun n hn => (example_valid.batch_ind n hn).2)
  match backward_additive (exampleData.size0 : Int)
      (withData exampleData (List.replicate 48 3)) (withData exampleOut [1, 2, 3, 4])
      exampleRois (7 / 10) hv with
  | ⟨g', z, h1, h2, h3, h4, h5, _⟩ => ⟨g', z, h1, h2, by simpa [withData] using h3,
      by simpa [withData] using h4, h5⟩

/-- C8 as stated fails in the arithmetic of the kernel.  With `Dtype = float`, a zeroed
`1x1x2x2` buffer, the region `[0,0,0,0,0]` twice, pooled size `(2,2)` and the output
gradients `[2^24, 0, 0, 0]` for the first region and `[1, 1, 1, 1]` for the second, the
one call leaves `2^24` at `(0,0)`: the four `+= 1` of the second region round back
to `2^24`.  The two regions run alone give `2^24` and `4`, whose sum is
`2^24 + 4`. -/
theorem backward_not_sum_of_regions_in_float :
    ROIAlignBackwardAccFP zeroGradFP bigFirstOutGradFP twoOriginRoisFP (.fin 1)
      = some [.fin 16777216, .fin 0, .fin 0, .fin 0] ∧
    ROIAlignBackwardAccFP zeroGradFP bigOnlyOutGradFP originRoisFP (.fin 1)
      = some [.fin 16777216, .fin 0, .fin 0, .fin 0] ∧
    ROIAlignBackwardAccFP zeroGradFP onesOutGradFP originRoisFP (.fin 1)
      = some [.fin 4, .fin 0, .fin 0, .fin 0] ∧
    FP.add binary32 (.fin 16777216) (.fin 4) = .fin 16777220 ∧
    FP.fin 16777220 ≠ FP.fin 16777216 := by
  refine ⟨two_regions_backward, big_only_backward, zero_backward, ?_, ?_⟩
  · rw [FP.add_fin]
    exact r32_sum _ (by norm_num)
  · intro h
    injection h with h
    norm_num at h

/-- C8 (amended): in exact arithmetic, for every valid region list (regions may overlap
and may repeat a batch
index) and output gradient `G`, the result of `ROIAlignBackwardAcc` on a zeroed
buffer is, at every input cell, the sum over the regions `n` of the result of
`ROIAlignBackwardAcc` run on a zeroed buffer with the single region `n` and
that region's slice of `G`. -/
theorem backward_sum_of_regions (bs : Int) (in_grad out_grad : Tensor4) (bbox : Tensor2)
    (scale : ℚ) (hv : ValidBackward bs in_grad out_grad bbox) :
    ∃ z, ROIAlignBackwardAcc bs (zeroGrad in_grad) out_grad bbox scale = .ok z ∧
      (∀ n, n < bbox.size0 → ∃ zn,
        ROIAlignBackwardAcc bs (zeroGrad in_grad) (regionGrad out_grad n) (regionRois bbox n)
          scale = .ok zn) ∧
      ∀ j, z.getD j 0 = ∑ n in Finset.range bbox.size0,
        (resultOf (ROIAlignBackwardAcc bs (zeroGrad in_grad) (regionGrad out_grad n)
          (regionRois bbox n) scale)).getD j 0 := by
  obtain ⟨z, hz, -, hzv⟩ := backward_zero bs in_grad out_grad bbox scale hv
  have hreg : ∀ n, n < bbox.size0 → ∃ zn,
      ROIAlignBackwardAcc bs (zeroGrad in_grad) (regionGrad out_grad n) (regionRois bbox n)
        scale = .ok zn ∧ ∀ j, zn.getD j 0 = regionSum in_grad out_grad bbox scale n j := by
    intro n hn
    obtain ⟨zn, h, -, hv'⟩ := backward_zero bs in_grad (regionGrad out_grad n)
      (regionRois bbox n) scale (validBackward_region bs in_grad out_grad bbox hv n hn)
    refine ⟨zn, h, fun j => ?_⟩
    rw [hv' j]
    unfold backwardSum
    show ∑ m in Finset.range 1, regionSum in_grad (regionGrad out_grad n) (regionRois bbox n)
      scale m j = _
    rw [Finset.sum_range_one, regionSum_region bs in_grad out_grad bbox scale hv]
  refine ⟨z, hz, ?_, ?_⟩
  · intro n hn
    obtain ⟨zn, h, -⟩ := hreg n hn
    exact ⟨zn, h⟩
  · intro j
    rw [hzv j]
    unfold backwardSum
    refine Finset.sum_congr rfl (fun n hn => ?_)
    obtain ⟨zn, h, hzn⟩ := hreg n (Finset.mem_range.mp hn)
    rw [h]
    exact (hzn j).symm

/-- C8 (amended) at two overlapping regions of the example map, both in batch slice `0`. -/
theorem backward_sum_of_regions_witness :
    ∃ z, ROIAlignBackwardAcc (exampleData.size0 : Int) (zeroGrad exampleData) twoGrad twoRois 1
        = .ok z ∧
      (∀ n, n < twoRois.size0 → ∃ zn,
        ROIAlignBackwardAcc (exampleData.size0 : Int) (zeroGrad exampleData)
          (regionGrad twoGrad n) (regionRois twoRois n) 1 = .ok zn) ∧
      ∀ j, z.getD j 0 = ∑ n in Finset.range twoRois.size0,
        (resultOf (ROIAlignBackwardAcc (exampleData.size0 : Int) (zeroGrad exampleData)
          (regionGrad twoGrad n) (regionRois twoRois n) 1)).getD j 0 :=
  backward_sum_of_regions (exampleData.size0 : Int) exampleData twoGrad twoRois 1
    two_regions_valid

/-- C9 as stated fails: the region `[0,0,0,0,4]` has `x1 == x2`, yet the sample point
of its cell `(1,0)` has `y_ = 4`, not `y1 = 0`, and the pooled output
`[[0,0],[24,24]]` on the example map does not hold one value. -/
theorem zero_width_region_not_single_point :
    roiStartW zeroWidthRois 1 0 = roiEndW zeroWidthRois 1 0 ∧
    sampleH zeroWidthRois 1 2 0 1 ≠ roiStartH zeroWidthRois 1 0 ∧
    ROIAlignForward exampleOut exampleData zeroWidthRois 1 = .ok [0, 0, 24, 24] := by
  refine ⟨?_, ?_, ?_⟩
  · norm_num [roiStartW, roiEndW, zeroWidthRois]
  · norm_num [sampleH, sampleCoord, binSizeH, roiEndH, roiStartH, zeroWidthRois]
  · rw [forward_example zeroWidthRois 1 rfl (example_valid_of zeroWidthRois 0 0 0 4 rfl)]
    have h00 : specForward exampleData zeroWidthRois 1 2 2 0 0 0 0 = 0 := by
      norm_num [specForward, zeroWidthRois, castInt, exampleData_get, exampleData_size2,
        exampleData_size3, toNat_four]
    have h01 : specForward exampleData zeroWidthRois 1 2 2 0 0 0 1 = 0 := by
      norm_num [specForward, zeroWidthRois, castInt, exampleData_get, exampleData_size2,
        exampleData_size3, toNat_four]
    have h10 : specForward exampleData zeroWidthRois 1 2 2 0 0 1 0 = 24 := by
      norm_num [specForward, zeroWidthRois, castInt, exampleData_get, exampleData_size2,
        exampleData_size3, toNat_four]
    have h11 : specForward exampleData zeroWidthRois 1 2 2 0 0 1 1 = 24 := by
      norm_num [specForward, zeroWidthRois, castInt, exampleData_get, exampleData_size2,
        exampleData_size3, toNat_four]
    rw [h00, h01, h10, h11]

/-- C9 (amended): on a valid input, a region with scaled `x1 == x2` has every sample
column equal to `x1`, a region with scaled `y1 == y2` has every sample row
equal to `y1`, and a region with both has every sample point equal to
`(x1, y1)`, so that every cell of its pooled output in a given channel holds
the same value. -/
theorem zero_size_region_replicates (out X : Tensor4) (bbox : Tensor2) (scale : ℚ)
    (hv : ValidForward out X bbox) (n : Nat) (hn : n < bbox.size0) :
    (roiStartW bbox scale n = roiEndW bbox scale n →
      ∀ pw, sampleW bbox scale out.size3 n pw = roiStartW bbox scale n) ∧
    (roiStartH bbox scale n = roiEndH bbox scale n →
      ∀ ph, sampleH bbox scale out.size2 n ph = roiStartH bbox scale n) ∧
    (roiStartW bbox scale n = roiEndW bbox scale n →
      roiStartH bbox scale n = roiEndH bbox scale n →
      ∃ out', ROIAlignForward out X bbox scale = .ok out' ∧
        ∀ c ph pw, c < X.size1 → ph < out.size2 → pw < out.size3 →
          out'[flat4 X.size1 out.size2 out.size3 n c ph pw]?
            = out'[flat4 X.size1 out.size2 out.size3 n c 0 0]?) := by
  have hW : roiStartW bbox scale n = roiEndW bbox scale n →
      ∀ pw, sampleW bbox scale out.size3 n pw = roiStartW bbox scale n := by
    intro hx pw
    unfold sampleW sampleCoord binSizeW
    rw [hx, sub_self, max_self, zero_div, mul_zero, zero_add]
  have hH : roiStartH bbox scale n = roiEndH bbox scale n →
      ∀ ph, sampleH bbox scale out.size2 n ph = roiStartH bbox scale n := by
    intro hy ph
    unfold sampleH sampleCoord binSizeH
    rw [hy, sub_self, max_self, zero_div, mul_zero, zero_add]
  refine ⟨hW, hH, ?_⟩
  intro hx hy
  obtain ⟨out', h, -, hw⟩ := forward_flat out X bbox scale hv
  refine ⟨out', h, ?_⟩
  intro c ph pw hc hph hpw
  have hPH := hv.pooled_height
  have hPW := hv.pooled_width
  rw [hw n c ph pw hn hc hph hpw, hw n c 0 0 hn hc (by omega) (by omega)]
  have e1 : ∀ p, sampleCoord p (binSizeH bbox scale out.size2 n) (roiStartH bbox scale n)
      = roiStartH bbox scale n := hH hy
  have e2 : ∀ p, sampleCoord p (binSizeW bbox scale out.size3 n) (roiStartW bbox scale n)
      = roiStartW bbox scale n := hW hx
  unfold forwardValue cellValue
  simp only [e1, e2]

/-- C9 (amended) at the region `[0,2,3,2,3]` on the example map: all four cells hold
the value of the cell `(0,0)`. -/
theorem zero_size_region_replicates_witness :
    ∃ out', ROIAlignForward exampleOut exampleData pointRois 1 = .ok out' ∧
      ∀ c ph pw, c < exampleData.size1 → ph < exampleOut.size2 → pw < exampleOut.size3 →
        out'[flat4 exampleData.size1 exampleOut.size2 exampleOut.size3 0 c ph pw]?
          = out'[flat4 exampleData.size1 exampleOut.size2 exampleOut.size3 0 c 0 0]? :=
  (zero_size_region_replicates exampleOut exampleData pointRois 1
    (example_valid_of pointRois 2 3 2 3 rfl) 0 (by decide)).2.2
    (by norm_num [roiStartW, roiEndW, pointRois])
    (by norm_num [roiStartH, roiEndH, pointRois])

/-- C10: a malformed region is not an error and collapses to zero size along the
malformed axis.  On a valid input, when region `n` has scaled `x2 < x1`, both
kernels return, and return the same result as for the region list in which the
`x2` of region `n` is replaced by its `x1`; likewise for `y2 < y1` with `y2`
replaced by `y1`. -/
theorem malformed_region_collapses (bs : Int) (out X in_grad out_grad : Tensor4)
    (bbox : Tensor2) (scale : ℚ) (hf : ValidForward out X bbox)
    (hb : ValidBackward bs in_grad out_grad bbox) (n : Nat) (hn : n < bbox.size0) :
    (roiEndW bbox scale n < roiStartW bbox scale n →
      (∃ r, ROIAlignForward out X bbox scale = .ok r ∧
        ROIAlignForward out X (collapseW bbox n) scale = .ok r) ∧
      (∃ g, ROIAlignBackwardAcc bs in_grad out_grad bbox scale = .ok g ∧
        ROIAlignBackwardAcc bs in_grad out_grad (collapseW bbox n) scale = .ok g)) ∧
    (roiEndH bbox scale n < roiStartH bbox scale n →
      (∃ r, ROIAlignForward out X bbox scale = .ok r ∧
        ROIAlignForward out X (collapseH bbox n) scale = .ok r) ∧
      (∃ g, ROIAlignBackwardAcc bs in_grad out_grad bbox scale = .ok g ∧
        ROIAlignBackwardAcc bs in_grad out_grad (collapseH bbox n) scale = .ok g)) := by
  have hlen : n * 5 + 4 < bbox.dptr.length := by
    have := hf.bbox_len
    omega
  constructor
  · intro hx
    have hfld := fun PH PW m =>
      collapseW_fields bbox scale PH PW n (by omega) hx m
    have hlen' : (collapseW bbox n).dptr.length = bbox.dptr.length := List.length_set _ _ _
    exact ⟨forward_congr out X bbox (collapseW bbox n) scale scale hf
        (validForward_of_batch out X bbox _ hf rfl rfl hlen' (fun m _ => (hfld 0 0 m).1))
        (fun m _ => hfld out.size2 out.size3 m),
      backward_congr bs in_grad out_grad bbox (collapseW bbox n) scale scale hb
        (validBackward_of_batch bs in_grad out_grad bbox _ hb rfl rfl hlen'
          (fun m _ => (hfld 0 0 m).1))
        (fun m _ => hfld out_grad.size2 out_grad.size3 m)⟩
  · intro hy
    have hfld := fun PH PW m =>
      collapseH_fields bbox scale PH PW n hlen hy m
    have hlen' : (collapseH bbox n).dptr.length = bbox.dptr.length := List.length_set _ _ _
    exact ⟨forward_congr out X bbox (collapseH bbox n) scale scale hf
        (validForward_of_batch out X bbox _ hf rfl rfl hlen' (fun m _ => (hfld 0 0 m).1))
        (fun m _ => hfld out.size2 out.size3 m),
      backward_congr bs in_grad out_grad bbox (collapseH bbox n) scale scale hb
        (validBackward_of_batch bs in_grad out_grad bbox _ hb rfl rfl hlen'
          (fun m _ => (hfld 0 0 m).1))
        (fun m _ => hfld out_grad.size2 out_grad.size3 m)⟩

/-- C10 at the malformed region `[0,3,1,1,4]` on the example map: the forward
result is that of the region `[0,3,1,3,4]`, and so is the backward result for
the output gradient `[[1,2],[3,4]]`. -/
theorem malformed_region_collapses_witness :
    roiEndW malformedRois 1 0 < roiStartW malformedRois 1 0 ∧
    (∃ r, ROIAlignForward exampleOut exampleData malformedRois 1 = .ok r ∧
      ROIAlignForward exampleOut exampleData (collapseW malformedRois 0) 1 = .ok r) ∧
    (∃ g, ROIAlignBackwardAcc (exampleData.size0 : Int) (zeroGrad exampleData)
        (withData exampleOut [1, 2, 3, 4]) malformedRois 1 = .ok g ∧
      ROIAlignBackwardAcc (exampleData.size0 : Int) (zeroGrad exampleData)
        (withData exampleOut [1, 2, 3, 4]) (collapseW malformedRois 0) 1 = .ok g) :=
  have hx : roiEndW malformedRois 1 0 < roiStartW malformedRois 1 0 := by
    norm_num [roiStartW, roiEndW, malformedRois]
  have hf : ValidForward exampleOut exampleData malformedRois :=
    example_valid_of malformedRois 3 1 1 4 rfl
  ⟨hx, (malformed_region_collapses (exampleData.size0 : Int) exampleOut exampleData
    (zeroGrad exampleData) (withData exampleOut [1, 2, 3, 4]) malformedRois 1 hf
    (validBackward_of_forward _ exampleOut exampleData malformedRois _ _ hf
      (by simp [exampleData]) rfl (fun n hn => (hf.batch_ind n hn).2)) 0 (by decide)).1 hx⟩

/-- C11: the compiled `ROIAlignForward` does not check the batch index of a region: on
no input does it stop at an assertion.  On the example map, of batch size `1`, the
region `[5,100,100,200,200]` has the batch index `5` and the call returns
normally, with the four output elements set to `0`; the region `[1,0,0,4,4]` has
the batch index `1` and the call goes on to read the feature map at offset `48`,
past its `48` elements, where no precondition violation has been reported. -/
theorem forward_release_skips_batch_check :
    (∀ (out data : Tensor4) (bbox : Tensor2) (scale : ℚ) (mem : List ℚ),
      ROIAlignForwardRelease out data bbox scale ≠ .error (.assertion mem)) ∧
    (¬ batchIndOk exampleData farRois 0 ∧
      ROIAlignForwardRelease sevenOut exampleData farRois 1 = .ok [0, 0, 0, 0]) ∧
    (¬ batchIndOk exampleData secondSliceRois 0 ∧
      ROIAlignForwardRelease sevenOut exampleData secondSliceRois 1
        = .error (.access [7, 7, 7, 7])) := by
  refine ⟨forwardRelease_no_assertion, ⟨?_, ?_⟩, ?_, ?_⟩
  · simp [batchIndOk, roiBatchInd, castInt, farRois, exampleData]
  · have hcell : ∀ (data : List ℚ) (bd td : Int) (ph pw : Nat) (out : List ℚ),
        fwdCell data 8 6 2 100 100 100 100 bd td ph pw out
          = match store out (td + ((ph : Int) * 2 + (pw : Int))) 0 with
            | some out' => .ok out'
            | none => .error (.access out) := by
      intro data bd td ph pw out
      unfold fwdCell
      simp only []
      rw [if_pos]
      · rfl
      · right; left
        have : (0 : ℚ) ≤ (ph : ℚ) := Nat.cast_nonneg ph
        show ((8 : Nat) : ℚ) ≤ (ph : ℚ) * 100 + 100
        push_cast
        linarith
    have hroi : fwdRoiRelease exampleData sevenOut farRois 1 0 ⟨[7, 7, 7, 7], 0, 0⟩
        = .ok ⟨[0, 0, 0, 0], 4, 5⟩ := by
      norm_num [fwdRoiRelease, load, store, castInt, sevenOut, farRois, forLoop,
        fwdChannel, hcell, wrapInt32, show exampleData.size1 = 1 from rfl,
        show exampleData.size2 = 8 from rfl, show exampleData.size3 = 6 from rfl,
        show Int.toNat 1 = 1 from rfl,
        show Int.toNat 2 = 2 from rfl, show Int.toNat 3 = 3 from rfl,
        show Int.toNat 4 = 4 from rfl]
    show (match forLoop 1 (fwdRoiRelease exampleData sevenOut farRois 1)
        ⟨[7, 7, 7, 7], 0, 0⟩ with
      | .ok s => Except.ok s.out
      | .error e => .error e) = _
    simp only [forLoop, hroi]
  · simp [batchIndOk, roiBatchInd, castInt, secondSliceRois, exampleData]
  · have hcell : ∀ (top : Int) (out : List ℚ),
        fwdCell exampleData.dptr 8 6 2 0 0 4 4 48 top 0 0 out = .error (.access out) := by
      intro top out
      norm_num [fwdCell, sampleCoord, anchor, exampleData_load_none]
    have hroi : fwdRoiRelease exampleData sevenOut secondSliceRois 1 0 ⟨[7, 7, 7, 7], 0, 0⟩
        = .error (.access [7, 7, 7, 7]) := by
      norm_num [fwdRoiRelease, load, castInt, sevenOut, secondSliceRois, forLoop,
        fwdChannel, hcell, wrapInt32, show exampleData.size1 = 1 from rfl,
        show exampleData.size2 = 8 from rfl, show exampleData.size3 = 6 from rfl,
        show Int.toNat 1 = 1 from rfl,
        show Int.toNat 2 = 2 from rfl, show Int.toNat 3 = 3 from rfl,
        show Int.toNat 4 = 4 from rfl]
    show (match forLoop 1 (fwdRoiRelease exampleData sevenOut secondSliceRois 1)
        ⟨[7, 7, 7, 7], 0, 0⟩ with
      | .ok s => Except.ok s.out
      | .error e => .error e) = _
    simp only [forLoop, hroi]

/-- C12 as stated fails: with two regions of which the second has a batch index out of
range, the compiled `ROIAlignForward` reports no violation: it writes the four
output elements of the first region and goes on to read the feature map past its
end, the buffer `[7,7,7,7,7,7,7,7]` being `[0,4,24,28,7,7,7,7]` by then.  With the
assertions of lines 52-53 in force (`ROIAlignForward`) the call stops at the
assertion for the second region, the buffer being `[0,4,24,28,7,7,7,7]` as well. -/
theorem forward_failure_after_writes :
    (∃ n, n < badSecondRois.size0 ∧ ¬ batchIndOk exampleData badSecondRois n) ∧
    ROIAlignForwardRelease sevensOut exampleData badSecondRois 1
      = .error (.access [0, 4, 24, 28, 7, 7, 7, 7]) ∧
    ROIAlignForward sevensOut exampleData badSecondRois 1
      = .error (.assertion [0, 4, 24, 28, 7, 7, 7, 7]) ∧
    [(0 : ℚ), 4, 24, 28, 7, 7, 7, 7] ≠ sevensOut.dptr := by
  refine ⟨⟨1, by decide, bad_second_bad⟩, ?_, ?_, ?_⟩
  · have hpre := forward_release_first_regions sevensOut exampleData badSecondRois 1
      bad_second_shaped (by decide) 1 (by decide) bad_second_first_ok
    rw [bad_second_first_run] at hpre
    have hcell : ∀ (top : Int) (out : List ℚ),
        fwdCell exampleData.dptr 8 6 2 0 0 4 4 48 top 0 0 out = .error (.access out) := by
      intro top out
      norm_num [fwdCell, sampleCoord, anchor, exampleData_load_none]
    have hroi : fwdRoiRelease exampleData sevensOut badSecondRois 1 1
        ⟨[0, 4, 24, 28, 7, 7, 7, 7], 4, 5⟩
        = .error (.access [0, 4, 24, 28, 7, 7, 7, 7]) := by
      norm_num [fwdRoiRelease, load, castInt, sevensOut, badSecondRois, forLoop,
        fwdChannel, hcell, wrapInt32, show exampleData.size1 = 1 from rfl,
        show exampleData.size2 = 8 from rfl, show exampleData.size3 = 6 from rfl,
        show Int.toNat 5 = 5 from rfl, show Int.toNat 6 = 6 from rfl,
        show Int.toNat 7 = 7 from rfl, show Int.toNat 8 = 8 from rfl,
        show Int.toNat 9 = 9 from rfl]
    show (match forLoop 2 (fwdRoiRelease exampleData sevensOut badSecondRois 1)
        ⟨sevensOut.dptr, 0, 0⟩ with
      | .ok s => Except.ok s.out
      | .error e => .error e) = _
    have h2 : forLoop 2 (fwdRoiRelease exampleData sevensOut badSecondRois 1)
        ⟨sevensOut.dptr, 0, 0⟩ = .error (.access [0, 4, 24, 28, 7, 7, 7, 7]) := by
      simp only [forLoop] at hpre
      simp only [forLoop, hpre, hroi]
    rw [h2]
  · have hstop := forLoop_error (fwdRoi exampleData sevensOut badSecondRois 1)
      ⟨sevensOut.dptr, 0, 0⟩ ⟨[0, 4, 24, 28, 7, 7, 7, 7], 4, 5⟩ 1 _ bad_second_first_run
      (fwdRoi_assert sevensOut exampleData badSecondRois 1 bad_second_shaped 1 (by decide)
        bad_second_bad ⟨[0, 4, 24, 28, 7, 7, 7, 7], 4, 5⟩ rfl) 2 (by decide)
    show (match forLoop 2 (fwdRoi exampleData sevensOut badSecondRois 1)
        ⟨sevensOut.dptr, 0, 0⟩ with
      | .ok s => Except.ok s.out
      | .error e => .error e) = _
    rw [hstop]
  · intro h
    have := (List.cons.inj (List.cons.inj h).2).1
    norm_num at this

/-- C12 (amended): `ROIAlignForward` writes the output region by region and checks no
region ahead of its turn.  For every input of the right shapes, with a feature map
of fewer than `2^31` elements, and every `k` such that the regions before region `k`
have batch indices in range, the region loop reaches region `k` with the output
elements of the regions before `k` holding their forward values and every element
from region `k` on equal to its content before the call, whatever the batch index
of region `k`; this is so as the file compiles and with the assertions in force. -/
theorem forward_writes_region_by_region (out data : Tensor4) (bbox : Tensor2) (scale : ℚ)
    (hs : WellShaped out data bbox)
    (hsz : data.size0 * (data.size1 * (data.size2 * data.size3)) < 2147483648)
    (k : Nat) (hk : k ≤ bbox.size0) (hok : ∀ n, n < k → batchIndOk data bbox n) :
    ∃ s, forLoop k (fwdRoiRelease data out bbox scale) ⟨out.dptr, 0, 0⟩ = .ok s ∧
      forLoop k (fwdRoi data out bbox scale) ⟨out.dptr, 0, 0⟩ = .ok s ∧
      s.out.length = out.dptr.length ∧
      (∀ n c ph pw, n < k → c < data.size1 → ph < out.size2 → pw < out.size3 →
        s.out[flat4 data.size1 out.size2 out.size3 n c ph pw]?
          = some (forwardValue data bbox scale out.size2 out.size3 n c ph pw)) ∧
      (∀ i, k * (data.size1 * (out.size2 * out.size3)) ≤ i → s.out[i]? = out.dptr[i]?) := by
  obtain ⟨s, h, -, hl, hw, hf⟩ := fwd_rois_prefix out data bbox scale hs k hk hok
  refine ⟨s, ?_, h, hl, hw, hf⟩
  rw [forward_release_first_regions out data bbox scale hs hsz k hk hok, h]

/-- C12 (amended) at the two regions of which the second has a batch index out of
range: the loop reaches the second region with the elements of the first
written. -/
theorem forward_writes_region_by_region_witness :
    (∀ n, n < 1 → batchIndOk exampleData badSecondRois n) ∧
    ¬ batchIndOk exampleData badSecondRois 1 ∧
    ∃ s, forLoop 1 (fwdRoiRelease exampleData sevensOut badSecondRois 1)
        ⟨sevensOut.dptr, 0, 0⟩ = .ok s ∧
      forLoop 1 (fwdRoi exampleData sevensOut badSecondRois 1) ⟨sevensOut.dptr, 0, 0⟩
        = .ok s ∧
      s.out.length = sevensOut.dptr.length ∧
      (∀ n c ph pw, n < 1 → c < exampleData.size1 → ph < sevensOut.size2 →
        pw < sevensOut.size3 →
        s.out[flat4 exampleData.size1 sevensOut.size2 sevensOut.size3 n c ph pw]?
          = some (forwardValue exampleData badSecondRois 1 sevensOut.size2 sevensOut.size3
              n c ph pw)) ∧
      (∀ i, 1 * (exampleData.size1 * (sevensOut.size2 * sevensOut.size3)) ≤ i →
        s.out[i]? = sevensOut.dptr[i]?) :=
  ⟨bad_second_first_ok, bad_second_bad,
    forward_writes_region_by_region sevensOut exampleData badSecondRois 1 bad_second_shaped
      (by decide) 1 (by decide) bad_second_first_ok⟩

/-- C13 as stated fails: on a feature map of height `H = 1` and width `W = 2` the
sample point `(0, 0)` is inside `[0,H) x [0,W)`, the anchor row is
`min(0, H-2) = -1`, and `upleft = -2` is not in `[0, H*W)`; `ROIAlignForward`
on such a map stops at its first cell with an access outside `data`. -/
theorem one_row_neighbour_outside :
    inBounds 0 0 1 2 ∧ (neighbours 0 0 1 2).1 = -2 ∧
    ROIAlignForward exampleOut oneRowData originRois 1 = .error (.access [0, 0, 0, 0]) := by
  refine ⟨?_, ?_, ?_⟩
  · norm_num [inBounds]
  · norm_num [neighbours, anchor]
  · have hcell : ∀ top : Int, fwdCell [5, 6] 1 2 2 0 0 0 0 0 top 0 0 [0, 0, 0, 0]
        = .error (.access [0, 0, 0, 0]) := by
      intro top
      norm_num [fwdCell, load, sampleCoord, anchor]
    have hroi : fwdRoi oneRowData exampleOut originRois 1 0 ⟨[0, 0, 0, 0], 0, 0⟩
        = .error (.access [0, 0, 0, 0]) := by
      norm_num [fwdRoi, load, castInt, oneRowData, exampleOut, originRois, forLoop,
        fwdChannel, hcell, show Int.toNat 2 = 2 from rfl, show Int.toNat 3 = 3 from rfl,
        show Int.toNat 4 = 4 from rfl]
    show (match forLoop 1 (fwdRoi oneRowData exampleOut originRois 1) ⟨[0, 0, 0, 0], 0, 0⟩ with
      | .ok s => Except.ok s.out
      | .error e => .error e) = _
    simp only [forLoop, hroi]

/-- C13 (amended): for every feature map of height `H >= 2` and width `W >= 2` and
every sample point inside `[0,H) x [0,W)`, the flat offsets `upleft`, `upright`,
`downleft` and `downright` computed from the anchor all lie in `[0, H*W)`, also
when the sample lies in the last row or column. -/
theorem neighbours_in_plane (h_ w_ : ℚ) (H W : Nat) (hH : 2 ≤ H) (hW : 2 ≤ W)
    (hin : inBounds h_ w_ H W) :
    (0 ≤ (neighbours h_ w_ H W).1 ∧ (neighbours h_ w_ H W).1 < (H * W : Nat)) ∧
    (0 ≤ (neighbours h_ w_ H W).2.1 ∧ (neighbours h_ w_ H W).2.1 < (H * W : Nat)) ∧
    (0 ≤ (neighbours h_ w_ H W).2.2.1 ∧ (neighbours h_ w_ H W).2.2.1 < (H * W : Nat)) ∧
    (0 ≤ (neighbours h_ w_ H W).2.2.2 ∧ (neighbours h_ w_ H W).2.2.2 < (H * W : Nat)) := by
  obtain ⟨hay, hay2⟩ := anchor_bounds h_ H hin.1 hH
  obtain ⟨hax, hax2⟩ := anchor_bounds w_ W hin.2.2.1 hW
  have hroom := plane_room 0 H W _ _ hay2 hax2
  have e : anchor h_ H * (W : Int) + anchor w_ W
      = (((anchor h_ H).toNat * W + (anchor w_ W).toNat : Nat) : Int) := by
    push_cast; rw [hay, hax]
  unfold neighbours
  simp only [e]
  refine ⟨⟨?_, ?_⟩, ⟨?_, ?_⟩, ⟨?_, ?_⟩, ⟨?_, ?_⟩⟩ <;> omega

/-- C13 (amended) at the last row and column of an `8 x 6` plane: the sample point
`(15/2, 11/2)`. -/
theorem neighbours_in_plane_witness :
    (0 ≤ (neighbours (15 / 2) (11 / 2) 8 6).1 ∧ (neighbours (15 / 2) (11 / 2) 8 6).1 < (8 * 6 : Nat)) ∧
    (0 ≤ (neighbours (15 / 2) (11 / 2) 8 6).2.1
      ∧ (neighbours (15 / 2) (11 / 2) 8 6).2.1 < (8 * 6 : Nat)) ∧
    (0 ≤ (neighbours (15 / 2) (11 / 2) 8 6).2.2.1
      ∧ (neighbours (15 / 2) (11 / 2) 8 6).2.2.1 < (8 * 6 : Nat)) ∧
    (0 ≤ (neighbours (15 / 2) (11 / 2) 8 6).2.2.2
      ∧ (neighbours (15 / 2) (11 / 2) 8 6).2.2.2 < (8 * 6 : Nat)) :=
  neighbours_in_plane (15 / 2) (11 / 2) 8 6 (by decide) (by decide)
    (by norm_num [inBounds])

/-- C14: on every valid input `ROIAlignForward` stores to each of the
`num_regions*channels*PH*PW` offsets of the output buffer exactly once, in
increasing order, and to nothing else: the log of its stores is
`0, 1, ..., num_regions*channels*PH*PW - 1`, and every successful cell
iteration is one store to the logged offset.  The output after the call is
therefore independent of the content of the buffer before the call.  (The
feature map and the region list are arguments the kernel only loads from.) -/
theorem forward_writes_each_element_once (out data : Tensor4) (bbox : Tensor2) (scale : ℚ)
    (hv : ValidForward out data bbox) :
    ∃ out', ROIAlignForward out data bbox scale = .ok out' ∧
      ROIAlignForwardLog out data bbox scale
        = .ok (out', List.map (fun i : Nat => (i : Int))
            (List.range (bbox.size0 * (data.size1 * (out.size2 * out.size3))))) ∧
      out'.length = bbox.size0 * (data.size1 * (out.size2 * out.size3)) ∧
      (∀ d : List ℚ, d.length = out.dptr.length →
        ROIAlignForward (withData out d) data bbox scale = .ok out') ∧
      (∀ (H W PW : Nat) (y1 x1 bh bw : ℚ) (batch_data top_data : Int) (ph pw : Nat)
        (mem mem' : List ℚ),
        fwdCell data.dptr H W PW y1 x1 bh bw batch_data top_data ph pw mem = .ok mem' →
        ∃ v, store mem (top_data + ((ph : Int) * (PW : Int) + (pw : Int))) v = some mem') := by
  obtain ⟨out', h, hl, -⟩ := forward_flat out data bbox scale hv
  obtain ⟨s', hlog⟩ := fwdLog_rois out data bbox scale hv
  have hdrop := forwardLog_dropLog out data bbox scale
  have hfull : ROIAlignForwardLog out data bbox scale
      = .ok (s'.out, offsets 0 (bbox.size0 * (data.size1 * (out.size2 * out.size3)))) := by
    simp only [ROIAlignForwardLog, hlog]
  rw [hfull, h] at hdrop
  have hs : s'.out = out' := by
    injection hdrop
  have hoff : offsets 0 (bbox.size0 * (data.size1 * (out.size2 * out.size3)))
      = List.map (fun i : Nat => (i : Int))
          (List.range (bbox.size0 * (data.size1 * (out.size2 * out.size3)))) := by
    unfold offsets
    simp
  refine ⟨out', h, ?_, ?_, ?_, ?_⟩
  · rw [hfull, hs, hoff]
  · rw [hl, hv.out_len]
  · intro d hd
    obtain ⟨r, h1, h2⟩ := forward_independent out data bbox scale hv d hd
    rw [h] at h1
    injection h1 with h1
    rw [h2, h1]
  · intro H W PW y1 x1 bh bw batch_data top_data ph pw mem mem' hc
    exact fwdCell_one_store data.dptr H W PW y1 x1 bh bw batch_data top_data ph pw mem mem' hc

/-- C14 at the example of the operator description: the stores go to the offsets
`0, 1, 2, 3`, and an output buffer filled with `9` gives the same result. -/
theorem forward_writes_each_element_once_witness :
    ∃ out', ROIAlignForward exampleOut exampleData exampleRois (7 / 10) = .ok out' ∧
      ROIAlignForwardLog exampleOut exampleData exampleRois (7 / 10)
        = .ok (out', [0, 1, 2, 3]) ∧
      ROIAlignForward (withData exampleOut [9, 9, 9, 9]) exampleData exampleRois (7 / 10)
        = .ok out' :=
  match forward_writes_each_element_once exampleOut exampleData exampleRois (7 / 10)
      example_valid with
  | ⟨out', h1, h2, _, h4, _⟩ => ⟨out', h1, h2, h4 [9, 9, 9, 9] rfl⟩

/-- C15: the scale factor acts only by multiplying the four region coordinates.  On
every valid input, `ROIAlignForward` with the scale `s` returns the result of
`ROIAlignForward` with the scale `1` on the region list in which every `x1`,
`y1`, `x2`, `y2` is replaced by its product with `s` and every batch index is
left unscaled; the same holds for `ROIAlignBackwardAcc`. -/
theorem scale_multiplies_coordinates (bs : Int) (out X in_grad out_grad : Tensor4)
    (bbox : Tensor2) (s : ℚ) (hf : ValidForward out X bbox)
    (hb : ValidBackward bs in_grad out_grad bbox) :
    (∃ r, ROIAlignForward out X bbox s = .ok r ∧
      ROIAlignForward out X (scaleRois bbox s) 1 = .ok r) ∧
    (∃ g, ROIAlignBackwardAcc bs in_grad out_grad bbox s = .ok g ∧
      ROIAlignBackwardAcc bs in_grad out_grad (scaleRois bbox s) 1 = .ok g) := by
  have hlen := scaleRois_length bbox s
  constructor
  · exact forward_congr out X bbox (scaleRois bbox s) s 1 hf
      (validForward_of_batch out X bbox _ hf rfl rfl hlen
        (fun m _ => (scaleRois_fields bbox s 0 0 m).1))
      (fun m _ => scaleRois_fields bbox s out.size2 out.size3 m)
  · exact backward_congr bs in_grad out_grad bbox (scaleRois bbox s) s 1 hb
      (validBackward_of_batch bs in_grad out_grad bbox _ hb rfl rfl hlen
        (fun m _ => (scaleRois_fields bbox s 0 0 m).1))
      (fun m _ => scaleRois_fields bbox s out_grad.size2 out_grad.size3 m)

/-- C15 at the example of the operator description with the scale `7/10`. -/
theorem scale_multiplies_coordinates_witness :
    (∃ r, ROIAlignForward exampleOut exampleData exampleRois (7 / 10) = .ok r ∧
      ROIAlignForward exampleOut exampleData (scaleRois exampleRois (7 / 10)) 1 = .ok r) ∧
    (∃ g, ROIAlignBackwardAcc (exampleData.size0 : Int) (zeroGrad exampleData)
        (withData exampleOut [1, 2, 3, 4]) exampleRois (7 / 10) = .ok g ∧
      ROIAlignBackwardAcc (exampleData.size0 : Int) (zeroGrad exampleData)
        (withData exampleOut [1, 2, 3, 4]) (scaleRois exampleRois (7 / 10)) 1 = .ok g) :=
  scale_multiplies_coordinates (exampleData.size0 : Int) exampleOut exampleData
    (zeroGrad exampleData) (withData exampleOut [1, 2, 3, 4]) exampleRois (7 / 10)
    example_valid
    (validBackward_of_forward _ exampleOut exampleData exampleRois _ _ example_valid
      (by simp [exampleData]) rfl (fun n hn => (example_valid.batch_ind n hn).2))

/-- C16 as stated fails: the feature map of shape `2 x 1 x 65536 x 32768` with the region
`[1,0,0,1,1]` is a valid input with `H, W >= 2`, and the sample point `(0,0)` of
the first cell is inside the map; the 32-bit `data_size` is `-2^31`, and the
compiled `ROIAlignForward` stops at its first read, which is at a negative
offset. -/
theorem huge_plane_offset_wraps :
    ValidForward exampleOut hugeData hugeRois ∧
    inBounds (sampleH hugeRois 1 exampleOut.size2 0 0) (sampleW hugeRois 1 exampleOut.size3 0 0)
      hugeData.size2 hugeData.size3 ∧
    wrapInt32 ((hugeData.size1 * hugeData.size2 * hugeData.size3 : Nat) : Int)
      = -2147483648 ∧
    ROIAlignForwardRelease exampleOut hugeData hugeRois 1
      = .error (.access [0, 0, 0, 0]) := by
  refine ⟨huge_valid, ?_, ?_, huge_forward_faults⟩
  · norm_num [inBounds, sampleH, sampleW, sampleCoord, binSizeH, binSizeW, roiEndH, roiEndW,
      roiStartH, roiStartW, hugeRois, exampleOut, show hugeData.size2 = 65536 from rfl,
      show hugeData.size3 = 32768 from rfl]
  · norm_num [wrapInt32, show hugeData.size1 = 1 from rfl,
      show hugeData.size2 = 65536 from rfl, show hugeData.size3 = 32768 from rfl]

/-- C16 (amended): on valid inputs whose four buffers have fewer than `2^31` elements
each: for every sample point inside `[0,H) x [0,W)` the anchor satisfies
`0 <= hstart <= H-2` and `0 <= wstart <= W-2`, and the four offsets lie in
`[0, H*W)`; the channel plane of a region's batch slice lies inside the buffer; the
32-bit `data_size * roi_batch_ind` is the offset of that slice; `pool_index` and
the offset of every output element lie inside the output buffer; so neither
kernel, as the file compiles it, ever takes the out-of-range branch of the
embedding: both return. -/
theorem accesses_in_plane (out X in_grad out_grad : Tensor4) (bbox : Tensor2)
    (scale : ℚ) (hf : ValidForward out X bbox) (hb : ValidForward out_grad in_grad bbox)
    (hX : X.dptr.length < 2147483648) (hO : out.dptr.length < 2147483648)
    (hG : in_grad.dptr.length < 2147483648) (hOG : out_grad.dptr.length < 2147483648) :
    (∀ h_ w_ : ℚ, inBounds h_ w_ X.size2 X.size3 →
      (0 ≤ anchor h_ X.size2 ∧ anchor h_ X.size2 ≤ (X.size2 : Int) - 2) ∧
      (0 ≤ anchor w_ X.size3 ∧ anchor w_ X.size3 ≤ (X.size3 : Int) - 2) ∧
      (0 ≤ (neighbours h_ w_ X.size2 X.size3).1
        ∧ (neighbours h_ w_ X.size2 X.size3).2.2.2 < (X.size2 * X.size3 : Nat)) ∧
      (neighbours h_ w_ X.size2 X.size3).1 < (neighbours h_ w_ X.size2 X.size3).2.1 ∧
      (neighbours h_ w_ X.size2 X.size3).2.1 ≤ (neighbours h_ w_ X.size2 X.size3).2.2.1 ∧
      (neighbours h_ w_ X.size2 X.size3).2.2.1 < (neighbours h_ w_ X.size2 X.size3).2.2.2) ∧
    (∀ n c, n < bbox.size0 → c < X.size1 →
      X.size1 * X.size2 * X.size3 * (roiBatchInd bbox n).toNat + c * (X.size2 * X.size3)
        + X.size2 * X.size3 ≤ X.dptr.length) ∧
    (∀ n c, n < bbox.size0 → c < in_grad.size1 →
      in_grad.size1 * in_grad.size2 * in_grad.size3 * (roiBatchInd bbox n).toNat
        + c * (in_grad.size2 * in_grad.size3) + in_grad.size2 * in_grad.size3
        ≤ in_grad.dptr.length) ∧
    (∀ n, n < bbox.size0 →
      wrapInt32 (wrapInt32 ((X.size1 * X.size2 * X.size3 : Nat) : Int) * roiBatchInd bbox n)
        = ((X.size1 * X.size2 * X.size3 * (roiBatchInd bbox n).toNat : Nat) : Int)) ∧
    (∀ n, n < bbox.size0 →
      wrapInt32 (wrapInt32 ((in_grad.size1 * in_grad.size2 * in_grad.size3 : Nat) : Int)
          * roiBatchInd bbox n)
        = ((in_grad.size1 * in_grad.size2 * in_grad.size3
            * (roiBatchInd bbox n).toNat : Nat) : Int)) ∧
    (∀ n c ph pw, n < bbox.size0 → c < X.size1 → ph < out.size2 → pw < out.size3 →
      wrapInt32 ((ph : Int) * (out.size3 : Int) + (pw : Int))
        = (ph : Int) * (out.size3 : Int) + (pw : Int) ∧
      ph * out.size3 + pw ≤ flat4 X.size1 out.size2 out.size3 n c ph pw ∧
      flat4 X.size1 out.size2 out.size3 n c ph pw < out.dptr.length) ∧
    (∀ n c ph pw, n < bbox.size0 → c < in_grad.size1 → ph < out_grad.size2 →
      pw < out_grad.size3 →
      wrapInt32 ((ph : Int) * (out_grad.size3 : Int) + (pw : Int))
        = (ph : Int) * (out_grad.size3 : Int) + (pw : Int) ∧
      ph * out_grad.size3 + pw ≤ flat4 in_grad.size1 out_grad.size2 out_grad.size3 n c ph pw ∧
      flat4 in_grad.size1 out_grad.size2 out_grad.size3 n c ph pw < out_grad.dptr.length) ∧
    (∃ r, ROIAlignForwardRelease out X bbox scale = .ok r) ∧
    (∃ g, ROIAlignBackwardAccRelease in_grad out_grad bbox scale = .ok g) := by
  have hX' : X.size0 * (X.size1 * (X.size2 * X.size3)) < 2147483648 := by
    rw [← hf.data_len]; exact hX
  have hG' : in_grad.size0 * (in_grad.size1 * (in_grad.size2 * in_grad.size3))
      < 2147483648 := by
    rw [← hb.data_len]; exact hG
  have hbase : ∀ (D : Tensor4) (o : Tensor4), ValidForward o D bbox →
      D.size0 * (D.size1 * (D.size2 * D.size3)) < 2147483648 →
      ∀ n, n < bbox.size0 →
      wrapInt32 (wrapInt32 ((D.size1 * D.size2 * D.size3 : Nat) : Int) * roiBatchInd bbox n)
        = ((D.size1 * D.size2 * D.size3 * (roiBatchInd bbox n).toNat : Nat) : Int) := by
    intro D o hv hsz n hn
    obtain ⟨hb0, hb1⟩ := hv.batch_ind n hn
    have hassoc : D.size1 * D.size2 * D.size3 = D.size1 * (D.size2 * D.size3) :=
      Nat.mul_assoc _ _ _
    rw [wrap_base D.size0 (D.size1 * D.size2 * D.size3) (roiBatchInd bbox n) hb0 hb1
      (by rw [hassoc]; exact hsz)]
    have : ((roiBatchInd bbox n).toNat : Int) = roiBatchInd bbox n := Int.toNat_of_nonneg hb0
    push_cast
    rw [this]
  have hpool : ∀ (D : Tensor4) (o : Tensor4), ValidForward o D bbox →
      o.dptr.length < 2147483648 →
      ∀ n c ph pw, n < bbox.size0 → c < D.size1 → ph < o.size2 → pw < o.size3 →
      wrapInt32 ((ph : Int) * (o.size3 : Int) + (pw : Int))
        = (ph : Int) * (o.size3 : Int) + (pw : Int) ∧
      ph * o.size3 + pw ≤ flat4 D.size1 o.size2 o.size3 n c ph pw ∧
      flat4 D.size1 o.size2 o.size3 n c ph pw < o.dptr.length := by
    intro D o hv ho n c ph pw hn hc hph hpw
    have h1 : ph * o.size3 + pw ≤ flat4 D.size1 o.size2 o.size3 n c ph pw := by
      rw [flat4_eq]
      omega
    have h2 : flat4 D.size1 o.size2 o.size3 n c ph pw < o.dptr.length := by
      rw [hv.out_len]
      exact flat4_lt _ _ _ _ n c ph pw hn hc hph hpw
    refine ⟨?_, h1, h2⟩
    have e : (ph : Int) * (o.size3 : Int) + (pw : Int) = ((ph * o.size3 + pw : Nat) : Int) := by
      push_cast
      rfl
    rw [e]
    exact wrapInt32_of_range _ (by omega) (by omega)
  refine ⟨?_, ?_, ?_, hbase X out hf hX', hbase in_grad out_grad hb hG', hpool X out hf hO,
    hpool in_grad out_grad hb hOG, ?_, ?_⟩
  · intro h_ w_ hin
    have hH := hf.height
    have hW := hf.width
    obtain ⟨hay, hay2⟩ := anchor_bounds h_ X.size2 hin.1 hH
    obtain ⟨hax, hax2⟩ := anchor_bounds w_ X.size3 hin.2.2.1 hW
    have hroom := plane_room 0 X.size2 X.size3 _ _ hay2 hax2
    have e : anchor h_ X.size2 * (X.size3 : Int) + anchor w_ X.size3
        = (((anchor h_ X.size2).toNat * X.size3 + (anchor w_ X.size3).toNat : Nat) : Int) := by
      push_cast; rw [hay, hax]
    refine ⟨anchor_range h_ X.size2 hin.1 hH, anchor_range w_ X.size3 hin.2.2.1 hW, ?_⟩
    unfold neighbours
    simp only [e]
    refine ⟨⟨?_, ?_⟩, ?_, ?_, ?_⟩ <;> omega
  · intro n c hn hc
    exact base_room out X bbox hf n c hn hc
  · intro n c hn hc
    exact base_room out_grad in_grad bbox hb n c hn hc
  · obtain ⟨r, h, -⟩ := forward_flat out X bbox scale hf
    exact ⟨r, by rw [forward_release_eq out X bbox scale hf hX', h]⟩
  · have hvb : ValidBackward (in_grad.size0 : Int) in_grad out_grad bbox :=
      ⟨hb, fun n hn => (hb.batch_ind n hn).2⟩
    obtain ⟨g, h, -⟩ := backward_flat (in_grad.size0 : Int) in_grad out_grad bbox scale hvb
    exact ⟨g, by rw [backward_release_eq _ in_grad out_grad bbox scale hvb hG', h]⟩

/-- C16 (amended) at the example of the operator description. -/
theorem accesses_in_plane_witness :
    (exampleData.dptr.length < 2147483648 ∧ exampleOut.dptr.length < 2147483648) ∧
    (∃ r, ROIAlignForwardRelease exampleOut exampleData exampleRois (7 / 10) = .ok r) ∧
    (∃ g, ROIAlignBackwardAccRelease (zeroGrad exampleData)
      (withData exampleOut [1, 2, 3, 4]) exampleRois (7 / 10) = .ok g) :=
  have hX : exampleData.dptr.length < 2147483648 := by
    simp only [exampleData, List.length_map, List.length_range]
    decide
  have hG : (zeroGrad exampleData).dptr.length < 2147483648 := by
    simp [zeroGrad, withData, exampleData]
  ⟨⟨hX, by decide⟩,
    (accesses_in_plane exampleOut exampleData (zeroGrad exampleData)
      (withData exampleOut [1, 2, 3, 4]) exampleRois (7 / 10) example_valid
      (show ValidBackward (exampleData.size0 : Int) (zeroGrad exampleData)
          (withData exampleOut [1, 2, 3, 4]) exampleRois from
        validBackward_of_forward (exampleData.size0 : Int) exampleOut exampleData exampleRois
          _ _ example_valid (by simp [exampleData]) rfl
          (fun n hn => (example_valid.batch_ind n hn).2)).shapes
      hX (by decide) hG (by decide)).2.2.2.2.2.2.2⟩

/-- C17: the pooled grid spans the region corner to corner.  For every region with
scaled `x2 >= x1` and `y2 >= y1` and `PH, PW >= 2`, the cell `(0,0)` has its
sample point at `(x1, y1)`, the cell `(PH-1, PW-1)` has it at `(x2, y2)`, and
the sample coordinates are non-decreasing in `ph` and in `pw`. -/
theorem grid_spans_region (bbox : Tensor2) (scale : ℚ) (PH PW n : Nat)
    (hPH : 2 ≤ PH) (hPW : 2 ≤ PW)
    (hx : roiStartW bbox scale n ≤ roiEndW bbox scale n)
    (hy : roiStartH bbox scale n ≤ roiEndH bbox scale n) :
    sampleH bbox scale PH n 0 = roiStartH bbox scale n ∧
    sampleW bbox scale PW n 0 = roiStartW bbox scale n ∧
    sampleH bbox scale PH n (PH - 1) = roiEndH bbox scale n ∧
    sampleW bbox scale PW n (PW - 1) = roiEndW bbox scale n ∧
    (∀ p q, p ≤ q → sampleH bbox scale PH n p ≤ sampleH bbox scale PH n q) ∧
    (∀ p q, p ≤ q → sampleW bbox scale PW n p ≤ sampleW bbox scale PW n q) := by
  have cH : (((PH : Int) - 1 : Int) : ℚ) = (PH : ℚ) - 1 := by push_cast; ring
  have cW : (((PW : Int) - 1 : Int) : ℚ) = (PW : ℚ) - 1 := by push_cast; ring
  have nH : ((PH - 1 : Nat) : ℚ) = (PH : ℚ) - 1 := by
    rw [Nat.cast_sub (by omega)]; simp
  have nW : ((PW - 1 : Nat) : ℚ) = (PW : ℚ) - 1 := by
    rw [Nat.cast_sub (by omega)]; simp
  have pH : (0 : ℚ) < (PH : ℚ) - 1 := by
    have : (2 : ℚ) ≤ (PH : ℚ) := by exact_mod_cast hPH
    linarith
  have pW : (0 : ℚ) < (PW : ℚ) - 1 := by
    have : (2 : ℚ) ≤ (PW : ℚ) := by exact_mod_cast hPW
    linarith
  have bH : 0 ≤ binSizeH bbox scale PH n := by
    unfold binSizeH
    rw [cH]
    exact div_nonneg (le_max_right _ _) pH.le
  have bW : 0 ≤ binSizeW bbox scale PW n := by
    unfold binSizeW
    rw [cW]
    exact div_nonneg (le_max_right _ _) pW.le
  refine ⟨?_, ?_, ?_, ?_, ?_, ?_⟩
  · unfold sampleH sampleCoord
    simp
  · unfold sampleW sampleCoord
    simp
  · unfold sampleH sampleCoord binSizeH
    rw [cH, nH, max_eq_left (by linarith), mul_div_cancel₀ _ pH.ne']
    ring
  · unfold sampleW sampleCoord binSizeW
    rw [cW, nW, max_eq_left (by linarith), mul_div_cancel₀ _ pW.ne']
    ring
  · intro p q hpq
    unfold sampleH sampleCoord
    have : (p : ℚ) ≤ (q : ℚ) := by exact_mod_cast hpq
    nlinarith
  · intro p q hpq
    unfold sampleW sampleCoord
    have : (p : ℚ) ≤ (q : ℚ) := by exact_mod_cast hpq
    nlinarith

/-- C17 at the example of the operator description, with the scale `7/10`: the grid
runs from `(0,0)` to `(2.8, 2.8)`. -/
theorem grid_spans_region_witness :
    sampleH exampleRois (7 / 10) 2 0 0 = roiStartH exampleRois (7 / 10) 0 ∧
    sampleW exampleRois (7 / 10) 2 0 0 = roiStartW exampleRois (7 / 10) 0 ∧
    sampleH exampleRois (7 / 10) 2 0 (2 - 1) = roiEndH exampleRois (7 / 10) 0 ∧
    sampleW exampleRois (7 / 10) 2 0 (2 - 1) = roiEndW exampleRois (7 / 10) 0 ∧
    (∀ p q, p ≤ q → sampleH exampleRois (7 / 10) 2 0 p ≤ sampleH exampleRois (7 / 10) 2 0 q) ∧
    (∀ p q, p ≤ q → sampleW exampleRois (7 / 10) 2 0 p ≤ sampleW exampleRois (7 / 10) 2 0 q) :=
  grid_spans_region exampleRois (7 / 10) 2 2 0 (by decide) (by decide)
    (by norm_num [roiStartW, roiEndW, exampleRois])
    (by norm_num [roiStartH, roiEndH, exampleRois])

/-- C19: `ROIAlignBackwardAcc` conserves gradient mass.  For every valid input, the sum
of all elements of the gradient buffer after a call on a zeroed buffer equals
the sum of the output-gradient values over exactly those (region, channel,
cell) triples whose sample point is in bounds. -/
theorem backward_conserves_mass (bs : Int) (in_grad out_grad : Tensor4) (bbox : Tensor2)
    (scale : ℚ) (hv : ValidBackward bs in_grad out_grad bbox) :
    ∃ z, ROIAlignBackwardAcc bs (zeroGrad in_grad) out_grad bbox scale = .ok z ∧
      z.length = in_grad.dptr.length ∧
      ∑ j in Finset.range z.length, z.getD j 0
        = ∑ n in Finset.range bbox.size0, ∑ c in Finset.range in_grad.size1,
            ∑ ph in Finset.range out_grad.size2, ∑ pw in Finset.range out_grad.size3,
              if inBounds (sampleH bbox scale out_grad.size2 n ph)
                  (sampleW bbox scale out_grad.size3 n pw) in_grad.size2 in_grad.size3
              then out_grad.dptr.getD
                (flat4 in_grad.size1 out_grad.size2 out_grad.size3 n c ph pw) 0
              else 0 := by
  obtain ⟨z, hz, hl, hzv⟩ := backward_zero bs in_grad out_grad bbox scale hv
  refine ⟨z, hz, hl, ?_⟩
  rw [hl, ← backwardSum_mass bs in_grad out_grad bbox scale hv]
  exact Finset.sum_congr rfl (fun j _ => hzv j)

/-- C19 at the example of the operator description with the output gradient
`[[1,2],[3,4]]`. -/
theorem backward_conserves_mass_witness :
    ∃ z, ROIAlignBackwardAcc (exampleData.size0 : Int) (zeroGrad exampleData)
        (withData exampleOut [1, 2, 3, 4]) exampleRois (7 / 10) = .ok z ∧
      z.length = exampleData.dptr.length ∧
      ∑ j in Finset.range z.length, z.getD j 0
        = ∑ n in Finset.range exampleRois.size0, ∑ c in Finset.range exampleData.size1,
            ∑ ph in Finset.range exampleOut.size2, ∑ pw in Finset.range exampleOut.size3,
              if inBounds (sampleH exampleRois (7 / 10) exampleOut.size2 n ph)
                  (sampleW exampleRois (7 / 10) exampleOut.size3 n pw) exampleData.size2
                  exampleData.size3
              then [(1 : ℚ), 2, 3, 4].getD
                (flat4 exampleData.size1 exampleOut.size2 exampleOut.size3 n c ph pw) 0
              else 0 :=
  backward_conserves_mass (exampleData.size0 : Int) exampleData
    (withData exampleOut [1, 2, 3, 4]) exampleRois (7 / 10)
    (validBackward_of_forward _ exampleOut exampleData exampleRois exampleData.dptr _
      example_valid rfl rfl (fun n hn => (example_valid.batch_ind n hn).2))

end mshadow
